import Mathlib

/-!
# A verification development for the THORChain TSS session engine (go-tss)

Shallow embedding of the Go sources under `thorchain-tss-master`:

* `common/tss_helper.go` : `GetThreshold`, `getHighestFreq`, `verifySignature`
* `p2p/leader_provider.go` : `LeaderNode`
* `p2p/stream_helper.go` : `ReadStreamWithBuffer`, `WriteStreamWithBuffer`
* `conversion/conversion.go` : `BytesToHashString`, `AccPubKeysFromPartyIDs`
* `conversion/key_provider.go` : `GetPriKey`
* `p2p/peer_status.go` : `PeerStatus`
* `blame/` : `Blame`, `Manager`, `RoundMgr`, and the blame policies
  `NodeSyncBlame`, `GetBroadcastBlame`, `GetUnicastBlame`
* `common/tss.go` : the round engine `TssCommon`, from `ProcessOneMessage` down
* `tss/tss.go`, `tss/keysign.go` : `requestToMsgId`, `KeySign`

Conventions.

* Go `int`, `int32` and `uint32` values are integers, with an explicit
  wrap-around where the source can overflow; `float64` values are rationals
  rounded to 53 significant bits.  A byte is a natural number.
* A Go `error` result is an `Option` (`none` is `nil`) or an `Except`; a Go
  panic is the error of the outer `Except` of a `Go` computation.
* A Go `map` is an association list with pairwise distinct keys.  Where the
  result of ranging over a map can depend on the iteration order
  (`getHighestFreq`, the blame policies), the order is a choice of the
  environment (`Env`, `RangeOrder`).
* A pointer to a cache entry is the entry itself; a change made through the
  pointer is written to the cache under the key of the entry.
* Libraries outside the repository are parameters (`Env`, `ServerEnv`), except
  SHA-256, FNV-1, the little-endian length header and the hexadecimal decoding,
  which are written out; the standard base64 decoding is written out for
  concrete requests and for `GetPriKey`.
-/

deriving instance DecidableEq for Except

namespace GoTss

/-! ## `math.Ceil(float64(value)*2.0/3.0)` : IEEE 754 binary64 arithmetic -/

/-- Round a rational to the nearest integer, ties to the even integer
(the IEEE 754 default rounding direction `roundTiesToEven`). -/
def roundHalfEven (x : ℚ) : ℤ :=
  let f := Int.floor x
  let r := x - f
  if r < 1 / 2 then f
  else if 1 / 2 < r then f + 1
  else if f % 2 = 0 then f else f + 1

/-- The binary64 value nearest to the real `x`: 53 significant bits, ties to
even.  The exponent range is not modelled (no overflow, no subnormals); the
values that arise from a 64-bit `int` are `0` or lie in `[2/3, 2^64]`. -/
def f64Round (x : ℚ) : ℚ :=
  if x = 0 then 0
  else
    let e : ℤ := Int.log 2 |x|
    let ulp : ℚ := (2 : ℚ) ^ (e - 52)
    (roundHalfEven (x / ulp) : ℚ) * ulp

/-- Go conversion `float64(value)` of an `int`. -/
def f64OfInt (value : Int) : ℚ := f64Round (value : ℚ)

/-- Go `x * y` on `float64` operands. -/
def f64Mul (x y : ℚ) : ℚ := f64Round (x * y)

/-- Go `x / y` on `float64` operands (`y` non-zero). -/
def f64Div (x y : ℚ) : ℚ := f64Round (x / y)

/-- Go `math.Ceil`: exact, the result is an integer-valued float. -/
def mathCeil (x : ℚ) : ℚ := (Int.ceil x : ℚ)

/-- Go conversion `int(x)` of a `float64` in the `int` range: truncation. -/
def intOfF64 (x : ℚ) : Int := if 0 ≤ x then Int.floor x else Int.ceil x

/-- `GetThreshold` of `common/tss_helper.go`. -/
def GetThreshold (value : Int) : Except String Int :=
  if value < 0 then
    .error "negative input"
  else
    let threshold := intOfF64 (mathCeil (f64Div (f64Mul (f64OfInt value) 2) 3)) - 1
    .ok threshold

/-! ## `LeaderNode` : 32-bit FNV-1 -/

/-- One step of `hash/fnv` `sum32.Write`: multiply by the 32-bit FNV prime
(wrapping), then xor the byte. -/
def fnvStep (hash : Nat) (c : Nat) : Nat :=
  Nat.xor ((hash * 16777619) % 2 ^ 32) (c % 256)

/-- `fnv.New32()` followed by `Write(buf)` and `Sum32()`. -/
def fnv32 (buf : List Nat) : Nat := buf.foldl fnvStep 2166136261

/-- Go conversion `int32(x)` of a `uint32`: reinterpretation in two's complement. -/
def int32OfUint32 (x : Nat) : Int := if x < 2 ^ 31 then (x : Int) else (x : Int) - 2 ^ 32

/-- Wrap an integer into the `int32` range (result of an overflowing `int32` operation). -/
def wrapInt32 (x : Int) : Int := (x + 2 ^ 31) % 2 ^ 32 - 2 ^ 31

/-- `LeaderNode` of `p2p/leader_provider.go`.  `h.Write` of an FNV hash never
fails, so the `error` result is always nil and is left out.  `%` is Go's
truncated remainder (`Int.tmod`); for `numNodes = 0` it panics, and the error
of the result is that panic. -/
def LeaderNode (buf : List Nat) (numNodes : Int) : Except String Int :=
  let result := int32OfUint32 (fnv32 buf)
  let result := if result < 0 then wrapInt32 (result * -1) else result
  if numNodes = 0 then .error "integer divide by zero"
  else .ok (Int.tmod result numNodes)

/-- The bytes of an ASCII string (`[]byte(s)`): one byte per character. -/
def asciiBytes (s : String) : List Nat := s.toList.map Char.toNat

/-! ## Stream framing (`p2p/stream_helper.go`) -/

/-- Bytes are natural numbers; a byte read from a header is reduced `% 256`. -/
abbrev Bytes := List Nat

/-- `LengthHeader` : how many bytes are used as the header. -/
def LengthHeader : Nat := 4

/-- `MaxPayload` of `p2p/stream_helper.go` (`512000 // 512kb`). -/
def MaxPayload : Nat := 512000

/-- `binary.LittleEndian.PutUint32(lengthBytes, length)`. -/
def putUint32LE (v : Nat) : Bytes :=
  [v % 256, v / 256 % 256, v / 65536 % 256, v / 16777216 % 256]

/-- `binary.LittleEndian.Uint32(lengthBytes)` on a four byte buffer. -/
def uint32LE (b : Bytes) : Nat :=
  b.getD 0 0 % 256 + b.getD 1 0 % 256 * 256 + b.getD 2 0 % 256 * 65536
    + b.getD 3 0 % 256 * 16777216

/-- `io.ReadFull(reader, buf)` with `len(buf) = n` on a stream that holds the
bytes `stream` and is then at end of file: the `n` bytes read and the rest of
the stream, or `none` when fewer than `n` bytes are available. -/
def readFull (stream : Bytes) (n : Nat) : Option (Bytes × Bytes) :=
  if stream.length < n then none else some (stream.take n, stream.drop n)

/-- `WriteStreamWithBuffer` on an in-memory stream that accepts every write
and deadline: the bytes held by the stream afterwards.  `uint32(len(msg))`
wraps modulo `2^32`. -/
def WriteStreamWithBuffer (msg : Bytes) (stream : Bytes) : Option String × Bytes :=
  let length := msg.length % 2 ^ 32
  let lengthBytes := putUint32LE length
  let stream := stream ++ lengthBytes
  let stream := stream ++ msg
  if msg.length % 2 ^ 32 ≠ length then
    (some "short write", stream)
  else (none, stream)

/-- `ReadStreamWithBuffer` on a stream that holds `stream` (deadlines accepted):
the payload or the error text, and the bytes behind those that the two
`io.ReadFull` calls have returned.  These bytes are not what a later read of
the stream finds: the `bufio.Reader` takes up to its buffer size of 4096 bytes
off the stream in one read and is dropped on return, so what it has read ahead
of a following frame is lost.  The second component is what one call leaves
behind its own frame, not the state of the stream between two calls. -/
def ReadStreamWithBuffer (stream : Bytes) : Except String Bytes × Bytes :=
  match readFull stream LengthHeader with
  | none => (.error "error in read the message head", stream)
  | some (lengthBytes, rest) =>
    let length := uint32LE lengthBytes
    if length > MaxPayload then
      (.error "payload length exceed max payload length", rest)
    else
      match readFull rest length with
      | none => (.error "short read err", rest)
      | some (dataBuf, rest) => (.ok dataBuf, rest)

/-! ## SHA-256 (`crypto/sha256`) and `encoding/hex` -/

/-- Rotate a 32-bit word right. -/
def rotr32 (x n : Nat) : Nat := ((x >>> n) ||| (x <<< (32 - n))) % 2 ^ 32

/-- The round constants of SHA-256 (FIPS 180-4, 4.2.2): the first 32 bits of the
fractional parts of the cube roots of the first 64 primes. -/
def sha256K : List Nat :=
  [1116352408, 1899447441, 3049323471, 3921009573, 961987163, 1508970993,
   2453635748, 2870763221, 3624381080, 310598401, 607225278, 1426881987,
   1925078388, 2162078206, 2614888103, 3248222580, 3835390401, 4022224774,
   264347078, 604807628, 770255983, 1249150122, 1555081692, 1996064986,
   2554220882, 2821834349, 2952996808, 3210313671, 3336571891, 3584528711,
   113926993, 338241895, 666307205, 773529912, 1294757372, 1396182291,
   1695183700, 1986661051, 2177026350, 2456956037, 2730485921, 2820302411,
   3259730800, 3345764771, 3516065817, 3600352804, 4094571909, 275423344,
   430227734, 506948616, 659060556, 883997877, 958139571, 1322822218,
   1537002063, 1747873779, 1955562222, 2024104815, 2227730452, 2361852424,
   2428436474, 2756734187, 3204031479, 3329325298]

/-- The initial hash value of SHA-256 (FIPS 180-4, 5.3.3): the first 32 bits of
the fractional parts of the square roots of the first eight primes. -/
def sha256Init : List Nat :=
  [1779033703, 3144134277, 1013904242, 2773480762,
   1359893119, 2600822924, 528734635, 1541459225]

/-- Padding: the bit `1`, zeros, and the bit length as a 64-bit big-endian number. -/
def sha256Pad (msg : Bytes) : Bytes :=
  let bits := 8 * msg.length
  msg.map (fun b => b % 256) ++ [128] ++ List.replicate ((119 - msg.length % 64) % 64) 0 ++
    (List.range 8).map (fun i => bits / 256 ^ (7 - i) % 256)

/-- Big-endian 32-bit words of a byte string whose length is a multiple of four. -/
def beWords : Bytes → List Nat
  | b0 :: b1 :: b2 :: b3 :: rest => (b0 * 16777216 + b1 * 65536 + b2 * 256 + b3) :: beWords rest
  | _ => []

/-- The message schedule: `fuel` more words after the words `w` (newest first). -/
def sha256Schedule : Nat → List Nat → List Nat
  | 0, w => w
  | fuel + 1, w =>
    let w2 := w.getD 1 0
    let w7 := w.getD 6 0
    let w15 := w.getD 14 0
    let w16 := w.getD 15 0
    let s0 := (rotr32 w15 7 ^^^ rotr32 w15 18) ^^^ (w15 >>> 3)
    let s1 := (rotr32 w2 17 ^^^ rotr32 w2 19) ^^^ (w2 >>> 10)
    sha256Schedule fuel (((w16 + s0 + w7 + s1) % 2 ^ 32) :: w)

/-- One round of the compression function on the working variables `a … h`. -/
def sha256Round (s : List Nat) (kw : Nat × Nat) : List Nat :=
  match s with
  | [a, b, c, d, e, f, g, h] =>
    let S1 := (rotr32 e 6 ^^^ rotr32 e 11) ^^^ rotr32 e 25
    let ch := (e &&& f) ^^^ ((e ^^^ 4294967295) &&& g)
    let temp1 := (h + S1 + ch + kw.1 + kw.2) % 2 ^ 32
    let S0 := (rotr32 a 2 ^^^ rotr32 a 13) ^^^ rotr32 a 22
    let maj := ((a &&& b) ^^^ (a &&& c)) ^^^ (b &&& c)
    let temp2 := (S0 + maj) % 2 ^ 32
    [(temp1 + temp2) % 2 ^ 32, a, b, c, (d + temp1) % 2 ^ 32, e, f, g]
  | _ => s

/-- Compress one 64-byte block into the hash state. -/
def sha256Block (state : List Nat) (block : Bytes) : List Nat :=
  let w := (sha256Schedule 48 (beWords block).reverse).reverse
  let s := (sha256K.zip w).foldl sha256Round state
  List.zipWith (fun x y => (x + y) % 2 ^ 32) state s

/-- Split the padded message into 64-byte blocks and compress them in turn. -/
def sha256Blocks : Nat → List Nat → Bytes → List Nat
  | 0, state, _ => state
  | n + 1, state, data => sha256Blocks n (sha256Block state (data.take 64)) (data.drop 64)

/-- `sha256.Sum256`: the 32 bytes of the digest. -/
def sha256 (msg : Bytes) : Bytes :=
  let data := sha256Pad msg
  (sha256Blocks (data.length / 64) sha256Init data).flatMap
    (fun x => [x / 16777216 % 256, x / 65536 % 256, x / 256 % 256, x % 256])

/-- A hexadecimal digit, lowercase. -/
def hexDigit (n : Nat) : Char := "0123456789abcdef".toList.getD n '0'

/-- `hex.EncodeToString`. -/
def hexEncode (b : Bytes) : String :=
  String.mk (b.flatMap (fun x => [hexDigit (x / 16 % 16), hexDigit (x % 16)]))

/-- `conversion.BytesToHashString`: the lowercase hex encoding of the SHA-256
digest (`hash.Write` never returns an error, so neither does this function). -/
def BytesToHashString (msg : Bytes) : String := hexEncode (sha256 msg)

/-! ## Go values used by the round engine -/

/-- A Go `map[string]β`: an association list with pairwise distinct keys. -/
abbrev GoMap (β : Type) := List (String × β)

namespace GoMap

variable {β : Type}

/-- `v, ok := m[k]` (`none` when `ok` is false). -/
def get? (m : GoMap β) (k : String) : Option β := List.lookup k m

/-- `m[k] = v`. -/
def set : GoMap β → String → β → GoMap β
  | [], k, v => [(k, v)]
  | (k', v') :: m, k, v => if k' = k then (k, v) :: m else (k', v') :: set m k v

/-- `delete(m, k)`. -/
def delete (m : GoMap β) (k : String) : GoMap β := m.filter (fun p => p.1 ≠ k)

/-- The keys of the map. -/
def keys (m : GoMap β) : List String := m.map Prod.fst

/-- A well-formed Go map holds each key once. -/
def WF (m : GoMap β) : Prop := (keys m).Nodup

end GoMap

/-- `btss.PartyID` of tss-lib: `Id`, `Moniker`, `Key` and `Index`. -/
structure PartyID where
  Id : String
  Moniker : String
  Key : Bytes
  Index : Int
  deriving DecidableEq, Repr

/-- `btss.MessageRouting` (the two old-committee flags are never read). -/
structure MessageRouting where
  From : Option PartyID
  To : List PartyID
  IsBroadcast : Bool
  deriving DecidableEq, Repr

/-- Modelled from the spec: `messages.WireMessage` (its declaration in
`messages/p2p_message.go` is not among the sources): routing, round label,
payload bytes and the sender's signature. -/
structure WireMessage where
  Routing : Option MessageRouting
  RoundInfo : String
  Message : Bytes
  Sig : Bytes
  deriving DecidableEq, Repr

/-- Modelled from the spec: `WireMessage.GetCacheKey`, the cache key
`(sender PartyId, roundInfo)`, rendered `From.Id-RoundInfo` as
`TestWireMessage` expects (`"1-hello"`).  Only called with a routing and sender. -/
def WireMessage.GetCacheKey (m : WireMessage) : String :=
  match m.Routing with
  | some r =>
    match r.From with
    | some f => f.Id ++ "-" ++ m.RoundInfo
    | none => "-" ++ m.RoundInfo
  | none => "-" ++ m.RoundInfo

/-- Modelled from the spec: `messages.THORChainTSSMessageType`, the six message
types of a `WrappedMessage` and the `Unknown` value `getBroadcastMessageType`
returns. -/
inductive THORChainTSSMessageType
  | TSSKeyGenMsg
  | TSSKeySignMsg
  | TSSKeyGenVerMsg
  | TSSKeySignVerMsg
  | TSSControlMsg
  | TSSTaskDone
  | Unknown
  deriving DecidableEq, Repr

open THORChainTSSMessageType

/-- Modelled from the spec: `messages.BroadcastConfirmMessage`, a peer's hash
attestation `VerMsg{key, hash}` with the `P2PID` the receiver fills in. -/
structure BroadcastConfirmMessage where
  P2PID : String
  Key : String
  Hash : String
  deriving DecidableEq, Repr

/-- Modelled from the spec: `messages.TssControl`, the pull request
(`Msg = nil`) or pull response. -/
structure TssControl where
  ReqHash : String
  ReqKey : String
  RequestType : THORChainTSSMessageType
  Msg : Option WireMessage
  deriving DecidableEq, Repr

/-- Modelled from the spec: `messages.TssTaskNotifier`. -/
structure TssTaskNotifier where
  TaskDone : Bool
  deriving DecidableEq, Repr

/-- The payload bytes of an inbound `WrappedMessage`, identified with what
`json.Unmarshal` makes of them for each of the four Go types the dispatcher
decodes into (`none`: `Unmarshal` returns an error). -/
structure Payload where
  wire : Option WireMessage
  confirm : Option BroadcastConfirmMessage
  notifier : Option TssTaskNotifier
  control : Option TssControl
  deriving DecidableEq, Repr

/-- Modelled from the spec: `messages.WrappedMessage`, the outer envelope
`{messageType, msgID, payload}`. -/
structure WrappedMessage where
  MessageType : THORChainTSSMessageType
  MsgID : String
  Payload : Payload
  deriving DecidableEq, Repr

/-- What the engine marshals into an outbound `WrappedMessage`. -/
inductive OutPayload
  | confirm (m : BroadcastConfirmMessage)
  | control (m : Option TssControl)
  | notifier (m : TssTaskNotifier)
  deriving DecidableEq, Repr

/-- Modelled from the spec: `messages.BroadcastMsgChan`, one item pushed onto
the outbound broadcast channel: the wrapped message and its target peers. -/
structure BroadcastMsgChan where
  MessageType : THORChainTSSMessageType
  MsgID : String
  Payload : OutPayload
  PeersID : List String
  deriving DecidableEq, Repr

/-- Go `error` values of the engine: fresh errors, `%w` wrappers, the sentinel
errors of `blame/types.go` and the `*btss.Error` of the crypto library. -/
inductive GoError
  | new (msg : String)
  | wrap (msg : String) (cause : GoError)
  | ErrHashFromOwner
  | ErrNotEnoughPeer
  | ErrNotMajority
  | ErrTssTimeOut
  | ErrHashCheck
  | ErrHashInconsistency
  | btss (culprits : List PartyID)
  deriving DecidableEq, Repr

/-- `errors.Is(err, target)` for a sentinel `target`. -/
def GoError.is : GoError → GoError → Bool
  | .wrap m c, target => (GoError.wrap m c == target) || c.is target
  | e, target => e == target

/-- `err.Error()`. -/
def GoError.Error : GoError → String
  | .new msg => msg
  | .wrap msg cause => msg ++ cause.Error
  | .ErrHashFromOwner => " hash sent from data owner"
  | .ErrNotEnoughPeer => "not enough nodes to evaluate hash"
  | .ErrNotMajority => "message we received does not match the majority"
  | .ErrTssTimeOut => "error Tss Timeout"
  | .ErrHashCheck => "error in processing hash check"
  | .ErrHashInconsistency => "fail to agree on the hash value"
  | .btss _ => "tss-lib error"

/-! ## The blame package (`blame/`) -/

/-- `blame.Node`. -/
structure Node where
  Pubkey : String
  BlameData : Bytes
  BlameSignature : Bytes
  deriving DecidableEq, Repr

/-- `blame.NewNode`. -/
def NewNode (pk : String) (blameData blameSig : Bytes) : Node :=
  { Pubkey := pk, BlameData := blameData, BlameSignature := blameSig }

/-- `blame.Blame`. -/
structure Blame where
  FailReason : String
  IsUnicast : Bool
  BlameNodes : List Node
  deriving DecidableEq, Repr

/-- `blame.HashCheckFail`. -/
def HashCheckFail : String := "hash check failed"

/-- `Blame.SetBlame`. -/
def Blame.SetBlame (b : Blame) (reason : String) (nodes : List Node) (isUnicast : Bool) : Blame :=
  { FailReason := reason, IsUnicast := isUnicast, BlameNodes := b.BlameNodes ++ nodes }

/-- The local crypto party (`btss.Party`) as far as the engine reads it: its
own party id. -/
structure Party where
  partyID : PartyID
  deriving DecidableEq, Repr

/-- `PartyInfo` (`common/tss.go`, `blame/types.go`): the party, `nil` in some
tests, and the map from party id string to `*btss.PartyID`, whose values can be
`nil` pointers. -/
structure PartyInfo where
  Party : Option Party
  PartyIDMap : GoMap (Option PartyID)
  deriving DecidableEq, Repr

/-- `blame.Manager`.  `shareMgr` is modelled from the spec (the pending-request
set of the pull protocol; `blame/share_mgr.go` is not among the sources);
`roundMgr` is the `storedMsg` map of `RoundMgr`, whose values can be `nil`. -/
structure Manager where
  blame : Blame
  lastUnicastPeer : GoMap (List String)
  shareMgr : GoMap Bool
  roundMgr : GoMap (Option WireMessage)
  partyInfo : Option PartyInfo
  PartyIDtoP2PID : GoMap String
  deriving DecidableEq, Repr

/-- `RoundMgr.Get`. -/
def Manager.roundGet (m : Manager) (key : String) : Option WireMessage :=
  match m.roundMgr.get? key with
  | some ret => ret
  | none => none

/-- `RoundMgr.Set`. -/
def Manager.roundSet (m : Manager) (key : String) (msg : Option WireMessage) : Manager :=
  { m with roundMgr := m.roundMgr.set key msg }

/-- Modelled from the spec: `ShareMgr.Set`, record `reqHash` in the
pending-request set. -/
def Manager.shareSet (m : Manager) (key : String) : Manager :=
  { m with shareMgr := m.shareMgr.set key true }

/-- Modelled from the spec: `ShareMgr.QueryAndDelete`, whether the hash is a
pending request, which is then no longer pending. -/
def Manager.shareQueryAndDelete (m : Manager) (key : String) : Bool × Manager :=
  ((m.shareMgr.get? key).getD false, { m with shareMgr := m.shareMgr.delete key })

/-- `Manager.SetLastUnicastPeer`. -/
def Manager.SetLastUnicastPeer (m : Manager) (peerID : String) (roundInfo : String) : Manager :=
  match m.lastUnicastPeer.get? roundInfo with
  | none => { m with lastUnicastPeer := m.lastUnicastPeer.set roundInfo [peerID] }
  | some l => { m with lastUnicastPeer := m.lastUnicastPeer.set roundInfo (l ++ [peerID]) }

/-! ## The environment of the engine: libraries and the Go runtime -/

/-- One call of `Party.UpdateFromBytes(wireBytes, from, isBroadcast)`. -/
structure PartyUpdate where
  wireBytes : Bytes
  sender : Option PartyID
  isBroadcast : Bool
  deriving DecidableEq, Repr

/-- What the engine takes from outside the repository. -/
structure Env where
  /-- `secp256k1.PubKeySecp256k1.VerifyBytes(data, sig)` of the 33-byte key. -/
  verifyBytes : Bytes → Bytes → Bytes → Bool
  /-- Whether `peer.Decode` accepts the string (peer ids are kept in string form). -/
  peerDecode : String → Bool
  /-- `conversion.PartyIDtoPubKey` on a non-nil party: `ValidateBasic` and the
  bech32 encoding of the cosmos SDK. -/
  partyIDtoPubKey : PartyID → Option String
  /-- `Party.UpdateFromBytes` of tss-lib, as a function of the earlier calls on
  this party and of this call: `none`, or the culprits of the `*btss.Error`. -/
  updateFromBytes : List PartyUpdate → PartyUpdate → Option (List PartyID)
  /-- The order in which the Go runtime ranges over the `freq` map of
  `getHighestFreq` with the given content. -/
  rangeFreq : List (String × Nat) → List (String × Nat)
  /-- Ranging over a map visits every entry once. -/
  rangeFreq_perm : ∀ freq, (rangeFreq freq).Perm freq

/-- `copy(pk[:], keyBytes)` into a zeroed `secp256k1.PubKeySecp256k1` (33 bytes). -/
def pubKeyOfBytes (keyBytes : Bytes) : Bytes :=
  keyBytes.take 33 ++ List.replicate (33 - keyBytes.length) 0

/-- `verifySignature` of `common/tss_helper.go`: verify over `message ‖ msgID`. -/
def verifySignature (env : Env) (pubKey : Bytes) (message sig : Bytes) (msgID : String) : Bool :=
  let dataForSign := message ++ msgID.toUTF8.toList.map (fun b => b.toNat)
  env.verifyBytes pubKey dataForSign sig

/-! ## `getHighestFreq` (`common/tss_helper.go`) -/

/-- `strconv.FormatInt(int64(f), 10)` for `f ≥ 0`, as the sequence of decimal
digits, most significant first (comparing digit sequences lexicographically is
comparing the decimal strings byte-wise). -/
def formatInt (f : Nat) : List Nat :=
  if f = 0 then [0] else (Nat.digits 10 f).reverse

/-- `strconv.Atoi` on a sequence of decimal digits. -/
def atoi (s : List Nat) : Nat := Nat.ofDigits 10 s.reverse

/-- The `freq[n]++` loop: how many peers attest each hash (the content of
`freq` does not depend on the order of the loop). -/
def countFreq : GoMap String → GoMap Nat
  | [] => []
  | (_, n) :: rest =>
    let freq := countFreq rest
    freq.set n ((freq.get? n).getD 0 + 1)

/-- `sort.Slice(sFreq, less)` with `less(i, j) = sFreq[i][1] > sFreq[j][1]`,
a comparison of the decimal strings.  The sort of the Go library is an insertion
sort below twelve elements, which is stable; the model is the stable sort. -/
def sortSFreq (sFreq : List (String × List Nat)) : List (String × List Nat) :=
  sFreq.insertionSort (fun a b => ¬ (b.2 > a.2))

/-- `getHighestFreq`. -/
def getHighestFreq (env : Env) (confirmedList : GoMap String) : Except GoError (String × Int) :=
  if confirmedList.length = 0 then
    .error (.new "empty input")
  else
    let freq := countFreq confirmedList
    let sFreq := (env.rangeFreq freq).map (fun p => (p.1, formatInt p.2))
    let sFreq := sortSFreq sFreq
    match sFreq with
    | [] => .error (.new "unreachable: sFreq is not empty")
    | first :: _ => .ok (first.1, (atoi first.2 : Int))

/-! ## The round engine (`common/tss.go`) -/

/-- Modelled from the spec: `LocalCacheItem`, the cache entry
`{wireMessage (nullable), localHash, confirmedList: map<peerId, hash>}` (its
declaration is not among the sources). -/
structure LocalCacheItem where
  Msg : Option WireMessage
  Hash : String
  ConfirmedList : GoMap String
  deriving DecidableEq, Repr

/-- Modelled from the spec: `NewLocalCacheItem(msg, hash)`, an entry with an
empty `confirmedList`. -/
def NewLocalCacheItem (msg : Option WireMessage) (hash : String) : LocalCacheItem :=
  { Msg := msg, Hash := hash, ConfirmedList := [] }

/-- Modelled from the spec: `UpdateConfirmList(P2PID, hash)`,
`confirmedList[P2PID] = hash`. -/
def LocalCacheItem.UpdateConfirmList (l : LocalCacheItem) (P2PID hash : String) : LocalCacheItem :=
  { l with ConfirmedList := l.ConfirmedList.set P2PID hash }

/-- Modelled from the spec: `TotalConfirmParty()`, `|confirmedList|`. -/
def LocalCacheItem.TotalConfirmParty (l : LocalCacheItem) : Int := l.ConfirmedList.length

/-- `TssCommon`: the state of one session of the round engine.  Locks, the
logger, the configuration and the private key are left out.  `taskDone` tells
whether the channel has been closed; `broadcastChannel` is `none` for a nil
channel and else holds the items pushed so far; `partyUpdates` records the
calls made to `Party.UpdateFromBytes`, oldest first. -/
structure TssCommon where
  partyInfo : Option PartyInfo
  PartyIDtoP2PID : GoMap String
  unConfirmedMessages : GoMap LocalCacheItem
  localPeerID : String
  broadcastChannel : Option (List BroadcastMsgChan)
  P2PPeers : List String
  msgID : String
  taskDone : Bool
  blameMgr : Manager
  finishedPeers : GoMap Bool
  partyUpdates : List PartyUpdate
  deriving DecidableEq, Repr

/-- `blame.NewBlameManager`. -/
def NewBlameManager : Manager :=
  { blame := { FailReason := "", IsUnicast := false, BlameNodes := [] },
    lastUnicastPeer := [], shareMgr := [], roundMgr := [], partyInfo := none,
    PartyIDtoP2PID := [] }

/-- `NewTssCommon`. -/
def NewTssCommon (peerID : String) (broadcastChannel : Option (List BroadcastMsgChan))
    (msgID : String) : TssCommon :=
  { partyInfo := none, PartyIDtoP2PID := [], unConfirmedMessages := [],
    localPeerID := peerID, broadcastChannel := broadcastChannel, P2PPeers := [],
    msgID := msgID, taskDone := false, blameMgr := NewBlameManager,
    finishedPeers := [], partyUpdates := [] }

/-- A computation of the engine: its value, or a Go panic (which ends the
process: `ProcessInboundMessages` does not recover). -/
abbrev Go (α : Type) := Except String α

/-- `renderToP2P`. -/
def TssCommon.renderToP2P (t : TssCommon) (broadcastMsg : BroadcastMsgChan) : TssCommon :=
  match t.broadcastChannel with
  | none => t
  | some ch => { t with broadcastChannel := some (ch ++ [broadcastMsg]) }

/-- `TryGetLocalCacheItem`. -/
def TssCommon.TryGetLocalCacheItem (t : TssCommon) (key : String) : Option LocalCacheItem :=
  t.unConfirmedMessages.get? key

/-- `updateLocalUnconfirmedMessages`; also how the model writes back an entry
changed through the pointer the cache holds. -/
def TssCommon.updateLocalUnconfirmedMessages (t : TssCommon) (key : String)
    (cacheItem : LocalCacheItem) : TssCommon :=
  { t with unConfirmedMessages := t.unConfirmedMessages.set key cacheItem }

/-- `removeKey`. -/
def TssCommon.removeKey (t : TssCommon) (key : String) : TssCommon :=
  { t with unConfirmedMessages := t.unConfirmedMessages.delete key }

/-- `conversion.PartyIDtoPubKey`. -/
def PartyIDtoPubKey (env : Env) (party : Option PartyID) : Except GoError String :=
  match party with
  | none => .error (.new "invalid party")
  | some p =>
    match env.partyIDtoPubKey p with
    | none => .error (.new "invalid party")
    | some pk => .ok pk

/-- `conversion.AccPubKeysFromPartyIDs`. -/
def AccPubKeysFromPartyIDs (env : Env) (partyIDs : List String)
    (partyIDMap : GoMap (Option PartyID)) : Except GoError (List String) :=
  match partyIDs with
  | [] => .ok []
  | partyID :: rest =>
    match partyIDMap.get? partyID with
    | none => .error (.new "cannot find the blame party")
    | some blameParty =>
      match PartyIDtoPubKey env blameParty with
      | .error e => .error e
      | .ok blamedPubKey =>
        match AccPubKeysFromPartyIDs env rest partyIDMap with
        | .error e => .error e
        | .ok pubKeys => .ok (blamedPubKey :: pubKeys)

/-- `Manager.TssWrongShareBlame`; it panics on a nil `partyInfo` of the blame
manager, on a message without routing or sender. -/
def Manager.TssWrongShareBlame (env : Env) (m : Manager) (wiredMsg : Option WireMessage) :
    Go (Except GoError String) :=
  match wiredMsg with
  | none => .error "nil pointer dereference: wiredMsg"
  | some w =>
    match w.Routing with
    | none => .error "nil pointer dereference: wiredMsg.Routing"
    | some r =>
      match r.From with
      | none => .error "nil pointer dereference: shareOwner"
      | some shareOwner =>
        match m.partyInfo with
        | none => .error "nil pointer dereference: m.partyInfo"
        | some partyInfo =>
          match partyInfo.PartyIDMap.get? shareOwner.Id with
          | none => .ok (.error (.new "fail to find the share Owner"))
          | some owner => .ok (PartyIDtoPubKey env owner)

/-- `TssCommon.processInvalidMsgBlame`, given the culprits of the `*btss.Error`. -/
def TssCommon.processInvalidMsgBlame (env : Env) (t : TssCommon) (wireMsg : WireMessage)
    (culprits : List PartyID) : Go (TssCommon × Option GoError) :=
  match wireMsg.Routing with
  | none => .error "nil pointer dereference: wireMsg.Routing"
  | some routing =>
    let unicast := !routing.IsBroadcast
    let culpritsID := culprits.map (fun el => el.Id)
    let invalidMsgs := culprits.map
      (fun el => t.blameMgr.roundGet (el.Id ++ "-" ++ wireMsg.RoundInfo))
    match t.partyInfo with
    | none => .error "nil pointer dereference: t.partyInfo"
    | some partyInfo =>
      match AccPubKeysFromPartyIDs env culpritsID partyInfo.PartyIDMap with
      | .error _ =>
        let blame := t.blameMgr.blame.SetBlame HashCheckFail [] unicast
        .ok ({ t with blameMgr := { t.blameMgr with blame := blame } },
          some (.new "error in getting the blame nodes"))
      | .ok pubkeys =>
        let blameNodes := List.zipWith
          (fun pk (invalidMsg : Option WireMessage) =>
            match invalidMsg with
            | none => NewNode pk [] []
            | some m => NewNode pk m.Message m.Sig)
          pubkeys invalidMsgs
        let blame := t.blameMgr.blame.SetBlame HashCheckFail blameNodes unicast
        .ok ({ t with blameMgr := { t.blameMgr with blame := blame } },
          some (.wrap "fail to set bytes to local party: " (.btss culprits)))

/-- `TssCommon.updateLocal`: apply the wire message to the local party.  For a
sender that is not in `PartyIDMap` the error message reads `partyID.Id` of the
nil `partyID`, a nil pointer dereference. -/
def TssCommon.updateLocal (env : Env) (t : TssCommon) (wireMsg : Option WireMessage) :
    Go (TssCommon × Option GoError) :=
  match wireMsg with
  | none => .ok (t, some (.new "invalid wireMsg"))
  | some w =>
    match w.Routing with
    | none => .ok (t, some (.new "invalid wireMsg"))
    | some routing =>
      match routing.From with
      | none => .ok (t, some (.new "invalid wireMsg"))
      | some sender =>
        match t.partyInfo with
        | none => .ok (t, none)
        | some partyInfo =>
          match partyInfo.PartyIDMap.get? sender.Id with
          | none => .error "nil pointer dereference: partyID.Id"
          | some partyID =>
            match t.PartyIDtoP2PID.get? sender.Id with
            | none => .ok (t, some (.new "fail to find the peer"))
            | some dataOwnerPeerID =>
              let t := if !routing.IsBroadcast then
                  { t with blameMgr := t.blameMgr.SetLastUnicastPeer dataOwnerPeerID w.RoundInfo }
                else t
              match partyInfo.Party with
              | none => .error "nil pointer dereference: partyInfo.Party"
              | some _ =>
                let call : PartyUpdate :=
                  { wireBytes := w.Message, sender := partyID, isBroadcast := routing.IsBroadcast }
                let res := env.updateFromBytes t.partyUpdates call
                let t := { t with partyUpdates := t.partyUpdates ++ [call] }
                match res with
                | some culprits => t.processInvalidMsgBlame env w culprits
                | none => .ok (t, none)

/-- `TssCommon.getMsgHash`. -/
def getMsgHash (env : Env) (localCacheItem : LocalCacheItem) (threshold : Int) :
    Except GoError String :=
  match getHighestFreq env localCacheItem.ConfirmedList with
  | .error _ => .error .ErrHashCheck
  | .ok (hash, freq) =>
    if freq < threshold - 1 then .error .ErrHashInconsistency
    else .ok hash

/-- `TssCommon.hashCheck`: the entry as the check leaves it (the data owner's
attestation is deleted from `ConfirmedList` when found) and the error. -/
def TssCommon.hashCheck (env : Env) (t : TssCommon) (localCacheItem : LocalCacheItem)
    (threshold : Int) : Go (LocalCacheItem × Option GoError) :=
  match localCacheItem.Msg with
  | none => .error "nil pointer dereference: localCacheItem.Msg"
  | some msg =>
    match msg.Routing with
    | none => .error "nil pointer dereference: Msg.Routing"
    | some routing =>
      match routing.From with
      | none => .error "nil pointer dereference: dataOwner"
      | some dataOwner =>
        match t.PartyIDtoP2PID.get? dataOwner.Id with
        | none => .ok (localCacheItem, some (.new "error in find the data Owner P2PID"))
        | some dataOwnerP2PID =>
          if localCacheItem.TotalConfirmParty < threshold then
            .ok (localCacheItem, some .ErrNotEnoughPeer)
          else
            let targetHashValue := localCacheItem.Hash
            if dataOwnerP2PID ∈ localCacheItem.ConfirmedList.keys then
              .ok ({ localCacheItem with
                      ConfirmedList := localCacheItem.ConfirmedList.delete dataOwnerP2PID },
                some .ErrHashFromOwner)
            else
              match getMsgHash env localCacheItem threshold with
              | .error err => .ok (localCacheItem, some err)
              | .ok hash =>
                if targetHashValue = hash then .ok (localCacheItem, none)
                else .ok (localCacheItem, some .ErrNotMajority)

/-- `TssCommon.processRequestMsgFromPeer`. -/
def TssCommon.processRequestMsgFromPeer (t : TssCommon) (peersID : List String)
    (msg : Option TssControl) (requester : Bool) : Go (TssCommon × Option GoError) :=
  if !requester then
    match msg with
    | none => .ok (t, some (.new "empty message"))
    | some m =>
      match t.blameMgr.roundGet m.ReqKey with
      | none => .ok (t, none)
      | some storedMsg =>
        let m := { m with Msg := some storedMsg }
        .ok (t.renderToP2P
          { MessageType := TSSControlMsg, MsgID := t.msgID, Payload := .control (some m),
            PeersID := peersID }, none)
  else
    .ok (t.renderToP2P
      { MessageType := TSSControlMsg, MsgID := t.msgID, Payload := .control msg,
        PeersID := peersID }, none)

/-- The loop of `requestShareFromPeer` over `ConfirmedList`: the peers that
attest `targetHash`, or `none` when `peer.Decode` rejects one of them. -/
def matchingPeers (env : Env) (targetHash : String) : GoMap String → Option (List String)
  | [] => some []
  | (thisPeerStr, hash) :: rest =>
    if hash = targetHash then
      if env.peerDecode thisPeerStr then
        match matchingPeers env targetHash rest with
        | none => none
        | some peersIDs => some (thisPeerStr :: peersIDs)
      else none
    else matchingPeers env targetHash rest

/-- `TssCommon.requestShareFromPeer`. -/
def TssCommon.requestShareFromPeer (env : Env) (t : TssCommon) (localCacheItem : LocalCacheItem)
    (threshold : Int) (key : String) (msgType : THORChainTSSMessageType) :
    Go (TssCommon × Option GoError) :=
  match getMsgHash env localCacheItem threshold with
  | .error _ => .ok (t, none)
  | .ok targetHash =>
    match matchingPeers env targetHash localCacheItem.ConfirmedList with
    | none => .ok (t, some (.new "fail to convert the p2p id"))
    | some peersIDs =>
      let msg : TssControl :=
        { ReqHash := targetHash, ReqKey := key, RequestType := TSSKeyGenMsg, Msg := none }
      let t := { t with blameMgr := t.blameMgr.shareSet targetHash }
      match msgType with
      | TSSKeyGenVerMsg =>
        t.processRequestMsgFromPeer peersIDs (some { msg with RequestType := TSSKeyGenMsg }) true
      | TSSKeySignVerMsg =>
        t.processRequestMsgFromPeer peersIDs (some { msg with RequestType := TSSKeySignMsg }) true
      | TSSKeySignMsg =>
        t.processRequestMsgFromPeer peersIDs (some { msg with RequestType := msgType }) true
      | TSSKeyGenMsg =>
        t.processRequestMsgFromPeer peersIDs (some { msg with RequestType := msgType }) true
      | _ => .ok (t, none)

/-- `TssCommon.applyShare`.  The pointer `localCacheItem` is the entry the cache
holds under `key` at every call; a change made through the pointer is written
to the cache under `key`. -/
def TssCommon.applyShare (env : Env) (t : TssCommon) (localCacheItem : LocalCacheItem)
    (threshold : Int) (key : String) (msgType : THORChainTSSMessageType) :
    Go (TssCommon × Option GoError) :=
  match localCacheItem.Msg with
  | none => .error "nil pointer dereference: localCacheItem.Msg"
  | some msg =>
    match msg.Routing with
    | none => .error "nil pointer dereference: Msg.Routing"
    | some routing =>
      let unicast := !routing.IsBroadcast
      match t.hashCheck env localCacheItem threshold with
      | .error p => .error p
      | .ok (item, some err) =>
        if err.is .ErrNotEnoughPeer then .ok (t, none)
        else if err.is .ErrNotMajority then
          let item := { item with Msg := none }
          let t := t.updateLocalUnconfirmedMessages key item
          t.requestShareFromPeer env item threshold key msgType
        else
          let t := if err.is .ErrHashFromOwner then t.updateLocalUnconfirmedMessages key item else t
          match t.blameMgr.TssWrongShareBlame env item.Msg with
          | .error p => .error p
          | .ok (.error _) =>
            let blame := t.blameMgr.blame.SetBlame HashCheckFail [] unicast
            .ok ({ t with blameMgr := { t.blameMgr with blame := blame } },
              some (.wrap "error in getting the blame nodes " .ErrHashCheck))
          | .ok (.ok blamePk) =>
            let blameNode := NewNode blamePk msg.Message msg.Sig
            let blame := t.blameMgr.blame.SetBlame HashCheckFail [blameNode] unicast
            .ok ({ t with blameMgr := { t.blameMgr with blame := blame } }, some .ErrHashCheck)
      | .ok (item, none) =>
        let t := { t with blameMgr := t.blameMgr.roundSet key item.Msg }
        match t.updateLocal env item.Msg with
        | .error p => .error p
        | .ok (t, some err) =>
          .ok (t, some (.wrap "fail to update the message to local party: " err))
        | .ok (t, none) => .ok (t.removeKey key, none)

/-- `TssCommon.processVerMsg`. -/
def TssCommon.processVerMsg (env : Env) (t : TssCommon)
    (broadcastConfirmMsg : Option BroadcastConfirmMessage) (msgType : THORChainTSSMessageType) :
    Go (TssCommon × Option GoError) :=
  match broadcastConfirmMsg with
  | none => .ok (t, none)
  | some bMsg =>
    match t.partyInfo with
    | none => .ok (t, some (.new "can't process ver msg , local party is not ready"))
    | some partyInfo =>
      let key := bMsg.Key
      let localCacheItem :=
        match t.TryGetLocalCacheItem key with
        | none => NewLocalCacheItem none bMsg.Hash
        | some item => item
      let localCacheItem := localCacheItem.UpdateConfirmList bMsg.P2PID bMsg.Hash
      let t := t.updateLocalUnconfirmedMessages key localCacheItem
      match GetThreshold partyInfo.PartyIDMap.length with
      | .error err => .ok (t, some (.new err))
      | .ok threshold =>
        match localCacheItem.Msg with
        | none => t.requestShareFromPeer env localCacheItem threshold key msgType
        | some _ => t.applyShare env localCacheItem threshold key msgType

/-- `getBroadcastMessageType`. -/
def getBroadcastMessageType (msgType : THORChainTSSMessageType) : THORChainTSSMessageType :=
  match msgType with
  | TSSKeyGenMsg => TSSKeyGenVerMsg
  | TSSKeySignMsg => TSSKeySignVerMsg
  | _ => Unknown

/-- `TssCommon.broadcastHashToPeers`. -/
def TssCommon.broadcastHashToPeers (t : TssCommon) (key msgHash : String) (peerIDs : List String)
    (msgType : THORChainTSSMessageType) : TssCommon × Option GoError :=
  if peerIDs.length = 0 then
    (t, some (.new "fail to get any peer ID"))
  else
    let broadcastConfirmMsg : BroadcastConfirmMessage :=
      { P2PID := "", Key := key, Hash := msgHash }
    (t.renderToP2P
      { MessageType := msgType, MsgID := t.msgID, Payload := .confirm broadcastConfirmMsg,
        PeersID := peerIDs }, none)

/-- `TssCommon.receiverBroadcastHashToPeers`, for a message with routing and sender. -/
def TssCommon.receiverBroadcastHashToPeers (t : TssCommon) (wireMsg : WireMessage)
    (sender : PartyID) (msgType : THORChainTSSMessageType) : TssCommon × Option GoError :=
  let dataOwnerPartyID := sender.Id
  match t.PartyIDtoP2PID.get? dataOwnerPartyID with
  | none => (t, some (.new "error in find the data owner peerID"))
  | some dataOwnerPeerID =>
    let peerIDs := t.P2PPeers.filter (fun el => el ≠ dataOwnerPeerID)
    let msgVerType := getBroadcastMessageType msgType
    let key := wireMsg.GetCacheKey
    let msgHash := BytesToHashString wireMsg.Message
    t.broadcastHashToPeers key msgHash peerIDs msgVerType

/-- `TssCommon.processTSSMsg`. -/
def TssCommon.processTSSMsg (env : Env) (t : TssCommon) (wireMsg : Option WireMessage)
    (msgType : THORChainTSSMessageType) (forward : Bool) : Go (TssCommon × Option GoError) :=
  match wireMsg with
  | none => .ok (t, some (.new "invalid wireMsg"))
  | some w =>
    match w.Routing with
    | none => .ok (t, some (.new "invalid wireMsg"))
    | some routing =>
      match routing.From with
      | none => .ok (t, some (.new "invalid wireMsg"))
      | some sender =>
        match t.partyInfo with
        | none => .error "nil pointer dereference: t.getPartyInfo()"
        | some partyInfo =>
          match partyInfo.PartyIDMap.get? sender.Id with
          | none => .ok (t, some (.new "error in find the data owner"))
          | some none => .error "nil pointer dereference: dataOwner"
          | some (some dataOwner) =>
            let pk := pubKeyOfBytes dataOwner.Key
            if !verifySignature env pk w.Message w.Sig t.msgID then
              .ok (t, some (.new "signature verify failed"))
            else if !routing.IsBroadcast then
              t.updateLocal env (some w)
            else
              let t := if !forward then (t.receiverBroadcastHashToPeers w sender msgType).1 else t
              let key := w.GetCacheKey
              let msgHash := BytesToHashString w.Message
              let localCacheItem :=
                match t.TryGetLocalCacheItem key with
                | none => NewLocalCacheItem (some w) msgHash
                | some item =>
                  match item.Msg with
                  | none => { item with Msg := some w, Hash := msgHash }
                  | some _ => item
              let localCacheItem := localCacheItem.UpdateConfirmList t.localPeerID msgHash
              let t := t.updateLocalUnconfirmedMessages key localCacheItem
              match GetThreshold partyInfo.PartyIDMap.length with
              | .error err => .ok (t, some (.new err))
              | .ok threshold => t.applyShare env localCacheItem threshold key msgType

/-- `TssCommon.checkDupAndUpdateVerMsg`: the message with `P2PID` filled in by
the receiver and `true`, or `false` for a peer that has already attested. -/
def TssCommon.checkDupAndUpdateVerMsg (t : TssCommon) (bMsg : BroadcastConfirmMessage)
    (peerID : String) : BroadcastConfirmMessage × Bool :=
  match t.TryGetLocalCacheItem bMsg.Key with
  | none => ({ bMsg with P2PID := peerID }, true)
  | some localCacheItem =>
    if (localCacheItem.ConfirmedList.get? peerID).isSome then (bMsg, false)
    else ({ bMsg with P2PID := peerID }, true)

/-- `TssCommon.ProcessOneMessage`: the dispatcher of inbound messages. -/
def TssCommon.ProcessOneMessage (env : Env) (t : TssCommon) (wrappedMsg : Option WrappedMessage)
    (peerID : String) : Go (TssCommon × Option GoError) :=
  match wrappedMsg with
  | none => .ok (t, some (.new "invalid wireMessage"))
  | some wrapped =>
    match wrapped.MessageType with
    | TSSKeyGenMsg | TSSKeySignMsg =>
      match wrapped.Payload.wire with
      | none => .ok (t, some (.new "fail to unmarshal wire message"))
      | some wireMsg => t.processTSSMsg env (some wireMsg) wrapped.MessageType false
    | TSSKeyGenVerMsg | TSSKeySignVerMsg =>
      match wrapped.Payload.confirm with
      | none => .ok (t, some (.new "fail to unmarshal broadcast confirm message"))
      | some bMsg =>
        let (bMsg, ret) := t.checkDupAndUpdateVerMsg bMsg peerID
        if ret then t.processVerMsg env (some bMsg) wrapped.MessageType
        else .ok (t, none)
    | TSSTaskDone =>
      match wrapped.Payload.notifier with
      | none => .ok (t, none)
      | some wireMsg =>
        if wireMsg.TaskDone then
          if (t.finishedPeers.get? peerID).getD false then
            .ok (t, some (.new ("duplicated notification from peer " ++ peerID ++ " ignored")))
          else
            let t := { t with finishedPeers := t.finishedPeers.set peerID true }
            match t.partyInfo with
            | none => .error "nil pointer dereference: t.partyInfo"
            | some partyInfo =>
              if (t.finishedPeers.length : Int) = (partyInfo.PartyIDMap.length : Int) - 1 then
                if t.taskDone then .error "close of closed channel"
                else .ok ({ t with taskDone := true }, none)
              else .ok (t, none)
        else .ok (t, none)
    | TSSControlMsg =>
      match wrapped.Payload.control with
      | none => .ok (t, some (.new "fail to unmarshal wire message"))
      | some wireMsg =>
        match wireMsg.Msg with
        | none =>
          if env.peerDecode peerID then
            t.processRequestMsgFromPeer [peerID] (some wireMsg) false
          else .ok (t, some (.new "error in decode the peer"))
        | some msg =>
          let (exist, mgr) := t.blameMgr.shareQueryAndDelete wireMsg.ReqHash
          let t := { t with blameMgr := mgr }
          if !exist then .ok (t, none)
          else t.processTSSMsg env (some msg) wireMsg.RequestType true
    | Unknown => .ok (t, none)

/-- A payload of 512001 zero bytes. -/
def oversizedPayload : Bytes := List.replicate 512001 0

/-! ## Sessions: runs of `ProcessOneMessage` -/

/-- Handle a sequence of inbound messages, each with the peer it came from,
one `ProcessOneMessage` call after the other (a panic ends the run). -/
def runMessages (env : Env) (t : TssCommon) : List (WrappedMessage × String) → Go TssCommon
  | [] => .ok t
  | (m, p) :: rest =>
    match t.ProcessOneMessage env (some m) p with
    | .error e => .error e
    | .ok (t, _) => runMessages env t rest

/-- The peers that have sent a `TSSTaskDone` message with `TaskDone = true`. -/
def donePeers (msgs : List (WrappedMessage × String)) : Finset String :=
  ((msgs.filter (fun m => m.1.MessageType = TSSTaskDone ∧
      m.1.Payload.notifier = some { TaskDone := true })).map (fun m => m.2)).toFinset

/-- The task-done bookkeeping of a session of `pi` after handling `msgs`:
`finishedPeers` holds exactly the peers that sent `TaskDone = true`, each once
and with the value `true`, and `taskDone` is closed exactly when `N - 1 ≥ 1` of
them have been counted. -/
structure TaskDoneInv (pi : PartyInfo) (t : TssCommon)
    (msgs : List (WrappedMessage × String)) : Prop where
  party : t.partyInfo = some pi
  vals : ∀ p ∈ t.finishedPeers, p.2 = true
  nodup : t.finishedPeers.keys.Nodup
  keys : t.finishedPeers.keys.toFinset = donePeers msgs
  closed : t.taskDone = true ↔
    (1 ≤ (pi.PartyIDMap.length : Int) - 1 ∧
      (pi.PartyIDMap.length : Int) - 1 ≤ ((donePeers msgs).card : Int))

/-- An environment for evaluating the engine on concrete sessions: every
signature verifies, every peer id decodes, the public key of a party is its id,
the party accepts every message, and `freq` is ranged over in the order of the
list. -/
def demoEnv : Env :=
  { verifyBytes := fun _ _ _ => true
    peerDecode := fun _ => true
    partyIDtoPubKey := fun p => some p.Id
    updateFromBytes := fun _ _ => none
    rangeFreq := fun freq => freq
    rangeFreq_perm := fun freq => List.Perm.refl freq }

/-- The wrapped `TssTaskNotifier{TaskDone: true}` of `testProcessTaskDone`. -/
def taskDoneMsg : WrappedMessage :=
  { MessageType := TSSTaskDone, MsgID := "test",
    Payload := { wire := none, confirm := none,
                 notifier := some { TaskDone := true }, control := none } }

/-- The party info of `TestCloseKeyGennotifyChannel`: two parties, nil values. -/
def twoPartyInfo : PartyInfo :=
  { Party := none, PartyIDMap := [("1", none), ("2", none)] }

/-- A three party session. -/
def threePartyInfo : PartyInfo :=
  { Party := none, PartyIDMap := [("1", none), ("2", none), ("3", none)] }

/-- A fresh three party session: `NewTssCommon`, then `SetPartyInfo`. -/
def threePartySession : TssCommon :=
  { NewTssCommon "local" none "test" with partyInfo := some threePartyInfo }

/-- The session of `TestCloseKeyGennotifyChannel` after the notifications of
`node1` and `node2`. -/
def twoPartySessionDone : TssCommon :=
  { NewTssCommon "" none "test" with
    partyInfo := some twoPartyInfo
    finishedPeers := [("node1", true), ("node2", true)]
    taskDone := true }

/-! ## Invariants of a session -/

/-- What no call of the engine changes in a session. -/
structure SameSession (t t' : TssCommon) : Prop where
  partyInfo : t'.partyInfo = t.partyInfo
  PartyIDtoP2PID : t'.PartyIDtoP2PID = t.PartyIDtoP2PID
  localPeerID : t'.localPeerID = t.localPeerID
  P2PPeers : t'.P2PPeers = t.P2PPeers
  msgID : t'.msgID = t.msgID

/-- The wire message has a sender that is a party of the session, and its
signature verifies under that party's key over `message ‖ msgID`. -/
def Verified (env : Env) (t : TssCommon) (W : WireMessage) : Prop :=
  ∃ routing sender partyInfo party,
    W.Routing = some routing ∧ routing.From = some sender ∧
    t.partyInfo = some partyInfo ∧
    partyInfo.PartyIDMap.get? sender.Id = some (some party) ∧
    verifySignature env (pubKeyOfBytes party.Key) W.Message W.Sig t.msgID = true

/-- A cache entry that holds a message holds the hash of that message, and the
message was verified. -/
def ItemGood (env : Env) (t : TssCommon) (item : LocalCacheItem) : Prop :=
  ∀ W, item.Msg = some W → item.Hash = BytesToHashString W.Message ∧ Verified env t W

/-- Every entry of the unconfirmed-message cache is good. -/
def CacheGood (env : Env) (t : TssCommon) : Prop :=
  ∀ p ∈ t.unConfirmedMessages, ItemGood env t p.2

/-- Between `t` and `t'` the local party was updated at most once, and then
with a message that satisfies `P`. -/
def AppliedBy (t t' : TssCommon) (P : WireMessage → Prop) : Prop :=
  t'.partyUpdates = t.partyUpdates ∨
  ∃ W routing sender, P W ∧ W.Routing = some routing ∧
    t'.partyUpdates = t.partyUpdates ++
      [{ wireBytes := W.Message, sender := sender, isBroadcast := routing.IsBroadcast }]

/-! ## Concrete sessions -/

/-- The peers whose attested hash is `h`. -/
def attesters (confirmedList : GoMap String) (h : String) : Finset String :=
  ((confirmedList.filter (fun p => p.2 = h)).map Prod.fst).toFinset

/-- A party with the given id; its key is the bytes of the id. -/
def demoParty (id : String) : PartyID :=
  { Id := id, Moniker := "", Key := asciiBytes id, Index := 0 }

/-- The session of the party `me` in a committee with the given party ids, set
up as `setupProcessVerMsgEnv` does: party `id` has the peer id `peer` ++ `id`. -/
def demoSession (ids : List String) (me : String) : TssCommon :=
  let partyInfo : PartyInfo :=
    { Party := some { partyID := demoParty me },
      PartyIDMap := ids.map (fun id => (id, some (demoParty id))) }
  { NewTssCommon ("peer" ++ me) (some []) "msgid" with
    partyInfo := some partyInfo
    PartyIDtoP2PID := ids.map (fun id => (id, "peer" ++ id))
    P2PPeers := (ids.filter (fun id => id ≠ me)).map (fun id => "peer" ++ id)
    blameMgr := { NewBlameManager with
      partyInfo := some partyInfo
      PartyIDtoP2PID := ids.map (fun id => (id, "peer" ++ id)) } }

/-- A broadcast wire message of `sender` for the round `round`. -/
def demoBroadcast (sender round : String) (payload : Bytes) : WireMessage :=
  { Routing := some { From := some (demoParty sender), To := [], IsBroadcast := true },
    RoundInfo := round, Message := payload, Sig := [] }

/-- A wire message wrapped as `TSSKeyGenMsg` (`fabricateTssMsg`). -/
def wrapWire (w : WireMessage) : WrappedMessage :=
  { MessageType := TSSKeyGenMsg, MsgID := "msgid",
    Payload := { wire := some w, confirm := none, notifier := none, control := none } }

/-- A hash attestation wrapped as `TSSKeyGenVerMsg` (`fabricateVerMsg`). -/
def wrapVer (key hash : String) : WrappedMessage :=
  { MessageType := TSSKeyGenVerMsg, MsgID := "msgid",
    Payload := { wire := none, confirm := some { P2PID := "", Key := key, Hash := hash },
                 notifier := none, control := none } }

/-- A pull response wrapped as `TSSControlMsg`. -/
def wrapPullResponse (hash key : String) (w : WireMessage) : WrappedMessage :=
  { MessageType := TSSControlMsg, MsgID := "msgid",
    Payload := { wire := none, confirm := none, notifier := none,
                 control := some { ReqHash := hash, ReqKey := key,
                                   RequestType := TSSKeyGenMsg, Msg := some w } } }

/-- The call of `UpdateFromBytes` that applies the broadcast `w`. -/
def callOf (w : WireMessage) (sender : String) : PartyUpdate :=
  { wireBytes := w.Message, sender := some (demoParty sender), isBroadcast := true }

/-- The state a run ends in (`fallback` for a run that panics). -/
def sessionAfter (r : Go TssCommon) (fallback : TssCommon) : TssCommon :=
  match r with
  | .ok t => t
  | .error _ => fallback

/-- Party `A` of a four party session after `S`'s broadcast and the
attestation of `B`: the broadcast has been applied and its entry removed. -/
def fourPartyAfterApply : TssCommon :=
  sessionAfter (runMessages demoEnv (demoSession ["S", "A", "B", "C"] "A")
    [(wrapWire (demoBroadcast "S" "r1" [1, 2]), "peerS"), (wrapVer "S-r1" "a12871fee210fb8619291eaea194581cbd2531e4b23759d225f6806923f63222", "peerB")])
    (demoSession ["S", "A", "B", "C"] "A")

/-- A cache entry of a ten party session (`threshold = 6`) for `S`'s broadcast
with payload `[1]`, attested by the given peers. -/
def tenPartyEntry (peers : List String) : LocalCacheItem :=
  { Msg := some (demoBroadcast "S" "r1" [1]), Hash := "4bf5122f344554c53bde2ebb8cd2b7e3d1600ad631c385a5d7cce23c7785459a",
    ConfirmedList := peers.map (fun p => (p, "4bf5122f344554c53bde2ebb8cd2b7e3d1600ad631c385a5d7cce23c7785459a")) }

/-- The ten parties of `tenPartyEntry`'s session. -/
def tenParties : List String := ["S", "A", "B", "C", "D", "E", "F", "G", "H", "I"]

/-! ## `Blame` bookkeeping (`blame/blame.go`) -/

/-- `Node.Equal`: same public key and same signature bytes (`BlameData` is not
compared). -/
def Node.Equal (bn node : Node) : Bool :=
  if bn.Pubkey = node.Pubkey ∧ bn.BlameSignature = node.BlameSignature then true else false

/-- `Blame.AddBlameNodes(newBlameNodes...)`: each new node is appended unless a
node already in the list, one appended earlier in the same call included, is
`Equal` to it. -/
def Blame.AddBlameNodes (b : Blame) (newBlameNodes : List Node) : Blame :=
  newBlameNodes.foldl
    (fun b node =>
      let found := b.BlameNodes.any (fun el => node.Equal el)
      if !found then { b with BlameNodes := b.BlameNodes ++ [node] } else b)
    b

/-- No two entries of `BlameNodes` are `Equal`. -/
def Blame.NoDuplicate (b : Blame) : Prop :=
  b.BlameNodes.Pairwise (fun x y => x.Equal y = false)

instance (b : Blame) : Decidable b.NoDuplicate := by
  unfold Blame.NoDuplicate; infer_instance

/-- Party `A` of a four party session after `S`'s broadcast and a hash
attestation that `S` itself sent for it: `hashCheck` has deleted the
attestation of the data owner and `applyShare` has blamed `S`. -/
def fourPartyAfterOwnerVer : TssCommon :=
  sessionAfter (runMessages demoEnv (demoSession ["S", "A", "B", "C"] "A")
    [(wrapWire (demoBroadcast "S" "r1" [1, 2]), "peerS"), (wrapVer "S-r1" "a12871fee210fb8619291eaea194581cbd2531e4b23759d225f6806923f63222", "peerS")])
    (demoSession ["S", "A", "B", "C"] "A")

/-- The cache entry of party `A` for `S`'s broadcast with the attestations of
`A` and of `S` itself. -/
def ownerAttestedEntry : LocalCacheItem :=
  { Msg := some (demoBroadcast "S" "r1" [1, 2]), Hash := "a12871fee210fb8619291eaea194581cbd2531e4b23759d225f6806923f63222",
    ConfirmedList := [("peerA", "a12871fee210fb8619291eaea194581cbd2531e4b23759d225f6806923f63222"), ("peerS", "a12871fee210fb8619291eaea194581cbd2531e4b23759d225f6806923f63222")] }

/-! ## Blame policies (`blame/policy.go`, `blame/policy_helper.go`) -/

/-- `blame.TssSyncFail`. -/
def TssSyncFail : String := "signers fail to sync before keygen/keysign"

/-- The loop of `NodeSyncBlame` over `keys`, from the `Blame` built so far.
`getPeerIDFromPubKey` is `conversion.GetPeerIDFromPubKey` (bech32 and libp2p
decoding), `none` when it returns an error; peer ids are kept in string form. -/
def nodeSyncLoop (getPeerIDFromPubKey : String → Option String) (onlinePeers : List String) :
    List String → Blame → Blame × Option GoError
  | [], blame => (blame, none)
  | item :: rest, blame =>
    match getPeerIDFromPubKey item with
    | none => (blame, some (.new "fail to get peer id from pub key"))
    | some peerID =>
      let found := onlinePeers.any (fun p => p == peerID)
      let blame :=
        if !found then { blame with BlameNodes := blame.BlameNodes ++ [NewNode item [] []] }
        else blame
      nodeSyncLoop getPeerIDFromPubKey onlinePeers rest blame

/-- `Manager.NodeSyncBlame`. -/
def Manager.NodeSyncBlame (getPeerIDFromPubKey : String → Option String) (_m : Manager)
    (keys : List String) (onlinePeers : List String) : Blame × Option GoError :=
  nodeSyncLoop getPeerIDFromPubKey onlinePeers keys
    { FailReason := TssSyncFail, IsUnicast := false, BlameNodes := [] }

/-- The order in which the Go runtime ranges over the keys of a map and in
which the set library lists the members of a set (`ToSlice`): any order, a
choice of the environment. -/
structure RangeOrder where
  order : List String → List String
  perm : ∀ l, (order l).Perm l

/-- The entries of a map in the order the runtime ranges over it. -/
def GoMap.range {β : Type} (ro : RangeOrder) (m : GoMap β) : GoMap β :=
  (ro.order m.keys).filterMap (fun k => (m.get? k).map (fun v => (k, v)))

/-- `RoundMgr.GetByRound`: the senders of the archived messages of the round.
A nil stored message, a message of the round without routing or without sender
is a nil pointer dereference.  The senders are listed in the order of the
association list; the callers use the result as a set and for its length. -/
def Manager.roundGetByRound (m : Manager) (roundInfo : String) : Go (List String) :=
  let rec loop : List (String × Option WireMessage) → Go (List String)
    | [] => .ok []
    | (_, el) :: rest =>
      match el with
      | none => .error "nil pointer dereference"
      | some el =>
        if el.RoundInfo = roundInfo then
          match el.Routing with
          | none => .error "nil pointer dereference"
          | some routing =>
            match routing.From with
            | none => .error "nil pointer dereference"
            | some sender =>
              match loop rest with
              | .error p => .error p
              | .ok standbyNodes => .ok (sender.Id :: standbyNodes)
        else loop rest
  loop m.roundMgr

/-- The first loop of `tssTimeoutBlame`: the ids of the parties other than the
local one (the members of `peersSet`, each once). -/
def Manager.peersSet (m : Manager) : GoMap (Option PartyID) → Go (List String)
  | [] => .ok []
  | (_, el) :: rest =>
    match el with
    | none => .error "nil pointer dereference"
    | some el =>
      match m.partyInfo with
      | none => .error "nil pointer dereference"
      | some partyInfo =>
        match partyInfo.Party with
        | none => .error "nil pointer dereference"
        | some party =>
          match Manager.peersSet m rest with
          | .error p => .error p
          | .ok ids =>
            if el.Id ≠ party.partyID.Id then .ok (List.insert el.Id ids) else .ok ids

/-- `Manager.tssTimeoutBlame`. -/
def Manager.tssTimeoutBlame (env : Env) (ro : RangeOrder) (m : Manager)
    (lastMessageType : String) (partyIDMap : GoMap (Option PartyID)) :
    Go (Except GoError (List String)) :=
  match m.peersSet partyIDMap with
  | .error p => .error p
  | .ok peersSet =>
    match m.roundGetByRound lastMessageType with
    | .error p => .error p
    | .ok standbyNodes =>
      if standbyNodes.length = 0 then .ok (.ok [])
      else
        let diff := ro.order (peersSet.filter (fun el => el ∉ standbyNodes))
        match m.partyInfo with
        | none => .error "nil pointer dereference"
        | some partyInfo => .ok (AccPubKeysFromPartyIDs env diff partyInfo.PartyIDMap)

/-- `Manager.GetBroadcastBlame`. -/
def Manager.GetBroadcastBlame (env : Env) (ro : RangeOrder) (m : Manager)
    (lastMessageType : String) : Go (List Node × Option GoError) :=
  match m.partyInfo with
  | none => .error "nil pointer dereference"
  | some partyInfo =>
    match m.tssTimeoutBlame env ro lastMessageType partyInfo.PartyIDMap with
    | .error p => .error p
    | .ok (.error _) => .ok ([], some (.wrap "fail to get the blamed peers " .ErrTssTimeOut))
    | .ok (.ok blamePeers) => .ok (blamePeers.map (fun el => NewNode el [] []), none)

/-- `Manager.getBlamePubKeysInList`. -/
def Manager.getBlamePubKeysInList (env : Env) (ro : RangeOrder) (m : Manager)
    (peers : List String) : Go (Except GoError (List String)) :=
  let partiesInList := (GoMap.range ro m.PartyIDtoP2PID).flatMap
    (fun kv => (peers.filter (fun el => el = kv.2)).map (fun _ => kv.1))
  match m.partyInfo with
  | none => .error "nil pointer dereference"
  | some localPartyInfo => .ok (AccPubKeysFromPartyIDs env partiesInList localPartyInfo.PartyIDMap)

/-- The loop of `getBlamePubKeysNotInList` over `PartyIDtoP2PID`. -/
def Manager.partiesNotInList (m : Manager) (peers : List String) :
    GoMap String → Go (List String)
  | [] => .ok []
  | (partyID, p2pID) :: rest =>
    match m.partyInfo with
    | none => .error "nil pointer dereference"
    | some partyInfo =>
      match partyInfo.Party with
      | none => .error "nil pointer dereference"
      | some party =>
        match Manager.partiesNotInList m peers rest with
        | .error p => .error p
        | .ok ids =>
          if party.partyID.Id = partyID then .ok ids
          else
            let found := peers.any (fun each => p2pID == each)
            if !found then .ok (partyID :: ids) else .ok ids

/-- `Manager.getBlamePubKeysNotInList`. -/
def Manager.getBlamePubKeysNotInList (env : Env) (ro : RangeOrder) (m : Manager)
    (peers : List String) : Go (Except GoError (List String)) :=
  match m.partiesNotInList peers (GoMap.range ro m.PartyIDtoP2PID) with
  | .error p => .error p
  | .ok partiesNotInList =>
    match m.partyInfo with
    | none => .error "nil pointer dereference"
    | some partyInfo =>
      .ok (AccPubKeysFromPartyIDs env partiesNotInList partyInfo.PartyIDMap)

/-- `Manager.GetBlamePubKeysLists`. -/
def Manager.GetBlamePubKeysLists (env : Env) (ro : RangeOrder) (m : Manager)
    (peer : List String) : Go (Except GoError (List String × List String)) :=
  match m.getBlamePubKeysInList env ro peer with
  | .error p => .error p
  | .ok (.error err) => .ok (.error err)
  | .ok (.ok inList) =>
    match m.getBlamePubKeysNotInList env ro peer with
    | .error p => .error p
    | .ok (.error err) => .ok (.error err)
    | .ok (.ok notInlist) => .ok (.ok (inList, notInlist))

/-- `Manager.GetUnicastBlame`. -/
def Manager.GetUnicastBlame (env : Env) (ro : RangeOrder) (m : Manager) (lastMsgType : String) :
    Go (List Node × Option GoError) :=
  if m.lastUnicastPeer.length = 0 then .ok ([], none)
  else
    match m.lastUnicastPeer.get? lastMsgType with
    | none =>
      .ok ([], some (.wrap "fail to find peers of the given msg type " .ErrTssTimeOut))
    | some peersID =>
      let onlinePeers := ro.order peersID.dedup
      match m.GetBlamePubKeysLists env ro onlinePeers with
      | .error p => .error p
      | .ok (.error _) => .ok ([], some (.wrap "fail to get the blamed peers " .ErrTssTimeOut))
      | .ok (.ok (_, blamePeers)) => .ok (blamePeers.map (fun el => NewNode el [] []), none)

/-- The order of the association list. -/
def listOrder : RangeOrder := { order := fun l => l, perm := fun l => List.Perm.refl l }

/-- Whether the round archive holds a message of the round `roundInfo` whose
sender is the party `id`. -/
def Manager.hasRoundMessage (m : Manager) (roundInfo id : String) : Bool :=
  m.roundMgr.any (fun kv =>
    match kv.2 with
    | none => false
    | some w =>
      match w.Routing with
      | none => false
      | some routing =>
        match routing.From with
        | none => false
        | some sender => w.RoundInfo = roundInfo ∧ sender.Id = id)

/-- A party info as `SetPartyInfo` receives it: the local party is set, each
party id is a key once, and its value is the party with that id. -/
structure PartyInfo.WellFormed (pi : PartyInfo) (party : GoTss.Party) : Prop where
  party : pi.Party = some party
  nodup : pi.PartyIDMap.WF
  vals : ∀ kv ∈ pi.PartyIDMap, ∃ p : PartyID, kv.2 = some p ∧ p.Id = kv.1

/-- The blame manager of the demo session of `A` among `S, A, B, C` with the
given round archive and record of unicast peers. -/
def demoManager (roundMgr : GoMap (Option WireMessage)) (lastUnicastPeer : GoMap (List String)) :
    Manager :=
  { (demoSession ["S", "A", "B", "C"] "A").blameMgr with
    roundMgr := roundMgr, lastUnicastPeer := lastUnicastPeer }

/-! ## The server: `requestToMsgId` and `KeySign` (`tss/tss.go`, `tss/keysign.go`) -/

/-- `[]byte(s)`: the UTF-8 bytes of a string. -/
def bytesOfString (s : String) : Bytes := s.toUTF8.toList.map (fun b => b.toNat)

/-- `common.MsgToHashString`: the lowercase hex SHA-256 of a non-empty message
(`h.Write` of a SHA-256 hash never fails). -/
def MsgToHashString (msg : Bytes) : Except GoError String :=
  if msg.length = 0 then .error (.new "empty message")
  else .ok (hexEncode (sha256 msg))

/-- The value of a character in the standard base64 alphabet. -/
def base64Value (c : Char) : Option Nat :=
  if 'A' ≤ c ∧ c ≤ 'Z' then some (c.toNat - 65)
  else if 'a' ≤ c ∧ c ≤ 'z' then some (c.toNat - 97 + 26)
  else if '0' ≤ c ∧ c ≤ '9' then some (c.toNat - 48 + 52)
  else if c = '+' then some 62
  else if c = '/' then some 63
  else none

/-- The quanta of `base64.StdEncoding.Decode` on input without line breaks:
four characters give three bytes; the last quantum can end in one or two
padding characters and gives two bytes or one; anything else is corrupt input
(`none`).  The bits of the last character that do not fit are dropped (the
encoding is not strict). -/
def base64Quanta : List Char → Option Bytes
  | [] => some []
  | a :: b :: c :: d :: rest =>
    match base64Value a, base64Value b with
    | some va, some vb =>
      match base64Value c, base64Value d with
      | some vc, some vd =>
        match base64Quanta rest with
        | none => none
        | some out =>
          let val := va * 262144 + vb * 4096 + vc * 64 + vd
          some (val / 65536 :: val / 256 % 256 :: val % 256 :: out)
      | some vc, none =>
        if d = '=' ∧ rest = [] then
          let val := va * 262144 + vb * 4096 + vc * 64
          some [val / 65536, val / 256 % 256]
        else none
      | none, _ =>
        if c = '=' ∧ d = '=' ∧ rest = [] then
          let val := va * 262144 + vb * 4096
          some [val / 65536]
        else none
    | _, _ => none
  | _ => none

/-- `base64.StdEncoding.DecodeString`: carriage returns and line feeds are
skipped.  The bytes decoded before corrupt input and the position in the error
are left out: no caller reads them. -/
def base64DecodeString (s : String) : Except GoError Bytes :=
  match base64Quanta (s.toList.filter (fun c => c ≠ '\r' ∧ c ≠ '\n')) with
  | none => .error (.new "illegal base64 data")
  | some out => .ok out

/-- `keygen.Request`. -/
structure keygen.Request where
  Keys : List String
  deriving DecidableEq, Repr

/-- `keysign.Request`. -/
structure keysign.Request where
  PoolPubKey : String
  Message : String
  SignerPubKeys : List String
  deriving DecidableEq, Repr

/-- Modelled from the spec: `common.Status` of a response (`Success`, `Fail`;
its declaration is not among the sources); `zero` is the value of an empty
response. -/
inductive Status
  | zero
  | Success
  | Fail
  deriving DecidableEq, Repr

/-- `keysign.Response`. -/
structure keysign.Response where
  R : String
  S : String
  Status : Status
  Blame : Blame
  deriving DecidableEq, Repr

/-- `storage.KeygenLocalState` without the saved data of the crypto library. -/
structure KeygenLocalState where
  PubKey : String
  ParticipantKeys : List String
  LocalPartyKey : String
  deriving DecidableEq, Repr

/-- The `R` and `S` of a `bc.SignatureData`. -/
structure SignatureData where
  R : Bytes
  S : Bytes
  deriving DecidableEq, Repr

/-- The dynamic type and value of the `interface{}` passed to `requestToMsgId`. -/
inductive RequestValue
  | keygenRequest (value : keygen.Request)
  | keysignRequest (value : keysign.Request)
  | other
  deriving DecidableEq, Repr

/-- What the server takes from outside the repository's sources: the base64
codec, the state manager, the peer id of a public key, the party coordinator,
the signature notifier and the keysign session. -/
structure ServerEnv where
  /-- `base64.StdEncoding.DecodeString`. -/
  base64Decode : String → Except GoError Bytes
  /-- `base64.StdEncoding.EncodeToString`. -/
  base64Encode : Bytes → String
  /-- `stateManager.GetLocalState(poolPubKey)`. -/
  getLocalState : String → Except GoError KeygenLocalState
  /-- `conversion.GetPeerIDFromPubKey`; peer ids are kept in string form. -/
  getPeerIDFromPubKey : String → Except GoError String
  /-- `signatureNotifier.WaitForSignature(msgID, msg, poolPubKey, timeout)`;
  `.ok none` is a nil `*SignatureData`. -/
  waitForSignature : String → Bytes → String → Except GoError (Option SignatureData)
  /-- `partyCoordinator.JoinPartyWithRetry(request of msgID, peerIDs)`; the
  first component is `none` for a nil slice. -/
  joinPartyWithRetry : String → List String → Option (List String) × Option GoError
  /-- `keysignInstance.SignMessage(msgToSign, localStateItem, signers)`: the
  signature, or on an error the `Blame` the session's blame manager then holds. -/
  signMessage : String → Bytes → KeygenLocalState → List String → Except Blame SignatureData
  /-- `signatureNotifier.BroadcastSignature(msgID, signatureData, signers)`. -/
  broadcastSignature : String → SignatureData → List String → Option GoError

/-- `TssServer`, as far as `requestToMsgId` and `KeySign` read it. -/
structure TssServer where
  localNodePubKey : String
  deriving DecidableEq, Repr

/-- `sort.Strings`: the keys in increasing order.  Go compares strings byte by
byte, which on UTF-8 is the order of the code points. -/
def sortStrings (keys : List String) : List String := keys.insertionSort (fun a b => a ≤ b)

/-- `TssServer.requestToMsgId`. -/
def TssServer.requestToMsgId (env : ServerEnv) (_t : TssServer) (request : RequestValue) :
    Except GoError String :=
  match request with
  | .keygenRequest value =>
    let keys := sortStrings value.Keys
    let keyAccumulation := keys.foldl (fun acc el => acc ++ el) ""
    MsgToHashString (bytesOfString keyAccumulation)
  | .keysignRequest value =>
    match env.base64Decode value.Message with
    | .error err => .error err
    | .ok msgToSign => MsgToHashString msgToSign
  | .other => .error (.new "unknown request type")

/-- `conversion.GetPeerIDs`. -/
def GetPeerIDs (env : ServerEnv) : List String → Except GoError (List String)
  | [] => .ok []
  | item :: rest =>
    match env.getPeerIDFromPubKey item with
    | .error err => .error (.wrap ("fail to get peer id from pubkey(" ++ item ++ "):") err)
    | .ok pID =>
      match GetPeerIDs env rest with
      | .error err => .error err
      | .ok peerIDs => .ok (pID :: peerIDs)

/-- `conversion.GetPeerIDsFromPubKeys`. -/
def GetPeerIDsFromPubKeys (env : ServerEnv) : List String → Except GoError (List String)
  | [] => .ok []
  | item :: rest =>
    match env.getPeerIDFromPubKey item with
    | .error err => .error err
    | .ok peerID =>
      match GetPeerIDsFromPubKeys env rest with
      | .error err => .error err
      | .ok peerIDs => .ok (peerID :: peerIDs)

/-- `TssServer.joinParty`. -/
def TssServer.joinParty (env : ServerEnv) (_t : TssServer) (msgID : String) (keys : List String) :
    Option (List String) × Option GoError :=
  match GetPeerIDsFromPubKeys env keys with
  | .error err => (none, some (.wrap "fail to convert pub key to peer id: " err))
  | .ok peerIDs => env.joinPartyWithRetry msgID peerIDs

/-- `TssServer.isPartOfKeysignParty`. -/
def TssServer.isPartOfKeysignParty (t : TssServer) (parties : List String) : Bool :=
  parties.any (fun item => t.localNodePubKey = item)

/-- `blame.InternalError`. -/
def InternalError : String := "fail to start the join party "

/-- `TssServer.KeySign`: the response and the error.  Logging, the
subscriptions of the session, the status counters and the broadcast of a
keysign failure are left out. -/
def TssServer.KeySign (env : ServerEnv) (t : TssServer) (req : keysign.Request) :
    keysign.Response × Option GoError :=
  let noBlame : Blame := { FailReason := "", IsUnicast := false, BlameNodes := [] }
  let emptyResp : keysign.Response := { R := "", S := "", Status := .zero, Blame := noBlame }
  match t.requestToMsgId env (.keysignRequest req) with
  | .error err => (emptyResp, some err)
  | .ok msgID =>
    match env.getLocalState req.PoolPubKey with
    | .error err => (emptyResp, some (.wrap "fail to get local keygen state: " err))
    | .ok localStateItem =>
      match env.base64Decode req.Message with
      | .error err =>
        (emptyResp, some (.wrap ("fail to decode message(" ++ req.Message ++ "): ") err))
      | .ok msgToSign =>
        if req.SignerPubKeys.length = 0 then
          (emptyResp, some (.new "empty signer pub keys"))
        else
          match GetThreshold localStateItem.ParticipantKeys.length with
          | .error _ => (emptyResp, some (.new "fail to get threshold"))
          | .ok threshold =>
            if (req.SignerPubKeys.length : Int) ≤ threshold then
              (emptyResp, some (.new "not enough signers"))
            else if !t.isPartOfKeysignParty req.SignerPubKeys then
              match env.waitForSignature msgID msgToSign req.PoolPubKey with
              | .error err => (emptyResp, some (.wrap "fail to get signature:" err))
              | .ok none => (emptyResp, some (.new "keysign failed"))
              | .ok (some data) =>
                if data.S.length = 0 ∧ data.R.length = 0 then
                  (emptyResp, some (.new "keysign failed"))
                else
                  ({ R := env.base64Encode data.R, S := env.base64Encode data.S,
                     Status := .Success, Blame := noBlame }, none)
            else
              match GetPeerIDs env localStateItem.ParticipantKeys with
              | .error err =>
                (emptyResp, some (.wrap "fail to convert pub keys to peer id:" err))
              | .ok signers =>
                match t.joinParty env msgID req.SignerPubKeys with
                | (none, some _) =>
                  ({ R := "", S := "", Status := .Fail,
                     Blame := { FailReason := InternalError, IsUnicast := false,
                                BlameNodes := [] } }, none)
                | (some onlinePeers, some _) =>
                  let blameNodes := (NewBlameManager.NodeSyncBlame
                    (fun k => (env.getPeerIDFromPubKey k).toOption)
                    req.SignerPubKeys onlinePeers).1
                  ({ R := "", S := "", Status := .Fail, Blame := blameNodes }, none)
                | (_, none) =>
                  match env.signMessage msgID msgToSign localStateItem req.SignerPubKeys with
                  | .error blameNodes =>
                    ({ R := "", S := "", Status := .Fail, Blame := blameNodes }, none)
                  | .ok signatureData =>
                    match env.broadcastSignature msgID signatureData signers with
                    | some err => (emptyResp, some (.wrap "fail to broadcast signature:" err))
                    | none =>
                      ({ R := env.base64Encode signatureData.R,
                         S := env.base64Encode signatureData.S,
                         Status := .Success, Blame := noBlame }, none)

/-- A server environment for concrete requests: the pool `pool` was generated
by `k1, k2, k3`; the peer of a key is `peer` ++ key; every invited peer joins;
no signature arrives for a node that waits, and the keysign session fails with
an empty blame. -/
def demoServerEnv : ServerEnv :=
  { base64Decode := base64DecodeString
    base64Encode := fun _ => ""
    getLocalState := fun pk =>
      if pk = "pool" then
        .ok { PubKey := "pool", ParticipantKeys := ["k1", "k2", "k3"], LocalPartyKey := "k1" }
      else .error (.new "no such pool")
    getPeerIDFromPubKey := fun k => .ok ("peer" ++ k)
    waitForSignature := fun _ _ _ => .error (.new "request to exit")
    joinPartyWithRetry := fun _ peerIDs => (some peerIDs, none)
    signMessage := fun _ _ _ _ => .error { FailReason := "", IsUnicast := false, BlameNodes := [] }
    broadcastSignature := fun _ _ _ => none }

/-! ## `GetPriKey` (`conversion/key_provider.go`) -/

/-- The value of a hexadecimal digit of either case (`fromHexChar` of
`encoding/hex`). -/
def fromHexChar (c : Nat) : Option Nat :=
  if 48 ≤ c ∧ c ≤ 57 then some (c - 48)
  else if 97 ≤ c ∧ c ≤ 102 then some (c - 97 + 10)
  else if 65 ≤ c ∧ c ≤ 70 then some (c - 65 + 10)
  else none

/-- An upper-case hexadecimal digit, as `%X` prints it. -/
def upperHexDigit (n : Nat) : Char := "0123456789ABCDEF".toList.getD n '0'

/-- `strconv.IsPrint` on a rune below 256. -/
def isPrintLatin1 (r : Nat) : Bool :=
  (0x20 ≤ r ∧ r ≤ 0x7E) ∨ (0xA1 ≤ r ∧ r ≤ 0xFF ∧ r ≠ 0xAD)

/-- `hex.InvalidByteError(b)`; its text is
`fmt.Sprintf("encoding/hex: invalid byte: %#U", rune(b))`: the code point with
four hexadecimal digits, followed by the quoted character when it is printable. -/
def InvalidByteError (b : Nat) : GoError :=
  let r := b % 256
  .new ("encoding/hex: invalid byte: U+00" ++
    String.mk [upperHexDigit (r / 16), upperHexDigit (r % 16)] ++
    (if isPrintLatin1 r then " \x27" ++ String.singleton (Char.ofNat r) ++ "\x27" else ""))

/-- `hex.DecodeString`, as the bytes decoded or the error: the first invalid
byte, pair by pair, else an odd length. -/
def hexDecodeString : Bytes → Except GoError Bytes
  | [] => .ok []
  | [p] =>
    match fromHexChar p with
    | none => .error (InvalidByteError p)
    | some _ => .error (.new "encoding/hex: odd length hex string")
  | p :: q :: rest =>
    match fromHexChar p, fromHexChar q with
    | some a, some b =>
      match hexDecodeString rest with
      | .error err => .error err
      | .ok out => .ok ((a * 16 + b) :: out)
    | none, _ => .error (InvalidByteError p)
    | some _, none => .error (InvalidByteError q)

/-- `conversion.GetPriKey`: the key (`none` is a nil key) and the error, or a
panic.  The length of `rawBytes` is not checked before `rawBytes[:32]`, so on a
key of fewer than 32 bytes the slice expression reaches into the backing array
of `rawBytes` as far as its capacity allows, and the capacity is decided by the
Go release that builds the program, not by this code: `capacity` gives it for a
hexadecimal text of the given length.  A release whose `hex.DecodeString`
decodes in place in `[]byte(s)` gives a text of up to 32 bytes a buffer of 32
bytes and a longer text at least its own length; a release whose
`hex.DecodeString` allocates the decoded length gives `len(s) / 2`.  Behind the
decoded bytes the array holds, as far as it reaches, the rest of the text and
zeros. -/
def GetPriKey (capacity : Nat → Nat) (priKeyString : String) :
    Go (Option Bytes × Option GoError) :=
  match base64DecodeString priKeyString with
  | .error err => .ok (none, some (.wrap "fail to decode private key: " err))
  | .ok priHexBytes =>
    match hexDecodeString priHexBytes with
    | .error err => .ok (none, some (.wrap "fail to hex decode private key: " err))
    | .ok rawBytes =>
      let c := capacity priHexBytes.length
      if 32 > c then
        .error ("slice bounds out of range [:32] with capacity " ++ toString c)
      else
        let backing := (rawBytes ++ priHexBytes.drop rawBytes.length ++
          List.replicate (c - priHexBytes.length) 0).take c
        .ok (some (backing.take 32), none)

/-- An environment that ranges over the `freq` map of `getHighestFreq` in the
reverse of the order `demoEnv` does. -/
def reverseEnv : Env :=
  { demoEnv with
    rangeFreq := fun freq => freq.reverse
    rangeFreq_perm := fun freq => List.reverse_perm freq }

/-- Twelve attestations: ten peers attest the hash `aa`, two attest `bb`. -/
def tenAndTwo : GoMap String :=
  [("p1", "aa"), ("p2", "aa"), ("p3", "aa"), ("p4", "aa"), ("p5", "aa"), ("p6", "aa"),
   ("p7", "aa"), ("p8", "aa"), ("p9", "aa"), ("p10", "aa"), ("p11", "bb"), ("p12", "bb")]
/-- The cache entry of party `A` in a five party session (`threshold = 3`) for
`S`'s broadcast, with three attestations that disagree pairwise. -/
def disagreeingEntry : LocalCacheItem :=
  { Msg := some (demoBroadcast "S" "r1" [1, 2]), Hash := "a12871fee210fb8619291eaea194581cbd2531e4b23759d225f6806923f63222",
    ConfirmedList := [("peerA", "a12871fee210fb8619291eaea194581cbd2531e4b23759d225f6806923f63222"), ("peerB", "x"), ("peerC", "y")] }

/-- A unicast wire message of `sender` for the round `round`. -/
def demoUnicast (sender round : String) (payload : Bytes) : WireMessage :=
  { Routing := some { From := some (demoParty sender), To := [], IsBroadcast := false },
    RoundInfo := round, Message := payload, Sig := [] }
/-! ## `PeerStatus` (`p2p/peer_status.go`) -/

/-- `PeerStatus`: the map `peersResponse` from peer id to whether the peer has
responded.  The lock and the `newFound` channel are left out. -/
structure PeerStatus where
  peersResponse : GoMap Bool
  deriving DecidableEq, Repr

/-- `NewPeerStatus`. -/
def NewPeerStatus (peerNodes : List String) (myPeerID : String) : PeerStatus :=
  { peersResponse := peerNodes.foldl
      (fun dat el => if el = myPeerID then dat else dat.set el false) [] }

/-- `PeerStatus.getPeersStatus`: the online and the offline peers, each in the
order the runtime ranges over the map. -/
def PeerStatus.getPeersStatus (ro : RangeOrder) (ps : PeerStatus) : List String × List String :=
  let entries := GoMap.range ro ps.peersResponse
  ((entries.filter (fun kv => kv.2)).map Prod.fst,
   (entries.filter (fun kv => !kv.2)).map Prod.fst)

/-- `PeerStatus.getCoordinationStatus`. -/
def PeerStatus.getCoordinationStatus (ro : RangeOrder) (ps : PeerStatus) : Bool :=
  (ps.getPeersStatus ro).2.length = 0

/-- `PeerStatus.updatePeer`: the status afterwards, the result and the error. -/
def PeerStatus.updatePeer (ps : PeerStatus) (peerNode : String) :
    PeerStatus × Bool × Option GoError :=
  match ps.peersResponse.get? peerNode with
  | none => (ps, false, some (.new "key not found"))
  | some val =>
    if !val then ({ peersResponse := ps.peersResponse.set peerNode true }, true, none)
    else (ps, false, none)

/-- The status after a sequence of `updatePeer` calls. -/
def PeerStatus.updatePeers (ps : PeerStatus) (calls : List String) : PeerStatus :=
  calls.foldl (fun ps peerNode => (ps.updatePeer peerNode).1) ps

/-- What a `PeerStatus` built for `invited` and `myPeerID` holds after
`updatePeer` was called for the peers `calls`: each invited peer other than
`myPeerID` once, with
the value `true` exactly when it is among `calls`. -/
structure PeerStatus.Tracks (ps : PeerStatus) (invited : List String) (myPeerID : String)
    (calls : List String) : Prop where
  nodup : ps.peersResponse.WF
  keys : ∀ q, q ∈ ps.peersResponse.keys ↔ q ∈ invited ∧ q ≠ myPeerID
  vals : ∀ q v, ps.peersResponse.get? q = some v → (v = true ↔ q ∈ calls)

/-- The sender of the wire message, if it has one, is a key of the `PartyIDMap`
of the session, if that is set. -/
def SenderKnown (t : TssCommon) (wireMsg : Option WireMessage) : Prop :=
  ∀ W routing sender partyInfo, wireMsg = some W → W.Routing = some routing →
    routing.From = some sender → t.partyInfo = some partyInfo →
    partyInfo.PartyIDMap.get? sender.Id ≠ none

/-! # Theorems -/

/-! ## `GetThreshold` -/

theorem roundHalfEven_intCast (z : ℤ) : roundHalfEven (z : ℚ) = z := by
  simp [roundHalfEven]

theorem roundHalfEven_le_of_le {x : ℚ} {z : ℤ} (h : x ≤ z) : roundHalfEven x ≤ z := by
  have hf : Int.floor x ≤ z := by
    have := Int.floor_le x
    exact_mod_cast (Int.floor_le x).trans h |> Int.cast_le.mp
  unfold roundHalfEven
  simp only
  split_ifs with h1 h2 h3
  · exact hf
  · -- fractional part positive, so floor x < x ≤ z
    have hlt : (Int.floor x : ℚ) < z := by linarith
    have : Int.floor x < z := by exact_mod_cast hlt
    omega
  · exact hf
  · have hr : x - (Int.floor x : ℚ) = 1 / 2 := le_antisymm (not_lt.mp h2) (not_lt.mp h1)
    have hlt : (Int.floor x : ℚ) < z := by linarith
    have : Int.floor x < z := by exact_mod_cast hlt
    omega

theorem sub_half_le_roundHalfEven (x : ℚ) : x - 1 / 2 ≤ (roundHalfEven x : ℚ) := by
  have h1 := Int.floor_le x
  have h2 := Int.lt_floor_add_one x
  unfold roundHalfEven
  simp only
  split_ifs with h1 h2 h3
  · linarith
  · push_cast; linarith
  · linarith
  · push_cast; linarith

/-- With the binade of `x` known, the rounding of `x` is explicit. -/
theorem f64Round_eq_of_lt {x : ℚ} (hx : 0 < x) (e : ℤ) (hlo : (2:ℚ) ^ e ≤ x) (hhi : x < (2:ℚ) ^ (e + 1)) :
    f64Round x = (roundHalfEven (x / (2:ℚ) ^ (e - 52)) : ℚ) * (2:ℚ) ^ (e - 52) := by
  have he : Int.log 2 x = e := by
    apply le_antisymm
    · have := (Int.lt_zpow_iff_log_lt (b := 2) (by norm_num) hx (x := e + 1)).mp (by exact_mod_cast hhi)
      omega
    · exact (Int.zpow_le_iff_le_log (b := 2) (by norm_num) hx).mp (by exact_mod_cast hlo)
  unfold f64Round
  rw [if_neg hx.ne', abs_of_pos hx, he]


theorem f64Round_zero : f64Round 0 = 0 := by simp [f64Round]

/-- A positive value whose significand fits 53 bits is its own rounding. -/
theorem f64Round_exact {x : ℚ} (hx : 0 < x) (e : ℤ) (hlo : (2:ℚ) ^ e ≤ x)
    (hhi : x < (2:ℚ) ^ (e + 1)) (z : ℤ) (hz : x = (z : ℚ) * (2:ℚ) ^ (e - 52)) :
    f64Round x = x := by
  rw [f64Round_eq_of_lt hx e hlo hhi]
  have hu : (0:ℚ) < (2:ℚ) ^ (e - 52) := by positivity
  have : x / (2:ℚ) ^ (e - 52) = (z : ℚ) := by
    rw [hz]; field_simp
  rw [this, roundHalfEven_intCast, ← hz]

theorem f64Round_natCast_mul_two_pow (n : ℕ) (hn : 0 < n) (hlt : n < 2 ^ 53) (k : ℕ) :
    f64Round ((n : ℚ) * 2 ^ k) = (n : ℚ) * 2 ^ k := by
  have hlog : Nat.log 2 n < 53 := Nat.log_lt_of_lt_pow hn.ne' hlt
  have h1 : 2 ^ Nat.log 2 n ≤ n := Nat.pow_log_le_self 2 hn.ne'
  have h2 : n < 2 ^ (Nat.log 2 n + 1) := Nat.lt_pow_succ_log_self (by norm_num) n
  set l := Nat.log 2 n with hl
  have h1q : ((2:ℚ) ^ l) ≤ (n : ℚ) := by exact_mod_cast h1
  have h2q : (n : ℚ) < (2:ℚ) ^ (l + 1) := by exact_mod_cast h2
  have hpos : (0:ℚ) < (n:ℚ) * 2 ^ k := by positivity
  apply f64Round_exact hpos ((l : ℤ) + k) _ _ ((n : ℤ) * 2 ^ (52 - l))
  · -- value
    have e1 : ((l : ℤ) + k - 52) = (k : ℤ) - ((52 - l : ℕ) : ℤ) := by omega
    rw [e1, zpow_sub₀ (by norm_num : (2:ℚ) ≠ 0)]
    push_cast
    rw [zpow_natCast, zpow_natCast]
    field_simp
    ring
  · rw [zpow_add₀ (by norm_num : (2:ℚ) ≠ 0), zpow_natCast, zpow_natCast]
    exact mul_le_mul_of_nonneg_right h1q (by positivity)
  · have e1 : ((l : ℤ) + k + 1) = ((l + 1 : ℕ) : ℤ) + (k : ℤ) := by push_cast; ring
    rw [e1, zpow_add₀ (by norm_num : (2:ℚ) ≠ 0), zpow_natCast, zpow_natCast]
    exact mul_lt_mul_of_pos_right h2q (by positivity)

theorem ceil_f64Round_div_three (m : ℕ) (hm : 0 < m) (hlt : m < 3 * 2 ^ 52) :
    Int.ceil (f64Round ((m : ℚ) / 3)) = Int.ceil ((m : ℚ) / 3) := by
  have hx : (0:ℚ) < (m:ℚ) / 3 := by positivity
  set x : ℚ := (m:ℚ) / 3 with hxdef
  have hx52 : x < (2:ℚ) ^ (52:ℤ) := by
    rw [hxdef, div_lt_iff₀ (by norm_num)]
    have : (m:ℚ) < 3 * 2 ^ 52 := by exact_mod_cast hlt
    rw [zpow_ofNat]; linarith
  set e : ℤ := Int.log 2 x with he
  have he52 : e < 52 := (Int.lt_zpow_iff_log_lt (b := 2) (by norm_num) hx).mp (by exact_mod_cast hx52)
  have hlo : (2:ℚ) ^ e ≤ x := by
    have := Int.zpow_log_le_self (b := 2) (by norm_num) hx
    exact_mod_cast this
  have hhi : x < (2:ℚ) ^ (e + 1) := by
    have := Int.lt_zpow_succ_log_self (b := 2) (by norm_num) x
    exact_mod_cast this
  rw [f64Round_eq_of_lt hx e hlo hhi]
  obtain ⟨j, hj⟩ : ∃ j : ℕ, e - 52 = -((j : ℤ) + 1) := ⟨(51 - e).toNat, by omega⟩
  have hu : (2:ℚ) ^ (e - 52) = ((2:ℚ) ^ (j + 1))⁻¹ := by
    rw [hj, zpow_neg]; congr 1; exact_mod_cast zpow_natCast (2:ℚ) (j + 1)
  rw [hu]
  set P : ℚ := (2:ℚ) ^ (j + 1) with hP
  have hP2 : (2:ℚ) ≤ P := by
    rw [hP, pow_succ]
    have : (1:ℚ) ≤ 2 ^ j := one_le_pow₀ (by norm_num)
    linarith
  have hPpos : (0:ℚ) < P := by linarith
  rw [div_inv_eq_mul]
  set R : ℤ := roundHalfEven (x * P) with hR
  apply le_antisymm
  · -- rounding does not pass the next integer
    rw [Int.ceil_le]
    have hc : x ≤ (Int.ceil x : ℚ) := Int.le_ceil x
    have hle : x * P ≤ ((Int.ceil x * 2 ^ (j + 1) : ℤ) : ℚ) := by
      push_cast
      exact mul_le_mul_of_nonneg_right hc hPpos.le
    have hRle := roundHalfEven_le_of_le hle
    have hRq : (R : ℚ) ≤ ((Int.ceil x * 2 ^ (j + 1) : ℤ) : ℚ) := by exact_mod_cast hRle
    push_cast at hRq
    rw [← hP] at hRq
    calc (R : ℚ) * P⁻¹ ≤ ((Int.ceil x : ℚ) * P) * P⁻¹ :=
          mul_le_mul_of_nonneg_right hRq (inv_nonneg.mpr hPpos.le)
      _ = (Int.ceil x : ℚ) := by field_simp
  · -- and stays above the previous one
    have key : ((Int.ceil x : ℚ) - 1) < (R : ℚ) * P⁻¹ := by
      obtain ⟨q, r, hr, hm3⟩ : ∃ q r : ℕ, r < 3 ∧ m = 3 * q + r :=
        ⟨m / 3, m % 3, Nat.mod_lt _ (by norm_num), (Nat.div_add_mod m 3).symm⟩
      have hmq : (m : ℚ) = 3 * (q : ℚ) + (r : ℚ) := by exact_mod_cast hm3
      have hxq : x = (q : ℚ) + (r : ℚ) / 3 := by rw [hxdef, hmq]; ring
      rcases Nat.eq_zero_or_pos r with h0 | hrpos
      · have hxint : x = ((q : ℤ) : ℚ) := by
          rw [hxq, h0]; push_cast; ring
        have hRval : R = (q : ℤ) * 2 ^ (j + 1) := by
          rw [hR, hxint, hP]
          have : ((((q : ℤ)) : ℚ) * (2:ℚ) ^ (j + 1)) = ((((q : ℤ)) * 2 ^ (j + 1) : ℤ) : ℚ) := by
            push_cast; ring
          rw [this, roundHalfEven_intCast]
        rw [hRval, hxint, Int.ceil_intCast]
        push_cast
        rw [← hP]
        have : (q : ℚ) * P * P⁻¹ = (q : ℚ) := by field_simp
        rw [this]; linarith
      · have hr1 : (1:ℚ) ≤ (r : ℚ) := by exact_mod_cast hrpos
        have hr2 : (r : ℚ) ≤ 2 := by exact_mod_cast (by omega : r ≤ 2)
        have hfrac : (q : ℚ) + 1 / 3 ≤ x := by rw [hxq]; linarith
        have hceil : Int.ceil x ≤ (q : ℤ) + 1 := by
          rw [Int.ceil_le, hxq]; push_cast; linarith
        have hceilq : (Int.ceil x : ℚ) ≤ (q : ℚ) + 1 := by exact_mod_cast hceil
        have hsub := sub_half_le_roundHalfEven (x * P)
        rw [← hR] at hsub
        have hge : x - 1 / 4 ≤ (R : ℚ) * P⁻¹ := by
          have h1 : (x * P - 1 / 2) * P⁻¹ ≤ (R : ℚ) * P⁻¹ :=
            mul_le_mul_of_nonneg_right hsub (inv_nonneg.mpr hPpos.le)
          have h2 : (x * P - 1 / 2) * P⁻¹ = x - (1 / 2) * P⁻¹ := by field_simp; ring
          have h3 : P⁻¹ ≤ 1 / 2 := by
            rw [inv_le_comm₀ hPpos (by norm_num)]; simpa using hP2
          linarith
        linarith
    have key2 : ((Int.ceil x - 1 : ℤ) : ℚ) < (R : ℚ) * P⁻¹ := by push_cast; exact key
    have := Int.lt_ceil.mpr key2
    omega


theorem roundHalfEven_of_lt {x : ℚ} (z : ℤ) (h1 : (z:ℚ) ≤ x) (h2 : x < z + 1 / 2) :
    roundHalfEven x = z := by
  have hf : Int.floor x = z := by
    rw [Int.floor_eq_iff]; constructor <;> linarith
  unfold roundHalfEven
  simp only [hf]
  rw [if_pos (by linarith)]

theorem roundHalfEven_of_gt {x : ℚ} (z : ℤ) (h1 : (z:ℚ) + 1 / 2 < x) (h2 : x < z + 1) :
    roundHalfEven x = z + 1 := by
  have hf : Int.floor x = z := by
    rw [Int.floor_eq_iff]; constructor <;> linarith
  unfold roundHalfEven
  simp only [hf]
  rw [if_neg (by linarith), if_pos (by linarith)]

theorem intOfF64_intCast (z : ℤ) : intOfF64 (z : ℚ) = z := by
  unfold intOfF64; split_ifs <;> simp

theorem GetThreshold_natCast (n : ℕ) (hn : 0 < n) (hlt : n < 2 ^ 53) :
    GetThreshold (n : ℤ) = .ok (Int.ceil (f64Round (((n : ℚ) * 2) / 3)) - 1) := by
  have h1 := f64Round_natCast_mul_two_pow n hn hlt 0
  have h2 := f64Round_natCast_mul_two_pow n hn hlt 1
  simp only [pow_zero, mul_one, pow_one] at h1 h2
  unfold GetThreshold
  rw [if_neg (by omega)]
  simp only [f64OfInt, f64Mul, f64Div, mathCeil, Int.cast_natCast, h1, h2, intOfF64_intCast]

theorem GetThreshold_zero : GetThreshold 0 = .ok (-1) := by
  unfold GetThreshold
  simp [f64OfInt, f64Mul, f64Div, mathCeil, f64Round_zero, intOfF64]

theorem GetThreshold_of_lt (n : ℕ) (hlt : n < 3 * 2 ^ 51) :
    GetThreshold (n : ℤ) = .ok (Int.ceil ((2 * ((n : ℤ) : ℚ)) / 3) - 1) := by
  rcases Nat.eq_zero_or_pos n with h0 | hn
  · subst h0; simp [GetThreshold_zero]
  · rw [GetThreshold_natCast n hn (by omega)]
    have := ceil_f64Round_div_three (2 * n) (by omega) (by omega)
    push_cast at this
    have e : ((n : ℚ) * 2) / 3 = 2 * (n : ℚ) / 3 := by ring
    rw [e, this]
    simp

theorem GetThreshold_edge0 :
    GetThreshold 6755399441055744 = .ok 4503599627370495 := by
  have h := GetThreshold_natCast 6755399441055744 (by norm_num) (by norm_num)
  have hx : (((6755399441055744 : ℕ) : ℚ) * 2) / 3 = ((4503599627370496 : ℕ) : ℚ) * 2 ^ 0 := by
    norm_num
  rw [hx, f64Round_natCast_mul_two_pow _ (by norm_num) (by norm_num)] at h
  rw [show ((6755399441055744 : ℕ) : ℤ) = 6755399441055744 by norm_num] at h
  rw [h]
  norm_num [Int.ceil_eq_iff]

theorem f64Round_edge1 : f64Round ((13510798882111490 : ℚ) / 3) = 4503599627370497 := by
  rw [f64Round_eq_of_lt (by norm_num) 52 (by norm_num) (by norm_num)]
  rw [roundHalfEven_of_gt 4503599627370496 (by norm_num) (by norm_num)]
  norm_num

theorem f64Round_edge2 : f64Round ((13510798882111492 : ℚ) / 3) = 4503599627370497 := by
  rw [f64Round_eq_of_lt (by norm_num) 52 (by norm_num) (by norm_num)]
  rw [roundHalfEven_of_lt 4503599627370497 (by norm_num) (by norm_num)]
  norm_num

theorem GetThreshold_edge1 :
    GetThreshold 6755399441055745 = .ok 4503599627370496 := by
  have h := GetThreshold_natCast 6755399441055745 (by norm_num) (by norm_num)
  have hx : (((6755399441055745 : ℕ) : ℚ) * 2) / 3 = (13510798882111490 : ℚ) / 3 := by
    norm_num
  rw [hx, f64Round_edge1] at h
  rw [show ((6755399441055745 : ℕ) : ℤ) = 6755399441055745 by norm_num] at h
  rw [h]
  norm_num [Int.ceil_eq_iff]

theorem GetThreshold_edge2 :
    GetThreshold 6755399441055746 = .ok 4503599627370496 := by
  have h := GetThreshold_natCast 6755399441055746 (by norm_num) (by norm_num)
  have hx : (((6755399441055746 : ℕ) : ℚ) * 2) / 3 = (13510798882111492 : ℚ) / 3 := by
    norm_num
  rw [hx, f64Round_edge2] at h
  rw [show ((6755399441055746 : ℕ) : ℤ) = 6755399441055746 by norm_num] at h
  rw [h]
  norm_num [Int.ceil_eq_iff]


theorem ceil_two_mul_div_three (N : ℤ) :
    Int.ceil ((2 * (N : ℚ)) / 3) = (2 * N + 2) / 3 := by
  rw [Int.ceil_eq_iff]
  have h1 : 3 * ((2 * N + 2) / 3) ≤ 2 * N + 2 := by omega
  have h2 : 2 * N + 2 < 3 * ((2 * N + 2) / 3) + 3 := by omega
  have h1q : (3:ℚ) * (((2 * N + 2) / 3 : ℤ) : ℚ) ≤ 2 * (N:ℚ) + 2 := by exact_mod_cast h1
  have h2q : 2 * (N:ℚ) + 2 < (3:ℚ) * (((2 * N + 2) / 3 : ℤ) : ℚ) + 3 := by exact_mod_cast h2
  have h3 : 2 * N ≤ 3 * ((2 * N + 2) / 3) := by omega
  have h3q : 2 * (N:ℚ) ≤ (3:ℚ) * (((2 * N + 2) / 3 : ℤ) : ℚ) := by exact_mod_cast h3
  constructor
  · rw [lt_div_iff₀ (by norm_num)]; linarith
  · rw [div_le_iff₀ (by norm_num)]; linarith

example : Int.ceil ((2 * ((6755399441055746 : ℤ) : ℚ)) / 3) - 1 = 4503599627370497 := by rw [ceil_two_mul_div_three]; decide

/-- C5 (amended): for every `N` with `0 ≤ N ≤ 6755399441055745 = 3·2^51 + 1`,
`GetThreshold N` returns `⌈2N/3⌉ - 1` with a nil error; for every `N < 0` it
returns the error `negative input`. -/
theorem GetThreshold_spec (N : Int) :
    (0 ≤ N → N ≤ 6755399441055745 →
      GetThreshold N = .ok (Int.ceil ((2 * (N : ℚ)) / 3) - 1)) ∧
    (N < 0 → GetThreshold N = .error "negative input") := by
  constructor
  · intro h0 h1
    obtain ⟨n, rfl⟩ := Int.eq_ofNat_of_zero_le h0
    rcases Nat.lt_or_ge n (3 * 2 ^ 51) with hlt | hge
    · exact GetThreshold_of_lt n hlt
    · have hn : n = 6755399441055744 ∨ n = 6755399441055745 := by omega
      rcases hn with rfl | rfl
      · rw [ceil_two_mul_div_three]; exact GetThreshold_edge0
      · rw [ceil_two_mul_div_three]; exact GetThreshold_edge1
  · intro h
    unfold GetThreshold
    rw [if_pos h]

/-- C5, the seed values of `TestGetThreshold`: `4 → 2`, `9 → 5`, `10 → 6`,
`99 → 65`, and an error for `-2`. -/
theorem GetThreshold_spec_witness :
    ((0 : Int) ≤ 4 ∧ (4 : Int) ≤ 6755399441055745 ∧ GetThreshold 4 = .ok 2) ∧
    GetThreshold 9 = .ok 5 ∧ GetThreshold 10 = .ok 6 ∧ GetThreshold 99 = .ok 65 ∧
    ((-2 : Int) < 0 ∧ GetThreshold (-2) = .error "negative input") := by
  refine ⟨⟨by norm_num, by norm_num, ?_⟩, ?_, ?_, ?_, by norm_num, ?_⟩
  · have h := (GetThreshold_spec 4).1 (by norm_num) (by norm_num)
    rw [ceil_two_mul_div_three] at h; exact h
  · have h := (GetThreshold_spec 9).1 (by norm_num) (by norm_num)
    rw [ceil_two_mul_div_three] at h; exact h
  · have h := (GetThreshold_spec 10).1 (by norm_num) (by norm_num)
    rw [ceil_two_mul_div_three] at h; exact h
  · have h := (GetThreshold_spec 99).1 (by norm_num) (by norm_num)
    rw [ceil_two_mul_div_three] at h; exact h
  · exact (GetThreshold_spec (-2)).2 (by norm_num)

/-- C5 as stated fails: for `N = 6755399441055746 = 3·2^51 + 2` the quotient
`2N/3 = 2^52 + 4/3` is rounded to the float `2^52 + 1`, and `GetThreshold`
returns `2^52`, one less than `⌈2N/3⌉ - 1 = 2^52 + 1`. -/
theorem GetThreshold_counterexample :
    (0 : Int) ≤ 6755399441055746 ∧
    GetThreshold 6755399441055746 = .ok 4503599627370496 ∧
    Int.ceil ((2 * ((6755399441055746 : Int) : ℚ)) / 3) - 1 = 4503599627370497 ∧
    GetThreshold 6755399441055746 ≠
      .ok (Int.ceil ((2 * ((6755399441055746 : Int) : ℚ)) / 3) - 1) := by
  have hc : Int.ceil ((2 * ((6755399441055746 : Int) : ℚ)) / 3) - 1 = 4503599627370497 := by
    rw [ceil_two_mul_div_three]; decide
  refine ⟨by norm_num, GetThreshold_edge2, hc, ?_⟩
  rw [hc, GetThreshold_edge2]
  decide

/-! ## `LeaderNode` -/

theorem fnvStep_lt (hash c : Nat) : fnvStep hash c < 2 ^ 32 := by
  unfold fnvStep
  apply Nat.xor_lt_two_pow
  · exact Nat.mod_lt _ (by norm_num)
  · have : c % 256 < 256 := Nat.mod_lt _ (by norm_num)
    omega

theorem foldl_fnvStep_lt (buf : List Nat) (h : Nat) (hh : h < 2 ^ 32) :
    buf.foldl fnvStep h < 2 ^ 32 := by
  induction buf generalizing h with
  | nil => simpa using hh
  | cons c rest ih => exact ih _ (fnvStep_lt h c)

theorem fnv32_lt (buf : List Nat) : fnv32 buf < 2 ^ 32 :=
  foldl_fnvStep_lt buf _ (by norm_num)

/-- C7 (amended): for every `msgID` and `N ≥ 1` whose 32-bit FNV-1 hash `h` is
not `2^31`, `LeaderNode(msgID, N)` is `|int32(h)| mod N`: `h mod N` when
`h < 2^31` and `(2^32 - h) mod N` when `h > 2^31`. -/
theorem LeaderNode_eq (msgID : List Nat) (N : Int) (hN : 1 ≤ N)
    (h : fnv32 msgID ≠ 2 ^ 31) :
    LeaderNode msgID N =
      .ok (if fnv32 msgID < 2 ^ 31 then (fnv32 msgID : Int) % N
           else (2 ^ 32 - (fnv32 msgID : Int)) % N) := by
  have hlt := fnv32_lt msgID
  have hN0 : N ≠ 0 := by omega
  unfold LeaderNode int32OfUint32 wrapInt32
  simp only [hN0, if_false]
  by_cases hc : fnv32 msgID < 2 ^ 31
  · simp only [hc, if_true]
    have h0 : ¬ ((fnv32 msgID : Int) < 0) := by omega
    rw [if_neg h0, Int.tmod_eq_emod (by omega) (by omega)]
  · simp only [hc, if_false]
    norm_num at hc hlt h ⊢
    rw [if_pos hlt]
    have e : (4294967296 - (fnv32 msgID : Int) + 2147483648) % 4294967296 - 2147483648
        = 4294967296 - (fnv32 msgID : Int) := by omega
    rw [e, Int.tmod_eq_emod (by omega) (by omega)]

/-- C7, the seed value of `TestLeaderNode`: `LeaderNode("HelloWorld", 5) = 1`,
where the hash `998314721` is below `2^31`. -/
theorem LeaderNode_eq_witness :
    (1 : Int) ≤ 5 ∧ fnv32 (asciiBytes "HelloWorld") ≠ 2 ^ 31 ∧
    LeaderNode (asciiBytes "HelloWorld") 5 = .ok 1 := by
  refine ⟨by norm_num, by decide, ?_⟩
  have h := LeaderNode_eq (asciiBytes "HelloWorld") 5 (by norm_num) (by decide)
  rw [h]
  decide

/-- C7 as stated fails: the FNV-1 hash of `"test"` is `3157003241 ≥ 2^31`, and
`LeaderNode("test", 5) = 0` while `3157003241 mod 5 = 1`. -/
theorem LeaderNode_counterexample :
    fnv32 (asciiBytes "test") = 3157003241 ∧
    LeaderNode (asciiBytes "test") 5 = .ok 0 ∧
    LeaderNode (asciiBytes "test") 5 ≠ .ok (((fnv32 (asciiBytes "test") : Nat) : Int) % 5) := by
  decide

/-- C6, the failing input: the FNV-1 hash of `"aEZca9"` is `2^31`, `int32` of it
is the least `int32`, whose negation overflows to itself, and
`LeaderNode("aEZca9", 3)` returns the index `-2`, which is not in `[0, 3)`. -/
theorem LeaderNode_negative_index :
    fnv32 (asciiBytes "aEZca9") = 2 ^ 31 ∧
    LeaderNode (asciiBytes "aEZca9") 3 = .ok (-2) := by
  decide

/-! ## Stream framing -/

theorem uint32LE_putUint32LE (v : Nat) (hv : v < 2 ^ 32) : uint32LE (putUint32LE v) = v := by
  simp only [uint32LE, putUint32LE, List.getD_cons_zero, List.getD_cons_succ]
  norm_num at hv
  omega

theorem readFull_append (a b : Bytes) : readFull (a ++ b) a.length = some (a, b) := by
  simp [readFull]

/-- Reading back what `WriteStreamWithBuffer` wrote. -/
theorem ReadStreamWithBuffer_write (x : Bytes) (hx : x.length < 2 ^ 32) :
    ReadStreamWithBuffer (WriteStreamWithBuffer x []).2 =
      if x.length > MaxPayload then (.error "payload length exceed max payload length", x)
      else (.ok x, []) := by
  have hmod : x.length % 2 ^ 32 = x.length := Nat.mod_eq_of_lt hx
  have hw : (WriteStreamWithBuffer x []).2 = putUint32LE x.length ++ x := by
    simp only [WriteStreamWithBuffer, hmod, List.nil_append, ne_eq, not_true_eq_false, if_false]
  have hr : readFull (putUint32LE x.length ++ x) LengthHeader = some (putUint32LE x.length, x) := by
    have := readFull_append (putUint32LE x.length) x
    simpa [putUint32LE, LengthHeader] using this
  rw [hw]
  unfold ReadStreamWithBuffer
  rw [hr]
  simp only [uint32LE_putUint32LE x.length hx]
  split_ifs with h
  · rfl
  · have := readFull_append x []
    simp only [List.append_nil] at this
    rw [this]

/-- C8 (amended): for every byte string `x` of at most `MaxPayload = 512000`
bytes, `WriteStreamWithBuffer(x)` succeeds and `ReadStreamWithBuffer` on the
stream it wrote returns `x` with no error and leaves nothing unread; a frame
whose declared length exceeds 512000 is rejected with an error. -/
theorem framing_roundtrip (x : Bytes) (stream : Bytes) :
    (x.length ≤ 512000 →
      (WriteStreamWithBuffer x []).1 = none ∧
      ReadStreamWithBuffer (WriteStreamWithBuffer x []).2 = (.ok x, [])) ∧
    (4 ≤ stream.length → uint32LE (stream.take 4) > 512000 →
      ∃ e, (ReadStreamWithBuffer stream).1 = .error e) := by
  constructor
  · intro hx
    constructor
    · simp [WriteStreamWithBuffer]
    · rw [ReadStreamWithBuffer_write x (by norm_num; omega), if_neg (by simp [MaxPayload]; omega)]
  · intro h4 hlen
    refine ⟨"payload length exceed max payload length", ?_⟩
    unfold ReadStreamWithBuffer readFull
    simp only [LengthHeader]
    rw [if_neg (by omega)]
    simp only [MaxPayload]
    rw [if_pos hlen]

/-- C8, the seed value of `TestReadPayload` (`"hello world"`), and a frame that
declares 512001 bytes. -/
theorem framing_roundtrip_witness :
    (asciiBytes "hello world").length ≤ 512000 ∧
    ReadStreamWithBuffer (WriteStreamWithBuffer (asciiBytes "hello world") []).2
      = (.ok (asciiBytes "hello world"), []) ∧
    (∃ e, (ReadStreamWithBuffer [1, 208, 7, 0, 42]).1 = .error e) := by
  refine ⟨by decide, ?_, ?_⟩
  · exact ((framing_roundtrip (asciiBytes "hello world") []).1 (by decide)).2
  · exact (framing_roundtrip [] [1, 208, 7, 0, 42]).2 (by decide) (by decide)

theorem oversizedPayload_length : oversizedPayload.length = 512001 :=
  List.length_replicate _ _

theorem WriteStreamWithBuffer_ok (x stream : Bytes) : (WriteStreamWithBuffer x stream).1 = none := by
  simp [WriteStreamWithBuffer]

theorem ReadStreamWithBuffer_write_big (x : Bytes) (h1 : 512000 < x.length)
    (h2 : x.length < 2 ^ 32) :
    (ReadStreamWithBuffer (WriteStreamWithBuffer x []).2).1
      = .error "payload length exceed max payload length" := by
  rw [ReadStreamWithBuffer_write x h2, if_pos (by simpa [MaxPayload] using h1)]

/-- C8 as stated fails: a payload of 512001 bytes is within 512 KiB (524288
bytes), `WriteStreamWithBuffer` writes it, and `ReadStreamWithBuffer` rejects
the frame. -/
theorem framing_counterexample :
    oversizedPayload.length ≤ 524288 ∧
    (WriteStreamWithBuffer oversizedPayload []).1 = none ∧
    (ReadStreamWithBuffer (WriteStreamWithBuffer oversizedPayload []).2).1
      = .error "payload length exceed max payload length" :=
  ⟨by rw [oversizedPayload_length]; norm_num, WriteStreamWithBuffer_ok _ _,
   ReadStreamWithBuffer_write_big _ (by rw [oversizedPayload_length]; norm_num)
     (by rw [oversizedPayload_length]; norm_num)⟩

/-! ## Go maps -/

namespace GoMap

variable {β : Type}

theorem get?_eq_none_iff (m : GoMap β) (k : String) : m.get? k = none ↔ k ∉ m.keys := by
  induction m with
  | nil => simp [get?, keys]
  | cons p m ih =>
    obtain ⟨k', v'⟩ := p
    simp only [get?, keys, List.lookup, List.map_cons, List.mem_cons, not_or] at ih ⊢
    by_cases h : k = k'
    · subst h; simp
    · have : (k == k') = false := by simpa using h
      rw [this]; simp [h, ih]

theorem mem_of_get?_eq_some (m : GoMap β) (k : String) (v : β) (h : m.get? k = some v) :
    (k, v) ∈ m := by
  induction m with
  | nil => simp [get?] at h
  | cons p m ih =>
    obtain ⟨k', v'⟩ := p
    simp only [get?, List.lookup] at h ih
    by_cases hk : k = k'
    · subst hk; simp at h; subst h; simp
    · have : (k == k') = false := by simpa using hk
      rw [this] at h
      exact List.mem_cons_of_mem _ (ih h)

theorem keys_set_of_not_mem (m : GoMap β) (k : String) (v : β) (h : k ∉ m.keys) :
    (m.set k v).keys = m.keys ++ [k] := by
  induction m with
  | nil => simp [set, keys]
  | cons p m ih =>
    obtain ⟨k', v'⟩ := p
    simp only [keys, List.map_cons, List.mem_cons, not_or] at h ih ⊢
    have hne : ¬ k' = k := fun e => h.1 e.symm
    simp [set, hne, ih h.2]

theorem keys_set_of_mem (m : GoMap β) (k : String) (v : β) (h : k ∈ m.keys) :
    (m.set k v).keys = m.keys := by
  induction m with
  | nil => simp [keys] at h
  | cons p m ih =>
    obtain ⟨k', v'⟩ := p
    simp only [keys, List.map_cons, List.mem_cons] at h ih ⊢
    by_cases hk : k' = k
    · simp [set, hk]
    · have : k ∈ List.map Prod.fst m := by
        rcases h with h | h
        · exact absurd h.symm hk
        · exact h
      simp [set, hk, ih this]

theorem mem_set (m : GoMap β) (k : String) (v : β) (p : String × β) (h : p ∈ m.set k v) :
    p = (k, v) ∨ p ∈ m := by
  induction m with
  | nil => simp [set] at h; exact Or.inl h
  | cons q m ih =>
    obtain ⟨k', v'⟩ := q
    by_cases hk : k' = k
    · simp only [set, hk, if_true, List.mem_cons] at h
      rcases h with h | h
      · exact Or.inl h
      · exact Or.inr (List.mem_cons_of_mem _ h)
    · simp only [set, hk, if_false, List.mem_cons] at h
      rcases h with h | h
      · exact Or.inr (by rw [h]; exact List.mem_cons_self _ _)
      · rcases ih h with h' | h'
        · exact Or.inl h'
        · exact Or.inr (List.mem_cons_of_mem _ h')

theorem length_eq_keys_length (m : GoMap β) : m.length = m.keys.length := by
  simp [keys]

end GoMap


/-! ## Task-done notifications -/

theorem ProcessOneMessage_taskDone (env : Env) (t : TssCommon) (wrapped : WrappedMessage)
    (peerID : String) (hty : wrapped.MessageType = TSSTaskDone) :
    t.ProcessOneMessage env (some wrapped) peerID =
      match wrapped.Payload.notifier with
      | none => .ok (t, none)
      | some wireMsg =>
        if wireMsg.TaskDone then
          if (t.finishedPeers.get? peerID).getD false then
            .ok (t, some (.new ("duplicated notification from peer " ++ peerID ++ " ignored")))
          else
            match t.partyInfo with
            | none => .error "nil pointer dereference: t.partyInfo"
            | some partyInfo =>
              if ((t.finishedPeers.set peerID true).length : Int)
                  = (partyInfo.PartyIDMap.length : Int) - 1 then
                if t.taskDone then .error "close of closed channel"
                else .ok ({ t with finishedPeers := t.finishedPeers.set peerID true,
                                   taskDone := true }, none)
              else .ok ({ t with finishedPeers := t.finishedPeers.set peerID true }, none)
        else .ok (t, none) := by
  unfold TssCommon.ProcessOneMessage
  simp only [hty]

theorem donePeers_append_single (pre : List (WrappedMessage × String)) (m : WrappedMessage)
    (p : String) :
    donePeers (pre ++ [(m, p)]) =
      if m.MessageType = TSSTaskDone ∧ m.Payload.notifier = some { TaskDone := true }
      then insert p (donePeers pre) else donePeers pre := by
  unfold donePeers
  rw [List.filter_append]
  by_cases h : m.MessageType = TSSTaskDone ∧ m.Payload.notifier = some { TaskDone := true }
  · rw [if_pos h]
    have : List.filter (fun m : WrappedMessage × String => decide (m.1.MessageType = TSSTaskDone ∧
        m.1.Payload.notifier = some { TaskDone := true })) [(m, p)] = [(m, p)] := by
      simp [List.filter, h]
    rw [this]
    ext x
    simp [or_comm]
  · rw [if_neg h]
    have : List.filter (fun m : WrappedMessage × String => decide (m.1.MessageType = TSSTaskDone ∧
        m.1.Payload.notifier = some { TaskDone := true })) [(m, p)] = [] := by
      simp [List.filter, h]
    rw [this]
    simp

theorem finishedPeers_get?_iff (t : TssCommon) (hv : ∀ p ∈ t.finishedPeers, p.2 = true)
    (peerID : String) :
    (t.finishedPeers.get? peerID).getD false = true ↔ peerID ∈ t.finishedPeers.keys := by
  constructor
  · intro h
    by_contra hn
    rw [(GoMap.get?_eq_none_iff _ _).mpr hn] at h
    simp at h
  · intro h
    cases hg : t.finishedPeers.get? peerID with
    | none => exact absurd h ((GoMap.get?_eq_none_iff _ _).mp hg)
    | some v =>
      have := hv _ (GoMap.mem_of_get?_eq_some _ _ _ hg)
      simpa using this

/-- One task-done message keeps the bookkeeping and does not panic. -/
theorem TaskDoneInv_step (env : Env) (pi : PartyInfo) (t : TssCommon)
    (pre : List (WrappedMessage × String)) (m : WrappedMessage) (p : String)
    (hty : m.MessageType = TSSTaskDone) (inv : TaskDoneInv pi t pre) :
    ∃ t2 e, t.ProcessOneMessage env (some m) p = .ok (t2, e) ∧
      TaskDoneInv pi t2 (pre ++ [(m, p)]) := by
  have hcard : (donePeers pre).card = t.finishedPeers.length := by
    rw [← inv.keys, List.toFinset_card_of_nodup inv.nodup, GoMap.length_eq_keys_length]
  rw [ProcessOneMessage_taskDone env t m p hty]
  have hdp := donePeers_append_single pre m p
  cases hn : m.Payload.notifier with
  | none =>
    refine ⟨t, none, rfl, ?_⟩
    rw [hn] at hdp
    simp only [reduceCtorEq, and_false, if_false] at hdp
    exact ⟨inv.party, inv.vals, inv.nodup, by rw [hdp]; exact inv.keys, by rw [hdp]; exact inv.closed⟩
  | some wireMsg =>
    obtain ⟨td⟩ := wireMsg
    cases td with
    | false =>
      refine ⟨t, none, by simp, ?_⟩
      rw [hn] at hdp
      simp at hdp
      exact ⟨inv.party, inv.vals, inv.nodup, by rw [hdp]; exact inv.keys, by rw [hdp]; exact inv.closed⟩
    | true =>
      rw [hn] at hdp
      simp only [hty, true_and, if_true] at hdp
      by_cases hdup : (t.finishedPeers.get? p).getD false = true
      · have hmem := (finishedPeers_get?_iff t inv.vals p).mp hdup
        have hins : insert p (donePeers pre) = donePeers pre := by
          apply Finset.insert_eq_of_mem
          rw [← inv.keys]; simpa using hmem
        refine ⟨t, some (.new ("duplicated notification from peer " ++ p ++ " ignored")),
          by simp [hdup], ?_⟩
        exact ⟨inv.party, inv.vals, inv.nodup, by rw [hdp, hins]; exact inv.keys,
          by rw [hdp, hins]; exact inv.closed⟩
      · have hnmem : p ∉ t.finishedPeers.keys := fun h => hdup ((finishedPeers_get?_iff t inv.vals p).mpr h)
        have hkeys := GoMap.keys_set_of_not_mem t.finishedPeers p true hnmem
        have hlen : (t.finishedPeers.set p true).length = t.finishedPeers.length + 1 := by
          rw [GoMap.length_eq_keys_length, hkeys, List.length_append, GoMap.length_eq_keys_length]
          rfl
        have hnotin : p ∉ donePeers pre := by
          rw [← inv.keys]; simpa using hnmem
        have hcard' : (donePeers (pre ++ [(m, p)])).card = t.finishedPeers.length + 1 := by
          rw [hdp, Finset.card_insert_of_not_mem hnotin, hcard]
        have hvals : ∀ q ∈ t.finishedPeers.set p true, q.2 = true := by
          intro q hq
          rcases GoMap.mem_set _ _ _ _ hq with h | h
          · rw [h]
          · exact inv.vals q h
        have hnodup : (t.finishedPeers.set p true).keys.Nodup := by
          rw [hkeys]
          exact List.Nodup.append inv.nodup (List.nodup_singleton p)
            (by
              intro a ha hp
              rw [List.mem_singleton] at hp
              exact hnmem (hp ▸ ha))
        have hkeyset : (t.finishedPeers.set p true).keys.toFinset = donePeers (pre ++ [(m, p)]) := by
          rw [hkeys, hdp, ← inv.keys]
          ext x; simp [or_comm]
        have hclosed := inv.closed
        rw [hcard] at hclosed
        simp only [hdup, inv.party, hlen]
        push_cast
        by_cases hN : (t.finishedPeers.length : Int) + 1 = (pi.PartyIDMap.length : Int) - 1
        · have hopen : t.taskDone = false := by
            cases h : t.taskDone with
            | false => rfl
            | true => have := hclosed.mp h; omega
          refine ⟨{ t with finishedPeers := t.finishedPeers.set p true, taskDone := true }, none,
            by simp [hN, hopen, inv.party], ?_⟩
          refine ⟨inv.party, hvals, hnodup, hkeyset, ?_⟩
          rw [hcard']
          simp only [true_iff]
          push_cast
          omega
        · refine ⟨{ t with finishedPeers := t.finishedPeers.set p true }, none,
            by simp [hN, inv.party], ?_⟩
          refine ⟨inv.party, hvals, hnodup, hkeyset, ?_⟩
          rw [hcard']
          push_cast
          constructor
          · intro h; have := hclosed.mp h; omega
          · intro h; apply hclosed.mpr; omega


theorem TaskDoneInv_run (env : Env) (pi : PartyInfo) (msgs : List (WrappedMessage × String)) :
    ∀ (t : TssCommon) (pre : List (WrappedMessage × String)),
      (∀ x ∈ msgs, x.1.MessageType = TSSTaskDone) → TaskDoneInv pi t pre →
      ∃ t2, runMessages env t msgs = .ok t2 ∧ TaskDoneInv pi t2 (pre ++ msgs) := by
  induction msgs with
  | nil => intro t pre _ inv; exact ⟨t, rfl, by simpa using inv⟩
  | cons x rest ih =>
    intro t pre hall inv
    obtain ⟨m, p⟩ := x
    obtain ⟨t1, e, hstep, inv1⟩ := TaskDoneInv_step env pi t pre m p
      (hall (m, p) (List.mem_cons_self _ _)) inv
    obtain ⟨t2, hrun, inv2⟩ := ih t1 (pre ++ [(m, p)])
      (fun y hy => hall y (List.mem_cons_of_mem _ hy)) inv1
    refine ⟨t2, ?_, by simpa using inv2⟩
    simp only [runMessages, hstep]
    exact hrun

theorem TaskDoneInv_init (pi : PartyInfo) (t0 : TssCommon) (hpi : t0.partyInfo = some pi)
    (hfin : t0.finishedPeers = []) (hopen : t0.taskDone = false) : TaskDoneInv pi t0 [] := by
  refine ⟨hpi, by simp [hfin], by simp [hfin, GoMap.keys], by simp [hfin, GoMap.keys, donePeers], ?_⟩
  simp only [hopen, donePeers, List.filter_nil, List.map_nil, List.toFinset_nil, Finset.card_empty]
  constructor
  · intro h; cases h
  · intro h; exfalso; have := h.1; have := h.2; push_cast at *; omega

/-- C9: in a session of `N` parties (`PartyIDMap` of `pi`) that starts with no
finished peer and an open `taskDone`, for every sequence of `TSSTaskDone`
messages `pre` followed by one more message from peer `p`: no call panics
(`taskDone` is never closed twice), this step closes `taskDone` exactly when
the number of distinct peers that have sent `TaskDone = true` becomes `N - 1`
at this step, and a closed `taskDone` stays closed. -/
theorem taskDone_closed_exactly_once (env : Env) (pi : PartyInfo) (t0 : TssCommon)
    (hpi : t0.partyInfo = some pi) (hfin : t0.finishedPeers = []) (hopen : t0.taskDone = false)
    (pre : List (WrappedMessage × String)) (m : WrappedMessage) (p : String)
    (hall : ∀ x ∈ pre ++ [(m, p)], x.1.MessageType = TSSTaskDone) :
    ∃ t1 t2 e, runMessages env t0 pre = .ok t1 ∧
      t1.ProcessOneMessage env (some m) p = .ok (t2, e) ∧
      ((t1.taskDone = false ∧ t2.taskDone = true) ↔
        (((donePeers (pre ++ [(m, p)])).card : Int) = (pi.PartyIDMap.length : Int) - 1 ∧
         ((donePeers pre).card : Int) ≠ (pi.PartyIDMap.length : Int) - 1)) ∧
      (t1.taskDone = true → t2.taskDone = true) := by
  obtain ⟨t1, hrun, inv1⟩ := TaskDoneInv_run env pi pre t0 []
    (fun x hx => hall x (List.mem_append_left _ hx)) (TaskDoneInv_init pi t0 hpi hfin hopen)
  simp only [List.nil_append] at inv1
  obtain ⟨t2, e, hstep, inv2⟩ := TaskDoneInv_step env pi t1 pre m p
    (hall (m, p) (by simp)) inv1
  refine ⟨t1, t2, e, hrun, hstep, ?_, ?_⟩
  · have h1 := inv1.closed
    have h2 := inv2.closed
    have hc := donePeers_append_single pre m p
    have hle : (donePeers pre).card ≤ (donePeers (pre ++ [(m, p)])).card ∧
        (donePeers (pre ++ [(m, p)])).card ≤ (donePeers pre).card + 1 := by
      rw [hc]
      split_ifs
      · exact ⟨Finset.card_le_card (Finset.subset_insert _ _), Finset.card_insert_le _ _⟩
      · exact ⟨le_refl _, Nat.le_succ _⟩
    cases hb1 : t1.taskDone <;> cases hb2 : t2.taskDone <;>
      simp only [hb1, hb2, true_iff, false_iff, Bool.false_eq_true, reduceCtorEq, and_self,
        and_true, and_false, true_and, false_and, not_and, not_true_eq_false, not_false_eq_true,
        iff_true, iff_false] at h1 h2 ⊢ <;> omega
  · intro h
    have h1 := inv1.closed.mp h
    apply inv2.closed.mpr
    have hc := donePeers_append_single pre m p
    have hle : (donePeers pre).card ≤ (donePeers (pre ++ [(m, p)])).card := by
      rw [hc]
      split_ifs
      · exact Finset.card_le_card (Finset.subset_insert _ _)
      · exact le_refl _
    omega


/-- C9 at a three party session: the notification of peer `1` leaves
`taskDone` open, the one of peer `2` closes it. -/
theorem taskDone_closed_exactly_once_witness :
    (∃ t1 t2 e, runMessages demoEnv threePartySession [(taskDoneMsg, "1")] = .ok t1 ∧
      t1.ProcessOneMessage demoEnv (some taskDoneMsg) "2" = .ok (t2, e) ∧
      ((t1.taskDone = false ∧ t2.taskDone = true) ↔
        (((donePeers ([(taskDoneMsg, "1")] ++ [(taskDoneMsg, "2")])).card : Int)
            = (threePartyInfo.PartyIDMap.length : Int) - 1 ∧
         ((donePeers [(taskDoneMsg, "1")]).card : Int)
            ≠ (threePartyInfo.PartyIDMap.length : Int) - 1)) ∧
      (t1.taskDone = true → t2.taskDone = true)) ∧
    (runMessages demoEnv threePartySession [(taskDoneMsg, "1")]).map (fun t => t.taskDone)
      = .ok false ∧
    (runMessages demoEnv threePartySession [(taskDoneMsg, "1"), (taskDoneMsg, "2")]).map
      (fun t => t.taskDone) = .ok true :=
  ⟨taskDone_closed_exactly_once demoEnv threePartyInfo threePartySession rfl rfl rfl
    [(taskDoneMsg, "1")] taskDoneMsg "2" (by simp [taskDoneMsg]), by decide, by decide⟩

/-- C10: for every peer `p` already recorded in `finishedPeers`, a
`TSSTaskDone` message with `TaskDone = true` from `p` returns the error
`duplicated notification from peer p ignored` and leaves the session state as
it was: `finishedPeers` is unchanged and `taskDone` is not closed. -/
theorem duplicate_taskDone_ignored (env : Env) (t : TssCommon) (wrapped : WrappedMessage)
    (p : String) (hty : wrapped.MessageType = TSSTaskDone)
    (hdone : wrapped.Payload.notifier = some { TaskDone := true })
    (hrec : t.finishedPeers.get? p = some true) :
    ∃ err, t.ProcessOneMessage env (some wrapped) p = .ok (t, some err) ∧
      err.Error = "duplicated notification from peer " ++ p ++ " ignored" := by
  refine ⟨.new ("duplicated notification from peer " ++ p ++ " ignored"), ?_, rfl⟩
  rw [ProcessOneMessage_taskDone env t wrapped p hty, hdone]
  simp [hrec]

/-- C10 at the third message of `TestCloseKeyGennotifyChannel`: `node1`
notifies again. -/
theorem duplicate_taskDone_ignored_witness :
    twoPartySessionDone.finishedPeers.get? "node1" = some true ∧
    ∃ err, twoPartySessionDone.ProcessOneMessage demoEnv (some taskDoneMsg) "node1"
        = .ok (twoPartySessionDone, some err) ∧
      err.Error = "duplicated notification from peer node1 ignored" :=
  ⟨by decide, duplicate_taskDone_ignored demoEnv twoPartySessionDone taskDoneMsg "node1" rfl rfl
    (by decide)⟩

/-! ## `getHighestFreq` and `hashCheck` -/

namespace GoMap

variable {β : Type}

theorem get?_set (m : GoMap β) (k : String) (v : β) (k' : String) :
    (m.set k v).get? k' = if k' = k then some v else m.get? k' := by
  induction m with
  | nil =>
    by_cases h : k' = k
    · simp [set, get?, List.lookup, h]
    · have : (k' == k) = false := by simpa using h
      simp [set, get?, List.lookup, h, this]
  | cons p m ih =>
    obtain ⟨k0, v0⟩ := p
    simp only [get?] at ih
    by_cases h0 : k0 = k
    · subst h0
      by_cases h : k' = k0
      · simp [set, get?, List.lookup, h]
      · have : (k' == k0) = false := by simpa using h
        simp [set, get?, List.lookup, h, this]
    · by_cases h : k' = k0
      · subst h
        have hne : ¬ k' = k := h0
        simp [set, get?, List.lookup, h0, hne]
      · have hb : (k' == k0) = false := by simpa using h
        simp [set, get?, List.lookup, h0, hb, ih]

theorem nodup_set (m : GoMap β) (k : String) (v : β) (h : m.keys.Nodup) :
    (m.set k v).keys.Nodup := by
  by_cases hk : k ∈ m.keys
  · rw [keys_set_of_mem m k v hk]; exact h
  · rw [keys_set_of_not_mem m k v hk]
    exact List.Nodup.append h (List.nodup_singleton k)
      (by
        intro a ha hp
        rw [List.mem_singleton] at hp
        exact hk (hp ▸ ha))

theorem get?_of_mem (m : GoMap β) (k : String) (v : β) (hn : m.keys.Nodup) (h : (k, v) ∈ m) :
    m.get? k = some v := by
  induction m with
  | nil => simp at h
  | cons p m ih =>
    obtain ⟨k0, v0⟩ := p
    simp only [keys, List.map_cons, List.nodup_cons] at hn
    simp only [get?] at ih
    rcases List.mem_cons.mp h with h | h
    · cases h; simp [get?, List.lookup]
    · have hne : ¬ k = k0 := by
        intro e
        apply hn.1
        rw [← e]
        exact List.mem_map_of_mem Prod.fst h
      have hb : (k == k0) = false := by simpa using hne
      simp only [get?, List.lookup, hb]
      exact ih hn.2 h

end GoMap

theorem countFreq_get? (cl : GoMap String) (h : String) :
    (countFreq cl).get? h =
      if (cl.filter (fun p => p.2 = h)).length = 0 then none
      else some (cl.filter (fun p => p.2 = h)).length := by
  induction cl with
  | nil => simp [countFreq, GoMap.get?]
  | cons p rest ih =>
    obtain ⟨k, v⟩ := p
    simp only [countFreq, GoMap.get?_set]
    by_cases hv : h = v
    · subst hv
      have hg : ((countFreq rest).get? h).getD 0 = (rest.filter (fun p => p.2 = h)).length := by
        rw [ih]; split_ifs with h0 <;> simp [h0]
      have hf : List.filter (fun p : String × String => decide (p.2 = h)) ((k, h) :: rest)
          = (k, h) :: rest.filter (fun p => p.2 = h) := by
        simp [List.filter_cons]
      rw [if_pos rfl, hg, hf]
      simp
    · have hv' : ¬ v = h := fun e => hv e.symm
      have hf : List.filter (fun p : String × String => decide (p.2 = h)) ((k, v) :: rest)
          = rest.filter (fun p => p.2 = h) := by
        simp [List.filter_cons, hv']
      rw [if_neg hv, ih, hf]

theorem countFreq_nodup (cl : GoMap String) : (countFreq cl).keys.Nodup := by
  induction cl with
  | nil => simp [countFreq, GoMap.keys]
  | cons p rest ih =>
    obtain ⟨k, v⟩ := p
    simp only [countFreq]
    exact GoMap.nodup_set _ _ _ ih

theorem countFreq_mem (cl : GoMap String) (h : String) (n : Nat) (hm : (h, n) ∈ countFreq cl) :
    n = (cl.filter (fun p => p.2 = h)).length ∧ 0 < n := by
  have := GoMap.get?_of_mem _ h n (countFreq_nodup cl) hm
  rw [countFreq_get?] at this
  split_ifs at this with h0
  · cases this
    exact ⟨rfl, Nat.pos_of_ne_zero h0⟩

theorem atoi_formatInt (n : Nat) : atoi (formatInt n) = n := by
  unfold atoi formatInt
  split_ifs with h
  · simp [h, Nat.ofDigits]
  · rw [List.reverse_reverse, Nat.ofDigits_digits]

/-- What `getHighestFreq` returns is a hash of the list together with the
number of peers that attest it. -/
theorem getHighestFreq_ok (env : Env) (cl : GoMap String) (h : String) (f : Int)
    (hok : getHighestFreq env cl = .ok (h, f)) :
    f = ((cl.filter (fun p => p.2 = h)).length : Int) ∧
      0 < (cl.filter (fun p => p.2 = h)).length := by
  unfold getHighestFreq at hok
  split_ifs at hok with hlen
  simp only at hok
  split at hok
  · cases hok
  · rename_i first tl hs
    have hmem : first ∈ sortSFreq
        ((env.rangeFreq (countFreq cl)).map (fun p => (p.1, formatInt p.2))) := by
      rw [hs]; exact List.mem_cons_self _ _
    unfold sortSFreq at hmem
    rw [(List.perm_insertionSort _ _).mem_iff] at hmem
    obtain ⟨p, hp, hpe⟩ := List.mem_map.mp hmem
    rw [(env.rangeFreq_perm _).mem_iff] at hp
    obtain ⟨hn, hpos⟩ := countFreq_mem cl p.1 p.2 hp
    simp only [Except.ok.injEq, Prod.mk.injEq] at hok
    obtain ⟨h1, h2⟩ := hok
    rw [← hpe] at h1 h2
    simp only at h1 h2
    rw [atoi_formatInt] at h2
    subst h1
    rw [← h2, hn]
    exact ⟨rfl, hn ▸ hpos⟩

/-- When `hashCheck` returns nil the entry is unchanged, the data owner is a
known peer that is not among the attesters, the list has at least `threshold`
entries, and at least `threshold - 1` peers attest the entry's hash. -/
theorem hashCheck_ok (env : Env) (t : TssCommon) (item item' : LocalCacheItem) (threshold : Int)
    (hok : t.hashCheck env item threshold = .ok (item', none)) :
    item' = item ∧
    (∃ msg routing dataOwner dataOwnerP2PID,
      item.Msg = some msg ∧ msg.Routing = some routing ∧ routing.From = some dataOwner ∧
      t.PartyIDtoP2PID.get? dataOwner.Id = some dataOwnerP2PID ∧
      dataOwnerP2PID ∉ item.ConfirmedList.keys) ∧
    threshold ≤ (item.ConfirmedList.length : Int) ∧
    threshold - 1 ≤ ((item.ConfirmedList.filter (fun p => p.2 = item.Hash)).length : Int) := by
  unfold TssCommon.hashCheck at hok
  split at hok
  · cases hok
  · rename_i msg hmsg
    split at hok
    · cases hok
    · rename_i routing hr
      split at hok
      · cases hok
      · rename_i dataOwner hfrom
        split at hok
        · simp at hok
        · rename_i dataOwnerP2PID hpeer
          split_ifs at hok with h1 h2
          · simp at hok
          · simp at hok
          · cases hg : getMsgHash env item threshold with
            | error err => rw [hg] at hok; simp at hok
            | ok hash =>
              rw [hg] at hok
              simp only at hok
              split_ifs at hok with h4
              · simp only [Except.ok.injEq, Prod.mk.injEq, and_true] at hok
                unfold getMsgHash at hg
                cases hq : getHighestFreq env item.ConfirmedList with
                | error err => rw [hq] at hg; simp at hg
                | ok res =>
                  obtain ⟨hh, ff⟩ := res
                  rw [hq] at hg
                  simp only at hg
                  split_ifs at hg with h3
                  simp only [Except.ok.injEq] at hg
                  subst hg
                  obtain ⟨hf, _⟩ := getHighestFreq_ok env _ _ _ hq
                  refine ⟨hok.symm, ⟨msg, routing, dataOwner, dataOwnerP2PID, hmsg, hr, hfrom,
                    hpeer, h2⟩, ?_, ?_⟩
                  · unfold LocalCacheItem.TotalConfirmParty at h1
                    omega
                  · rw [h4, ← hf]; omega
              · simp at hok

/-! ## What each call of the engine does to the session -/

theorem SameSession.refl (t : TssCommon) : SameSession t t := ⟨rfl, rfl, rfl, rfl, rfl⟩

theorem SameSession.trans {a b c : TssCommon} (h1 : SameSession a b) (h2 : SameSession b c) :
    SameSession a c :=
  ⟨h2.partyInfo.trans h1.partyInfo, h2.PartyIDtoP2PID.trans h1.PartyIDtoP2PID,
   h2.localPeerID.trans h1.localPeerID, h2.P2PPeers.trans h1.P2PPeers, h2.msgID.trans h1.msgID⟩

theorem Verified.transfer {env : Env} {t t' : TssCommon} (h : SameSession t t') {W : WireMessage}
    (hv : Verified env t W) : Verified env t' W := by
  obtain ⟨routing, sender, pi, party, h1, h2, h3, h4, h5⟩ := hv
  exact ⟨routing, sender, pi, party, h1, h2, by rw [h.partyInfo]; exact h3, h4,
    by rw [h.msgID]; exact h5⟩

theorem ItemGood.of_same {env : Env} {t t' : TssCommon} (h : SameSession t t')
    {item : LocalCacheItem} (hg : ItemGood env t item) : ItemGood env t' item :=
  fun W hW => ⟨(hg W hW).1, (hg W hW).2.transfer h⟩

theorem AppliedBy.mono {t t' : TssCommon} {P Q : WireMessage → Prop} (h : AppliedBy t t' P)
    (hPQ : ∀ W, P W → Q W) : AppliedBy t t' Q := by
  rcases h with h | ⟨W, r, s, hP, hr, hu⟩
  · exact Or.inl h
  · exact Or.inr ⟨W, r, s, hPQ W hP, hr, hu⟩

theorem processInvalidMsgBlame_effect (env : Env) (t t' : TssCommon) (w : WireMessage)
    (culprits : List PartyID) (e : Option GoError)
    (h : t.processInvalidMsgBlame env w culprits = .ok (t', e)) :
    SameSession t t' ∧ t'.unConfirmedMessages = t.unConfirmedMessages ∧
      t'.partyUpdates = t.partyUpdates ∧ e ≠ none := by
  unfold TssCommon.processInvalidMsgBlame at h
  split at h
  · cases h
  · dsimp only at h
    split at h
    · cases h
    · split at h <;>
      · simp only [Except.ok.injEq, Prod.mk.injEq] at h
        obtain ⟨h1, h2⟩ := h
        subst h1 h2
        exact ⟨⟨rfl, rfl, rfl, rfl, rfl⟩, rfl, rfl, by simp⟩

theorem updateLocal_effect (env : Env) (t t' : TssCommon) (wm : Option WireMessage)
    (e : Option GoError) (h : t.updateLocal env wm = .ok (t', e)) :
    SameSession t t' ∧ t'.unConfirmedMessages = t.unConfirmedMessages ∧
      AppliedBy t t' (fun W => wm = some W) := by
  unfold TssCommon.updateLocal at h
  split at h
  · cases h; exact ⟨SameSession.refl _, rfl, Or.inl rfl⟩
  · rename_i w
    split at h
    · cases h; exact ⟨SameSession.refl _, rfl, Or.inl rfl⟩
    · rename_i routing hr
      split at h
      · cases h; exact ⟨SameSession.refl _, rfl, Or.inl rfl⟩
      · split at h
        · cases h; exact ⟨SameSession.refl _, rfl, Or.inl rfl⟩
        · split at h
          · cases h
          · rename_i partyID _
            split at h
            · cases h; exact ⟨SameSession.refl _, rfl, Or.inl rfl⟩
            · dsimp only at h
              split at h
              · cases h
              · split at h
                · rename_i culprits _
                  obtain ⟨hs, hc, hu, _⟩ := processInvalidMsgBlame_effect env _ _ _ _ _ h
                  refine ⟨?_, ?_, Or.inr ⟨w, routing, partyID, rfl, hr, ?_⟩⟩
                  · refine SameSession.trans ?_ hs
                    split_ifs <;> exact ⟨rfl, rfl, rfl, rfl, rfl⟩
                  · rw [hc]; split_ifs <;> rfl
                  · rw [hu]; split_ifs <;> rfl
                · simp only [Except.ok.injEq, Prod.mk.injEq] at h
                  obtain ⟨h1, _⟩ := h
                  subst h1
                  refine ⟨?_, ?_, Or.inr ⟨w, routing, partyID, rfl, hr, ?_⟩⟩
                  · split_ifs <;> exact ⟨rfl, rfl, rfl, rfl, rfl⟩
                  · split_ifs <;> rfl
                  · split_ifs <;> rfl

theorem renderToP2P_same (t : TssCommon) (m : BroadcastMsgChan) :
    SameSession t (t.renderToP2P m) ∧
      (t.renderToP2P m).unConfirmedMessages = t.unConfirmedMessages ∧
      (t.renderToP2P m).partyUpdates = t.partyUpdates ∧
      (t.renderToP2P m).blameMgr = t.blameMgr := by
  unfold TssCommon.renderToP2P
  split <;> exact ⟨⟨rfl, rfl, rfl, rfl, rfl⟩, rfl, rfl, rfl⟩

theorem processRequestMsgFromPeer_effect (t t' : TssCommon) (peersID : List String)
    (msg : Option TssControl) (requester : Bool) (e : Option GoError)
    (h : t.processRequestMsgFromPeer peersID msg requester = .ok (t', e)) :
    SameSession t t' ∧ t'.unConfirmedMessages = t.unConfirmedMessages ∧
      t'.partyUpdates = t.partyUpdates := by
  unfold TssCommon.processRequestMsgFromPeer at h
  split_ifs at h
  · split at h
    · cases h; exact ⟨SameSession.refl _, rfl, rfl⟩
    · split at h
      · cases h; exact ⟨SameSession.refl _, rfl, rfl⟩
      · simp only [Except.ok.injEq, Prod.mk.injEq] at h
        obtain ⟨h1, _⟩ := h
        subst h1
        have := renderToP2P_same t
        exact ⟨(this _).1, (this _).2.1, (this _).2.2.1⟩
  · simp only [Except.ok.injEq, Prod.mk.injEq] at h
    obtain ⟨h1, _⟩ := h
    subst h1
    have := renderToP2P_same t
    exact ⟨(this _).1, (this _).2.1, (this _).2.2.1⟩

theorem requestShareFromPeer_effect (env : Env) (t t' : TssCommon) (item : LocalCacheItem)
    (threshold : Int) (key : String) (msgType : THORChainTSSMessageType) (e : Option GoError)
    (h : t.requestShareFromPeer env item threshold key msgType = .ok (t', e)) :
    SameSession t t' ∧ t'.unConfirmedMessages = t.unConfirmedMessages ∧
      t'.partyUpdates = t.partyUpdates := by
  unfold TssCommon.requestShareFromPeer at h
  split at h
  · cases h; exact ⟨SameSession.refl _, rfl, rfl⟩
  · split at h
    · cases h; exact ⟨SameSession.refl _, rfl, rfl⟩
    · simp only at h
      split at h
      all_goals first
        | (cases h; exact ⟨⟨rfl, rfl, rfl, rfl, rfl⟩, rfl, rfl⟩)
        | (obtain ⟨hs, hc, hu⟩ := processRequestMsgFromPeer_effect _ _ _ _ _ _ h
           exact ⟨⟨hs.partyInfo, hs.PartyIDtoP2PID, hs.localPeerID, hs.P2PPeers, hs.msgID⟩,
             hc, hu⟩)

theorem GoMap.get?_delete_self {β : Type} (m : GoMap β) (k : String) :
    (m.delete k).get? k = none := by
  rw [GoMap.get?_eq_none_iff]
  simp [GoMap.delete, GoMap.keys, List.mem_filter]

theorem GoMap.mem_delete {β : Type} (m : GoMap β) (k : String) (p : String × β)
    (h : p ∈ m.delete k) : p ∈ m := by
  simp only [GoMap.delete, List.mem_filter] at h
  exact h.1

theorem hashCheck_effect (env : Env) (t : TssCommon) (item item' : LocalCacheItem)
    (threshold : Int) (e : Option GoError)
    (h : t.hashCheck env item threshold = .ok (item', e)) :
    item'.Msg = item.Msg ∧ item'.Hash = item.Hash := by
  unfold TssCommon.hashCheck at h
  split at h
  · cases h
  · split at h
    · cases h
    · split at h
      · cases h
      · split at h
        · cases h; exact ⟨rfl, rfl⟩
        · split_ifs at h
          · cases h; exact ⟨rfl, rfl⟩
          · cases h; exact ⟨rfl, rfl⟩
          · split at h
            · cases h; exact ⟨rfl, rfl⟩
            · dsimp only at h
              split_ifs at h <;> (cases h; exact ⟨rfl, rfl⟩)

/-- What `applyShare` does: it updates the local party at most once, with the
message of the entry; every cache entry afterwards was there before or is the
entry of `key` with the same hash and the same or no message; and after an
update that the party accepted the entry of `key` is gone. -/
theorem applyShare_effect (env : Env) (t t' : TssCommon) (item : LocalCacheItem)
    (threshold : Int) (key : String) (msgType : THORChainTSSMessageType) (e : Option GoError)
    (h : t.applyShare env item threshold key msgType = .ok (t', e)) :
    SameSession t t' ∧ AppliedBy t t' (fun W => item.Msg = some W) ∧
    (∀ p ∈ t'.unConfirmedMessages, p ∈ t.unConfirmedMessages ∨
      (p.1 = key ∧ (p.2.Msg = none ∨ p.2.Msg = item.Msg) ∧ p.2.Hash = item.Hash)) ∧
    (t'.partyUpdates ≠ t.partyUpdates →
      t.hashCheck env item threshold = .ok (item, none) ∧
      (e = none → t'.unConfirmedMessages.get? key = none)) := by
  unfold TssCommon.applyShare at h
  split at h
  · cases h
  · rename_i msg hmsg
    split at h
    · cases h
    · rename_i routing hr
      dsimp only at h
      cases hhc : t.hashCheck env item threshold with
      | error p => rw [hhc] at h; cases h
      | ok res =>
        obtain ⟨item1, err⟩ := res
        obtain ⟨hm1, hh1⟩ := hashCheck_effect env t item item1 threshold err hhc
        rw [hhc] at h
        cases err with
        | some err =>
          dsimp only at h
          split_ifs at h with h1 h2 h3
          · cases h
            exact ⟨SameSession.refl _, Or.inl rfl, fun p hp => Or.inl hp, fun hne => absurd rfl hne⟩
          · obtain ⟨hs, hc, hu⟩ := requestShareFromPeer_effect env _ _ _ _ _ _ _ h
            refine ⟨⟨hs.partyInfo, hs.PartyIDtoP2PID, hs.localPeerID, hs.P2PPeers, hs.msgID⟩,
              Or.inl hu, ?_, fun hne => absurd hu hne⟩
            intro p hp
            rw [hc] at hp
            rcases GoMap.mem_set _ _ _ _ hp with hp | hp
            · right; rw [hp]; exact ⟨rfl, Or.inl rfl, hh1⟩
            · left; exact hp
          · -- the data owner attested: the entry without that attestation is kept
            cases hb : t.blameMgr.TssWrongShareBlame env item1.Msg with
            | error p =>
              simp only [TssCommon.updateLocalUnconfirmedMessages, hb] at h
              cases h
            | ok r =>
              simp only [TssCommon.updateLocalUnconfirmedMessages, hb] at h
              cases r <;>
              · simp only [Except.ok.injEq, Prod.mk.injEq] at h
                obtain ⟨h1, _⟩ := h
                subst h1
                refine ⟨⟨rfl, rfl, rfl, rfl, rfl⟩, Or.inl rfl, ?_, fun hne => absurd rfl hne⟩
                intro p hp
                rcases GoMap.mem_set _ _ _ _ hp with hp | hp
                · right; rw [hp]; exact ⟨rfl, Or.inr hm1, hh1⟩
                · left; exact hp
          · cases hb : t.blameMgr.TssWrongShareBlame env item1.Msg with
            | error p =>
              simp only [hb] at h
              cases h
            | ok r =>
              simp only [hb] at h
              cases r <;>
              · simp only [Except.ok.injEq, Prod.mk.injEq] at h
                obtain ⟨h1, _⟩ := h
                subst h1
                exact ⟨⟨rfl, rfl, rfl, rfl, rfl⟩, Or.inl rfl, fun p hp => Or.inl hp,
                  fun hne => absurd rfl hne⟩
        | none =>
          have hitem : item1 = item := (hashCheck_ok env t item item1 threshold hhc).1
          subst hitem
          dsimp only at h
          cases hul : TssCommon.updateLocal env
              { t with blameMgr := t.blameMgr.roundSet key item1.Msg } item1.Msg with
          | error p => rw [hul] at h; cases h
          | ok res2 =>
            obtain ⟨t2, e2⟩ := res2
            rw [hul] at h
            obtain ⟨hs, hc, ha⟩ := updateLocal_effect env _ _ _ _ hul
            have hs' : SameSession t t2 :=
              ⟨hs.partyInfo, hs.PartyIDtoP2PID, hs.localPeerID, hs.P2PPeers, hs.msgID⟩
            cases e2 with
            | some err2 =>
              simp only [Except.ok.injEq, Prod.mk.injEq] at h
              obtain ⟨h1, h2⟩ := h
              subst h1
              refine ⟨hs', ha, fun p hp => Or.inl (by rw [hc] at hp; exact hp), fun _ => ⟨rfl, ?_⟩⟩
              intro he; rw [← h2] at he; cases he
            | none =>
              simp only [Except.ok.injEq, Prod.mk.injEq] at h
              obtain ⟨h1, _⟩ := h
              subst h1
              refine ⟨⟨hs'.partyInfo, hs'.PartyIDtoP2PID, hs'.localPeerID, hs'.P2PPeers, hs'.msgID⟩,
                ha, ?_, fun _ => ⟨rfl, fun _ => GoMap.get?_delete_self _ _⟩⟩
              intro p hp
              left
              have := GoMap.mem_delete _ _ _ hp
              rw [hc] at this
              exact this

theorem ItemGood.of_msg_hash {env : Env} {t : TssCommon} {item item' : LocalCacheItem}
    (hg : ItemGood env t item) (hm : item'.Msg = none ∨ item'.Msg = item.Msg)
    (hh : item'.Hash = item.Hash) : ItemGood env t item' := by
  intro W hW
  rcases hm with hm | hm
  · rw [hm] at hW; cases hW
  · rw [hh]; exact hg W (hm ▸ hW)

theorem CacheGood.get? {env : Env} {t : TssCommon} (hc : CacheGood env t) {key : String}
    {item : LocalCacheItem} (h : t.TryGetLocalCacheItem key = some item) : ItemGood env t item :=
  hc (key, item) (GoMap.mem_of_get?_eq_some _ _ _ h)

/-- `CacheGood` only reads the cache, the party info and the message id. -/
theorem CacheGood.of_eq {env : Env} {t t' : TssCommon} (hc : CacheGood env t)
    (hs : SameSession t t') (he : t'.unConfirmedMessages = t.unConfirmedMessages) :
    CacheGood env t' := by
  intro p hp
  rw [he] at hp
  exact (hc p hp).of_same hs

theorem CacheGood.set {env : Env} {t : TssCommon} (hc : CacheGood env t) (key : String)
    (item : LocalCacheItem) (hi : ItemGood env t item) :
    CacheGood env (t.updateLocalUnconfirmedMessages key item) := by
  have hs : SameSession t (t.updateLocalUnconfirmedMessages key item) := ⟨rfl, rfl, rfl, rfl, rfl⟩
  intro p hp
  rcases GoMap.mem_set _ _ _ _ hp with hp | hp
  · rw [hp]; exact hi.of_same hs
  · exact (hc p hp).of_same hs

/-- After `applyShare` on a good cache whose entry under `key` is `item`, the
cache is good and what was applied is a verified message. -/
theorem applyShare_good (env : Env) (t t' : TssCommon) (item : LocalCacheItem)
    (threshold : Int) (key : String) (msgType : THORChainTSSMessageType) (e : Option GoError)
    (hc : CacheGood env t) (hi : ItemGood env t item)
    (h : t.applyShare env item threshold key msgType = .ok (t', e)) :
    SameSession t t' ∧ CacheGood env t' ∧ AppliedBy t t' (Verified env t) := by
  obtain ⟨hs, ha, hmem, _⟩ := applyShare_effect env t t' item threshold key msgType e h
  refine ⟨hs, ?_, ha.mono (fun W hW => (hi W hW).2)⟩
  intro p hp
  rcases hmem p hp with hp | ⟨_, hm, hh⟩
  · exact (hc p hp).of_same hs
  · exact (hi.of_msg_hash hm hh).of_same hs

theorem processVerMsg_effect (env : Env) (t t' : TssCommon) (bMsg : BroadcastConfirmMessage)
    (msgType : THORChainTSSMessageType) (e : Option GoError) (hc : CacheGood env t)
    (h : t.processVerMsg env (some bMsg) msgType = .ok (t', e)) :
    SameSession t t' ∧ CacheGood env t' ∧ AppliedBy t t' (Verified env t) ∧
      (t.TryGetLocalCacheItem bMsg.Key = none → t'.partyUpdates = t.partyUpdates) := by
  unfold TssCommon.processVerMsg at h
  dsimp only at h
  split at h
  · cases h
    exact ⟨SameSession.refl _, hc, Or.inl rfl, fun _ => rfl⟩
  · rename_i partyInfo hpi
    -- the entry the attestation is recorded in
    generalize hitem0 : (match t.TryGetLocalCacheItem bMsg.Key with
      | none => NewLocalCacheItem none bMsg.Hash
      | some item => item) = item0 at h
    have hg0 : ItemGood env t item0 := by
      cases hget : t.TryGetLocalCacheItem bMsg.Key with
      | none =>
        rw [hget] at hitem0; subst hitem0
        intro W hW; simp [NewLocalCacheItem] at hW
      | some item =>
        rw [hget] at hitem0; subst hitem0
        exact hc.get? hget
    have hg1 : ItemGood env t (item0.UpdateConfirmList bMsg.P2PID bMsg.Hash) :=
      hg0.of_msg_hash (Or.inr rfl) rfl
    have hs1 : SameSession t (t.updateLocalUnconfirmedMessages bMsg.Key
        (item0.UpdateConfirmList bMsg.P2PID bMsg.Hash)) := ⟨rfl, rfl, rfl, rfl, rfl⟩
    have hc1 := hc.set bMsg.Key _ hg1
    split at h
    · cases h
      exact ⟨hs1, hc1, Or.inl rfl, fun _ => rfl⟩
    · rename_i threshold _
      split at h
      · rename_i hnone
        obtain ⟨hs, hcache, hu⟩ := requestShareFromPeer_effect env _ _ _ _ _ _ _ h
        exact ⟨hs1.trans hs, hc1.of_eq hs hcache, Or.inl hu, fun _ => hu⟩
      · rename_i w hsome
        obtain ⟨hs, hc2, ha⟩ := applyShare_good env _ _ _ _ _ _ _ hc1 (hg1.of_same hs1) h
        refine ⟨hs1.trans hs, hc2, ?_, ?_⟩
        · rcases ha with ha | ⟨W, r, s, hv, hr, hu⟩
          · exact Or.inl ha
          · refine Or.inr ⟨W, r, s, ?_, hr, hu⟩
            obtain ⟨r', s', pi', party', h1, h2, h3, h4, h5⟩ := hv
            exact ⟨r', s', pi', party', h1, h2, h3, h4, h5⟩
        · intro hnone
          exfalso
          rw [hnone] at hitem0
          subst hitem0
          simp [NewLocalCacheItem, LocalCacheItem.UpdateConfirmList] at hsome

theorem receiverBroadcastHashToPeers_same (t : TssCommon) (w : WireMessage)
    (sender : PartyID) (msgType : THORChainTSSMessageType) :
    SameSession t (t.receiverBroadcastHashToPeers w sender msgType).1 ∧
      (t.receiverBroadcastHashToPeers w sender msgType).1.unConfirmedMessages
        = t.unConfirmedMessages ∧
      (t.receiverBroadcastHashToPeers w sender msgType).1.partyUpdates = t.partyUpdates ∧
      (t.receiverBroadcastHashToPeers w sender msgType).1.blameMgr = t.blameMgr := by
  unfold TssCommon.receiverBroadcastHashToPeers
  dsimp only
  cases t.PartyIDtoP2PID.get? sender.Id with
  | none => exact ⟨SameSession.refl _, rfl, rfl, rfl⟩
  | some dataOwnerPeerID =>
    dsimp only
    unfold TssCommon.broadcastHashToPeers
    split_ifs
    · exact ⟨SameSession.refl _, rfl, rfl, rfl⟩
    · exact renderToP2P_same t _

/-- `processTSSMsg` keeps the cache good and applies verified messages only. -/
theorem processTSSMsg_effect (env : Env) (t t' : TssCommon) (wm : Option WireMessage)
    (msgType : THORChainTSSMessageType) (forward : Bool) (e : Option GoError)
    (hc : CacheGood env t)
    (h : t.processTSSMsg env wm msgType forward = .ok (t', e)) :
    SameSession t t' ∧ CacheGood env t' ∧ AppliedBy t t' (Verified env t) := by
  unfold TssCommon.processTSSMsg at h
  split at h
  · cases h; exact ⟨SameSession.refl _, hc, Or.inl rfl⟩
  · rename_i w
    split at h
    · cases h; exact ⟨SameSession.refl _, hc, Or.inl rfl⟩
    · rename_i routing hr
      split at h
      · cases h; exact ⟨SameSession.refl _, hc, Or.inl rfl⟩
      · rename_i sender hfrom
        split at h
        · cases h
        · rename_i partyInfo hpi
          split at h
          · cases h; exact ⟨SameSession.refl _, hc, Or.inl rfl⟩
          · cases h
          · rename_i dataOwner hparty
            dsimp only at h
            generalize ht0 : (if (!forward) = true then
                (t.receiverBroadcastHashToPeers w sender msgType).1 else t) = t0 at h
            split_ifs at h with hver hb
            · cases h; exact ⟨SameSession.refl _, hc, Or.inl rfl⟩
            · -- unicast: applied directly
              have hv : Verified env t w :=
                ⟨routing, sender, partyInfo, dataOwner, hr, hfrom, hpi, hparty, by simpa using hver⟩
              obtain ⟨hs, hcache, ha⟩ := updateLocal_effect env _ _ _ _ h
              refine ⟨hs, hc.of_eq hs hcache, ha.mono ?_⟩
              intro W hW
              cases hW
              exact hv
            · have hv : Verified env t w :=
                ⟨routing, sender, partyInfo, dataOwner, hr, hfrom, hpi, hparty, by simpa using hver⟩
              -- the state after the hash has been broadcast
              have hs0 : SameSession t t0 ∧ t0.unConfirmedMessages = t.unConfirmedMessages ∧
                  t0.partyUpdates = t.partyUpdates := by
                rw [← ht0]
                split_ifs
                · have := receiverBroadcastHashToPeers_same t w sender msgType
                  exact ⟨this.1, this.2.1, this.2.2.1⟩
                · exact ⟨SameSession.refl _, rfl, rfl⟩
              obtain ⟨hs0, hcache0, hu0⟩ := hs0
              have hc0 : CacheGood env t0 := hc.of_eq hs0 hcache0
              have hv0 : Verified env t0 w := hv.transfer hs0
              generalize hitem0 : (match t0.TryGetLocalCacheItem w.GetCacheKey with
                | none => NewLocalCacheItem (some w) (BytesToHashString w.Message)
                | some item =>
                  match item.Msg with
                  | none => { item with Msg := some w, Hash := BytesToHashString w.Message }
                  | some _ => item) = item0 at h
              have hg0 : ItemGood env t0 item0 := by
                cases hget : t0.TryGetLocalCacheItem w.GetCacheKey with
                | none =>
                  rw [hget] at hitem0; subst hitem0
                  intro W hW
                  simp only [NewLocalCacheItem, Option.some.injEq] at hW
                  subst hW
                  exact ⟨rfl, hv0⟩
                | some item =>
                  rw [hget] at hitem0
                  dsimp only at hitem0
                  cases hm : item.Msg with
                  | none =>
                    rw [hm] at hitem0; subst hitem0
                    intro W hW
                    simp only [Option.some.injEq] at hW
                    subst hW
                    exact ⟨rfl, hv0⟩
                  | some w' =>
                    rw [hm] at hitem0; subst hitem0
                    exact hc0.get? hget
              have hg1 : ItemGood env t0 (item0.UpdateConfirmList t0.localPeerID
                  (BytesToHashString w.Message)) := hg0.of_msg_hash (Or.inr rfl) rfl
              have hs1 : SameSession t0 (t0.updateLocalUnconfirmedMessages w.GetCacheKey
                  (item0.UpdateConfirmList t0.localPeerID (BytesToHashString w.Message))) :=
                ⟨rfl, rfl, rfl, rfl, rfl⟩
              have hc1 := hc0.set w.GetCacheKey _ hg1
              split at h
              · cases h
                exact ⟨hs0.trans hs1, hc1, Or.inl hu0⟩
              · obtain ⟨hs, hc2, ha⟩ := applyShare_good env _ _ _ _ _ _ _ hc1 (hg1.of_same hs1) h
                refine ⟨(hs0.trans hs1).trans hs, hc2, ?_⟩
                rcases ha with ha | ⟨W, r, s, hvW, hrW, hu⟩
                · exact Or.inl (ha.trans hu0)
                · refine Or.inr ⟨W, r, s, ?_, hrW, ?_⟩
                  · obtain ⟨r', s', pi', party', h1, h2, h3, h4, h5⟩ := hvW
                    refine ⟨r', s', pi', party', h1, h2, ?_, h4, ?_⟩
                    · rw [← hs0.partyInfo]; exact h3
                    · rw [← hs0.msgID]; exact h5
                  · rw [hu]
                    show t0.partyUpdates ++ _ = _
                    rw [hu0]

/-- A task-done notification touches `finishedPeers` and `taskDone` only. -/
theorem taskDone_frame (env : Env) (t t' : TssCommon) (m : WrappedMessage)
    (peerID : String) (e : Option GoError) (hty : m.MessageType = TSSTaskDone)
    (h : t.ProcessOneMessage env (some m) peerID = .ok (t', e)) :
    SameSession t t' ∧ t'.unConfirmedMessages = t.unConfirmedMessages ∧
      t'.partyUpdates = t.partyUpdates := by
  rw [ProcessOneMessage_taskDone env t m peerID hty] at h
  repeat' split at h
  all_goals (cases h <;> exact ⟨⟨rfl, rfl, rfl, rfl, rfl⟩, rfl, rfl⟩)

/-- `ProcessOneMessage` keeps the cache good and applies verified messages only. -/
theorem ProcessOneMessage_effect (env : Env) (t t' : TssCommon) (m : WrappedMessage)
    (peerID : String) (e : Option GoError) (hc : CacheGood env t)
    (h : t.ProcessOneMessage env (some m) peerID = .ok (t', e)) :
    SameSession t t' ∧ CacheGood env t' ∧ AppliedBy t t' (Verified env t) := by
  have hwire : ∀ ty, (match m.Payload.wire with
      | none => (Except.ok (t, some (GoError.new "fail to unmarshal wire message")) :
          Go (TssCommon × Option GoError))
      | some wireMsg => t.processTSSMsg env (some wireMsg) ty false) = .ok (t', e) →
      SameSession t t' ∧ CacheGood env t' ∧ AppliedBy t t' (Verified env t) := by
    intro ty h
    split at h
    · cases h; exact ⟨SameSession.refl _, hc, Or.inl rfl⟩
    · exact processTSSMsg_effect env _ _ _ _ _ _ hc h
  have hver : ∀ ty, (match m.Payload.confirm with
      | none => (Except.ok (t, some (GoError.new "fail to unmarshal broadcast confirm message")) :
          Go (TssCommon × Option GoError))
      | some bMsg =>
        if (t.checkDupAndUpdateVerMsg bMsg peerID).2 = true then
          t.processVerMsg env (some (t.checkDupAndUpdateVerMsg bMsg peerID).1) ty
        else .ok (t, none)) = .ok (t', e) →
      SameSession t t' ∧ CacheGood env t' ∧ AppliedBy t t' (Verified env t) := by
    intro ty h
    split at h
    · cases h; exact ⟨SameSession.refl _, hc, Or.inl rfl⟩
    · split_ifs at h
      · obtain ⟨h1, h2, h3, _⟩ := processVerMsg_effect env _ _ _ _ _ hc h
        exact ⟨h1, h2, h3⟩
      · cases h; exact ⟨SameSession.refl _, hc, Or.inl rfl⟩
  have htd := fun hty => taskDone_frame env t t' m peerID e hty h
  unfold TssCommon.ProcessOneMessage at h
  dsimp only at h
  cases hty : m.MessageType <;> rw [hty] at h <;> dsimp only at h
  · exact hwire _ h
  · exact hwire _ h
  · exact hver _ h
  · exact hver _ h
  · split at h
    · cases h; exact ⟨SameSession.refl _, hc, Or.inl rfl⟩
    · rename_i wireMsg _
      split at h
      · split_ifs at h
        · obtain ⟨hs, hcache, hu⟩ := processRequestMsgFromPeer_effect _ _ _ _ _ _ h
          exact ⟨hs, hc.of_eq hs hcache, Or.inl hu⟩
        · cases h; exact ⟨SameSession.refl _, hc, Or.inl rfl⟩
      · rename_i msg _
        have hs0 : SameSession t { t with blameMgr := (t.blameMgr.shareQueryAndDelete
            wireMsg.ReqHash).2 } := ⟨rfl, rfl, rfl, rfl, rfl⟩
        have hc0 : CacheGood env { t with blameMgr := (t.blameMgr.shareQueryAndDelete
            wireMsg.ReqHash).2 } := hc.of_eq hs0 rfl
        split_ifs at h
        · cases h; exact ⟨hs0, hc0, Or.inl rfl⟩
        · obtain ⟨hs, hc2, ha⟩ := processTSSMsg_effect env _ _ _ _ _ _ hc0 h
          refine ⟨⟨hs.partyInfo, hs.PartyIDtoP2PID, hs.localPeerID, hs.P2PPeers, hs.msgID⟩,
            hc2, ?_⟩
          rcases ha with ha | ⟨W, r, s, hvW, hrW, hu⟩
          · exact Or.inl ha
          · exact Or.inr ⟨W, r, s, hvW, hrW, hu⟩
  · obtain ⟨hs, hcache, hu⟩ := htd hty
    exact ⟨hs, hc.of_eq hs hcache, Or.inl hu⟩
  · cases h; exact ⟨SameSession.refl _, hc, Or.inl rfl⟩

/-! ## Sessions: runs from an empty cache -/

theorem CacheGood_of_empty (env : Env) (t : TssCommon) (h : t.unConfirmedMessages = []) :
    CacheGood env t := by
  intro p hp
  rw [h] at hp
  cases hp

/-- Every run keeps the cache good: an entry that holds a message holds its
hash, and the message was verified. -/
theorem CacheGood_run (env : Env) (msgs : List (WrappedMessage × String)) :
    ∀ (t t' : TssCommon), CacheGood env t → runMessages env t msgs = .ok t' →
      SameSession t t' ∧ CacheGood env t' := by
  induction msgs with
  | nil =>
    intro t t' hc h
    simp only [runMessages, Except.ok.injEq] at h
    subst h
    exact ⟨SameSession.refl _, hc⟩
  | cons x rest ih =>
    intro t t' hc h
    obtain ⟨m, p⟩ := x
    simp only [runMessages] at h
    cases hstep : t.ProcessOneMessage env (some m) p with
    | error err => rw [hstep] at h; cases h
    | ok res =>
      obtain ⟨t1, e⟩ := res
      rw [hstep] at h
      obtain ⟨hs1, hc1, _⟩ := ProcessOneMessage_effect env t t1 m p e hc hstep
      obtain ⟨hs2, hc2⟩ := ih t1 t' hc1 h
      exact ⟨hs1.trans hs2, hc2⟩

/-! ## C2: the quorum behind an applied broadcast -/

theorem attesters_card (cl : GoMap String) (hwf : cl.WF) (h : String) :
    (attesters cl h).card = (cl.filter (fun p => p.2 = h)).length := by
  unfold attesters
  rw [List.toFinset_card_of_nodup, List.length_map]
  have hsub : List.Sublist ((cl.filter (fun p => p.2 = h)).map Prod.fst) (cl.map Prod.fst) :=
    List.Sublist.map _ (List.filter_sublist _)
  exact List.Nodup.sublist hsub hwf

/-- C2: whenever `applyShare` applies the message `W` of a cache entry (it
calls `UpdateFromBytes`, so `hashCheck` returned nil), where the entry holds
the hash of `W.Message` and its `confirmedList` is a map, at least
`threshold - 1` peers of the `confirmedList` attest the SHA-256 hex hash of
`W.Message`, the `confirmedList` has at least `threshold` entries, and the
peer id of the data owner is not among them. -/
theorem applied_broadcast_has_quorum (env : Env) (t t' : TssCommon) (item : LocalCacheItem)
    (threshold : Int) (key : String) (msgType : THORChainTSSMessageType) (e : Option GoError)
    (W : WireMessage) (hmsg : item.Msg = some W)
    (hhash : item.Hash = BytesToHashString W.Message) (hwf : item.ConfirmedList.WF)
    (happ : t.applyShare env item threshold key msgType = .ok (t', e))
    (hcall : t'.partyUpdates ≠ t.partyUpdates) :
    t.hashCheck env item threshold = .ok (item, none) ∧
    threshold - 1 ≤ ((attesters item.ConfirmedList (BytesToHashString W.Message)).card : Int) ∧
    threshold ≤ (item.ConfirmedList.keys.toFinset.card : Int) ∧
    ∃ routing dataOwner dataOwnerP2PID,
      W.Routing = some routing ∧ routing.From = some dataOwner ∧
      t.PartyIDtoP2PID.get? dataOwner.Id = some dataOwnerP2PID ∧
      dataOwnerP2PID ∉ item.ConfirmedList.keys := by
  obtain ⟨_, _, _, h4⟩ := applyShare_effect env t t' item threshold key msgType e happ
  obtain ⟨hhc, _⟩ := h4 hcall
  obtain ⟨_, ⟨msg, routing, dataOwner, dataOwnerP2PID, h1, h2, h3, h5, h6⟩, hlen, hcount⟩ :=
    hashCheck_ok env t item item threshold hhc
  rw [hmsg] at h1
  cases h1
  refine ⟨hhc, ?_, ?_, routing, dataOwner, dataOwnerP2PID, h2, h3, h5, h6⟩
  · rw [attesters_card _ hwf, ← hhash]; exact hcount
  · rw [List.toFinset_card_of_nodup hwf, ← GoMap.length_eq_keys_length]; exact hlen

/-- C2 in a five party session (`threshold = 3`): the entry of `S`'s broadcast
with the attestations of `A`, `C` and `B` is applied. -/
theorem applied_broadcast_has_quorum_witness :
    ∃ t', (demoSession ["S", "A", "B", "C", "D"] "A").applyShare demoEnv
        { Msg := some (demoBroadcast "S" "r1" [1]), Hash := "4bf5122f344554c53bde2ebb8cd2b7e3d1600ad631c385a5d7cce23c7785459a",
          ConfirmedList := [("peerA", "4bf5122f344554c53bde2ebb8cd2b7e3d1600ad631c385a5d7cce23c7785459a"), ("peerC", "4bf5122f344554c53bde2ebb8cd2b7e3d1600ad631c385a5d7cce23c7785459a"), ("peerB", "dbc1b4c900ffe48d575b5da5c638040125f65db0fe3e24494b76ea986457d986")] }
        3 "S-r1" TSSKeyGenVerMsg = .ok (t', none) ∧
      t'.partyUpdates ≠ (demoSession ["S", "A", "B", "C", "D"] "A").partyUpdates ∧
      (3 : Int) - 1 ≤ ((attesters [("peerA", "4bf5122f344554c53bde2ebb8cd2b7e3d1600ad631c385a5d7cce23c7785459a"), ("peerC", "4bf5122f344554c53bde2ebb8cd2b7e3d1600ad631c385a5d7cce23c7785459a"), ("peerB", "dbc1b4c900ffe48d575b5da5c638040125f65db0fe3e24494b76ea986457d986")]
        (BytesToHashString (demoBroadcast "S" "r1" [1]).Message)).card : Int) := by
  have happ : (demoSession ["S", "A", "B", "C", "D"] "A").applyShare demoEnv
      { Msg := some (demoBroadcast "S" "r1" [1]), Hash := "4bf5122f344554c53bde2ebb8cd2b7e3d1600ad631c385a5d7cce23c7785459a",
        ConfirmedList := [("peerA", "4bf5122f344554c53bde2ebb8cd2b7e3d1600ad631c385a5d7cce23c7785459a"), ("peerC", "4bf5122f344554c53bde2ebb8cd2b7e3d1600ad631c385a5d7cce23c7785459a"), ("peerB", "dbc1b4c900ffe48d575b5da5c638040125f65db0fe3e24494b76ea986457d986")] }
      3 "S-r1" TSSKeyGenVerMsg =
      .ok ({ (demoSession ["S", "A", "B", "C", "D"] "A") with
        blameMgr := (demoSession ["S", "A", "B", "C", "D"] "A").blameMgr.roundSet "S-r1"
          (some (demoBroadcast "S" "r1" [1]))
        partyUpdates := [callOf (demoBroadcast "S" "r1" [1]) "S"] }, none) := by
    decide!
  refine ⟨_, happ, by decide!, ?_⟩
  exact (applied_broadcast_has_quorum demoEnv _ _ _ 3 "S-r1" TSSKeyGenVerMsg none
    (demoBroadcast "S" "r1" [1]) rfl (by decide!) (by simp [GoMap.WF, GoMap.keys]) happ
    (by decide!)).2.1

/-! ## C4: unverifiable messages are dropped -/

theorem SameSession.symm {a b : TssCommon} (h : SameSession a b) : SameSession b a :=
  ⟨h.partyInfo.symm, h.PartyIDtoP2PID.symm, h.localPeerID.symm, h.P2PPeers.symm, h.msgID.symm⟩

/-- C4: if the sender of `w` is not in `PartyIDMap`, or the signature of `w`
does not verify under the sender's committee key over `message ‖ msgID`,
`processTSSMsg` returns a non-nil error and the session state is what it was
(cache, every `confirmedList`, round archive, blame, outbound channel, and no
call of `UpdateFromBytes`); and in every run of a session that starts with an
empty cache, every message that a call of `ProcessOneMessage` applies to the
local party is a message whose sender is a party and whose signature verified. -/
theorem processTSSMsg_drops_unverified (env : Env) :
    (∀ (t : TssCommon) (w : WireMessage) (msgType : THORChainTSSMessageType) (forward : Bool)
        (routing : MessageRouting) (sender : PartyID) (partyInfo : PartyInfo),
      w.Routing = some routing → routing.From = some sender → t.partyInfo = some partyInfo →
      (partyInfo.PartyIDMap.get? sender.Id = none ∨
        ∃ party, partyInfo.PartyIDMap.get? sender.Id = some (some party) ∧
          verifySignature env (pubKeyOfBytes party.Key) w.Message w.Sig t.msgID = false) →
      ∃ err, t.processTSSMsg env (some w) msgType forward = .ok (t, some err)) ∧
    (∀ (t0 t t' : TssCommon) (msgs : List (WrappedMessage × String)) (m : WrappedMessage)
        (p : String) (e : Option GoError) (call : PartyUpdate),
      t0.unConfirmedMessages = [] → runMessages env t0 msgs = .ok t →
      t.ProcessOneMessage env (some m) p = .ok (t', e) →
      t'.partyUpdates = t.partyUpdates ++ [call] →
      ∃ W, Verified env t0 W ∧ call.wireBytes = W.Message) := by
  constructor
  · intro t w msgType forward routing sender partyInfo hr hf hpi hbad
    unfold TssCommon.processTSSMsg
    simp only [hr, hf, hpi]
    rcases hbad with hnone | ⟨party, hsome, hver⟩
    · exact ⟨_, by rw [hnone]⟩
    · refine ⟨.new "signature verify failed", ?_⟩
      rw [hsome]
      simp [hver]
  · intro t0 t t' msgs m p e call hempty hrun hstep hgrow
    obtain ⟨hs, hc⟩ := CacheGood_run env msgs t0 t (CacheGood_of_empty env t0 hempty) hrun
    obtain ⟨_, _, ha⟩ := ProcessOneMessage_effect env t t' m p e hc hstep
    rcases ha with ha | ⟨W, r, s, hv, hr, hu⟩
    · rw [ha] at hgrow
      have := congrArg List.length hgrow
      simp at this
    · rw [hu] at hgrow
      have := List.append_cancel_left hgrow
      simp only [List.cons.injEq, and_true] at this
      exact ⟨W, hv.transfer hs.symm, by rw [← this]⟩

/-- C4 in a four party session: a broadcast signed by a stranger `X`, and one
whose signature does not verify, are dropped with an error. -/
theorem processTSSMsg_drops_unverified_witness :
    (∃ err, (demoSession ["S", "A", "B", "C"] "A").processTSSMsg demoEnv
        (some (demoBroadcast "X" "r1" [1])) TSSKeyGenMsg false
      = .ok (demoSession ["S", "A", "B", "C"] "A", some err)) ∧
    (∃ err, (demoSession ["S", "A", "B", "C"] "A").processTSSMsg
        { demoEnv with verifyBytes := fun _ _ _ => false }
        (some (demoBroadcast "S" "r1" [1])) TSSKeyGenMsg false
      = .ok (demoSession ["S", "A", "B", "C"] "A", some err)) :=
  ⟨(processTSSMsg_drops_unverified demoEnv).1 (demoSession ["S", "A", "B", "C"] "A")
      (demoBroadcast "X" "r1" [1]) TSSKeyGenMsg false _ (demoParty "X") _ rfl rfl rfl
      (Or.inl (by decide!)),
   (processTSSMsg_drops_unverified { demoEnv with verifyBytes := fun _ _ _ => false }).1
      (demoSession ["S", "A", "B", "C"] "A")
      (demoBroadcast "S" "r1" [1]) TSSKeyGenMsg false _ (demoParty "S") _ rfl rfl rfl
      (Or.inr ⟨demoParty "S", by decide!, rfl⟩)⟩

/-! ## C3: how often a broadcast is applied -/

theorem processVerMsg_absent (env : Env) (t t' : TssCommon) (bMsg : BroadcastConfirmMessage)
    (msgType : THORChainTSSMessageType) (e : Option GoError)
    (hnone : t.TryGetLocalCacheItem bMsg.Key = none)
    (h : t.processVerMsg env (some bMsg) msgType = .ok (t', e)) :
    t'.partyUpdates = t.partyUpdates := by
  unfold TssCommon.processVerMsg at h
  dsimp only at h
  rw [hnone] at h
  dsimp only at h
  split at h
  · cases h; rfl
  · split at h
    · cases h; rfl
    · simp only [NewLocalCacheItem, LocalCacheItem.UpdateConfirmList] at h
      exact (requestShareFromPeer_effect env _ _ _ _ _ _ _ h).2.2

/-- C3 (amended): in every run of a session that starts with an empty cache,
each call of `ProcessOneMessage` applies at most one wire message to the local
party; when `applyShare` applies the message of the entry of `key` and the
party accepts it, the entry of `key` is removed from the cache; and a VerMsg
for a key that has no cache entry (for one after the entry was applied and
removed) does not cause an application. -/
theorem applied_at_most_once_per_call (env : Env) :
    (∀ (t0 t t' : TssCommon) (msgs : List (WrappedMessage × String)) (m : WrappedMessage)
        (p : String) (e : Option GoError),
      t0.unConfirmedMessages = [] → runMessages env t0 msgs = .ok t →
      t.ProcessOneMessage env (some m) p = .ok (t', e) →
      t'.partyUpdates = t.partyUpdates ∨ ∃ call, t'.partyUpdates = t.partyUpdates ++ [call]) ∧
    (∀ (t t' : TssCommon) (item : LocalCacheItem) (threshold : Int) (key : String)
        (msgType : THORChainTSSMessageType),
      t.applyShare env item threshold key msgType = .ok (t', none) →
      t'.partyUpdates ≠ t.partyUpdates → t'.unConfirmedMessages.get? key = none) ∧
    (∀ (t t' : TssCommon) (m : WrappedMessage) (p : String) (e : Option GoError)
        (bMsg : BroadcastConfirmMessage),
      (m.MessageType = TSSKeyGenVerMsg ∨ m.MessageType = TSSKeySignVerMsg) →
      m.Payload.confirm = some bMsg → t.TryGetLocalCacheItem bMsg.Key = none →
      t.ProcessOneMessage env (some m) p = .ok (t', e) →
      t'.partyUpdates = t.partyUpdates) := by
  refine ⟨?_, ?_, ?_⟩
  · intro t0 t t' msgs m p e hempty hrun hstep
    obtain ⟨_, hc⟩ := CacheGood_run env msgs t0 t (CacheGood_of_empty env t0 hempty) hrun
    obtain ⟨_, _, ha⟩ := ProcessOneMessage_effect env t t' m p e hc hstep
    rcases ha with ha | ⟨W, r, s, _, _, hu⟩
    · exact Or.inl ha
    · exact Or.inr ⟨_, hu⟩
  · intro t t' item threshold key msgType happ hgrow
    exact ((applyShare_effect env t t' item threshold key msgType none happ).2.2.2 hgrow).2 rfl
  · intro t t' m p e bMsg hty hconf hnone hstep
    have hck : t.checkDupAndUpdateVerMsg bMsg p = ({ bMsg with P2PID := p }, true) := by
      unfold TssCommon.checkDupAndUpdateVerMsg
      rw [hnone]
    unfold TssCommon.ProcessOneMessage at hstep
    dsimp only at hstep
    rcases hty with hty | hty <;>
    · rw [hty] at hstep
      dsimp only at hstep
      rw [hconf] at hstep
      dsimp only at hstep
      rw [hck] at hstep
      simp only [if_true] at hstep
      exact processVerMsg_absent env t t' { P2PID := p, Key := bMsg.Key, Hash := bMsg.Hash }
        _ e hnone hstep

/-- C3 in a four party session: after `S`'s broadcast has been applied on the
attestation of `B` and its entry removed, the late attestation of `C` applies
nothing. -/
theorem applied_at_most_once_per_call_witness :
    (demoSession ["S", "A", "B", "C"] "A").unConfirmedMessages = [] ∧
    runMessages demoEnv (demoSession ["S", "A", "B", "C"] "A")
      [(wrapWire (demoBroadcast "S" "r1" [1, 2]), "peerS"), (wrapVer "S-r1" "a12871fee210fb8619291eaea194581cbd2531e4b23759d225f6806923f63222", "peerB")]
      = .ok fourPartyAfterApply ∧
    fourPartyAfterApply.partyUpdates = [callOf (demoBroadcast "S" "r1" [1, 2]) "S"] ∧
    fourPartyAfterApply.TryGetLocalCacheItem "S-r1" = none ∧
    (∀ t' e, fourPartyAfterApply.ProcessOneMessage demoEnv (some (wrapVer "S-r1" "a12871fee210fb8619291eaea194581cbd2531e4b23759d225f6806923f63222")) "peerC"
        = .ok (t', e) → t'.partyUpdates = fourPartyAfterApply.partyUpdates) :=
  ⟨by decide!, by decide!, by decide!, by decide!, fun t' e h =>
    (applied_at_most_once_per_call demoEnv).2.2 fourPartyAfterApply t'
      (wrapVer "S-r1" "a12871fee210fb8619291eaea194581cbd2531e4b23759d225f6806923f63222") "peerC" e { P2PID := "", Key := "S-r1", Hash := "a12871fee210fb8619291eaea194581cbd2531e4b23759d225f6806923f63222" }
      (Or.inl rfl) rfl (by decide!) h⟩

/-- C3 as stated fails.  In a four party session of honest parties, party `A`
applies `S`'s broadcast on the attestation of `B` and removes the entry; the
late attestation of `C` opens a new entry and a pull request, and the pull
response of `C` makes `A` apply the same broadcast a second time.  In a three
party session (`threshold = 1`) a broadcast delivered twice is applied twice. -/
theorem broadcast_applied_twice :
    (runMessages demoEnv (demoSession ["S", "A", "B", "C"] "A")
      [(wrapWire (demoBroadcast "S" "r1" [1, 2]), "peerS"),
       (wrapVer "S-r1" "a12871fee210fb8619291eaea194581cbd2531e4b23759d225f6806923f63222", "peerB")]).map
        (fun t => (t.partyUpdates, t.TryGetLocalCacheItem "S-r1"))
      = .ok ([callOf (demoBroadcast "S" "r1" [1, 2]) "S"], none) ∧
    (runMessages demoEnv (demoSession ["S", "A", "B", "C"] "A")
      [(wrapWire (demoBroadcast "S" "r1" [1, 2]), "peerS"),
       (wrapVer "S-r1" "a12871fee210fb8619291eaea194581cbd2531e4b23759d225f6806923f63222", "peerB"),
       (wrapVer "S-r1" "a12871fee210fb8619291eaea194581cbd2531e4b23759d225f6806923f63222", "peerC"),
       (wrapPullResponse "a12871fee210fb8619291eaea194581cbd2531e4b23759d225f6806923f63222" "S-r1" (demoBroadcast "S" "r1" [1, 2]), "peerC")]).map
        (fun t => t.partyUpdates)
      = .ok [callOf (demoBroadcast "S" "r1" [1, 2]) "S",
             callOf (demoBroadcast "S" "r1" [1, 2]) "S"] ∧
    (runMessages demoEnv (demoSession ["S", "A", "B"] "A")
      [(wrapWire (demoBroadcast "S" "r1" [1, 2]), "peerS"),
       (wrapWire (demoBroadcast "S" "r1" [1, 2]), "peerS")]).map (fun t => t.partyUpdates)
      = .ok [callOf (demoBroadcast "S" "r1" [1, 2]) "S",
             callOf (demoBroadcast "S" "r1" [1, 2]) "S"] := by
  refine ⟨by decide!, by decide!, by decide!⟩

/-! ## C1: agreement between two nodes -/

theorem mem_attesters {cl : GoMap String} {h q : String} (hq : q ∈ attesters cl h) :
    (q, h) ∈ cl := by
  unfold attesters at hq
  simp only [List.mem_toFinset, List.mem_map, List.mem_filter, decide_eq_true_eq] at hq
  obtain ⟨p, ⟨hp, hh⟩, hpq⟩ := hq
  obtain ⟨k, v⟩ := p
  simp only at hh hpq
  subst hh hpq
  exact hp

theorem attesters_subset_keys (cl : GoMap String) (h : String) :
    attesters cl h ⊆ cl.keys.toFinset := by
  intro q hq
  have := mem_attesters hq
  simp only [List.mem_toFinset, GoMap.keys, List.mem_map]
  exact ⟨(q, h), this, rfl⟩

/-- C1 (amended): if two honest nodes each apply a broadcast payload for
`(S, R)` (`hashCheck` returns nil on each node's entry, which holds the hash of
its payload), and the two `confirmedList`s agree on every peer they share and
draw their peers from a set of fewer than `2 (t - 1)` peers, then the two
applied payloads have the same SHA-256 hash. -/
theorem hashEcho_agreement (env : Env) (tA tB : TssCommon) (itemA itemB : LocalCacheItem)
    (threshold : Int) (WA WB : WireMessage) (peers : Finset String)
    (hA : tA.hashCheck env itemA threshold = .ok (itemA, none))
    (hB : tB.hashCheck env itemB threshold = .ok (itemB, none))
    (hmA : itemA.Msg = some WA) (hhA : itemA.Hash = BytesToHashString WA.Message)
    (hmB : itemB.Msg = some WB) (hhB : itemB.Hash = BytesToHashString WB.Message)
    (hwfA : itemA.ConfirmedList.WF) (hwfB : itemB.ConfirmedList.WF)
    (hcons : ∀ q h1 h2, (q, h1) ∈ itemA.ConfirmedList → (q, h2) ∈ itemB.ConfirmedList → h1 = h2)
    (hpeersA : itemA.ConfirmedList.keys.toFinset ⊆ peers)
    (hpeersB : itemB.ConfirmedList.keys.toFinset ⊆ peers)
    (hcard : (peers.card : Int) < 2 * (threshold - 1)) :
    BytesToHashString WA.Message = BytesToHashString WB.Message := by
  have _ := hmA
  have _ := hmB
  obtain ⟨_, _, _, hcA⟩ := hashCheck_ok env tA itemA itemA threshold hA
  obtain ⟨_, _, _, hcB⟩ := hashCheck_ok env tB itemB itemB threshold hB
  rw [← attesters_card _ hwfA] at hcA
  rw [← attesters_card _ hwfB] at hcB
  set SA := attesters itemA.ConfirmedList itemA.Hash with hSA
  set SB := attesters itemB.ConfirmedList itemB.Hash with hSB
  have hsubA : SA ⊆ peers := (attesters_subset_keys _ _).trans hpeersA
  have hsubB : SB ⊆ peers := (attesters_subset_keys _ _).trans hpeersB
  have hunion : (SA ∪ SB).card ≤ peers.card := Finset.card_le_card (Finset.union_subset hsubA hsubB)
  have hie := Finset.card_union_add_card_inter SA SB
  have hpos : 0 < (SA ∩ SB).card := by
    have h1 : ((SA ∪ SB).card : Int) + ((SA ∩ SB).card : Int) = (SA.card : Int) + (SB.card : Int) := by
      exact_mod_cast hie
    have h2 : ((SA ∪ SB).card : Int) ≤ (peers.card : Int) := by exact_mod_cast hunion
    have : (0 : Int) < ((SA ∩ SB).card : Int) := by omega
    exact_mod_cast this
  obtain ⟨q, hq⟩ := Finset.card_pos.mp hpos
  rw [Finset.mem_inter] at hq
  have := hcons q _ _ (mem_attesters hq.1) (mem_attesters hq.2)
  rw [← hhA, ← hhB]
  exact this

/-- C1 in a ten party session (`threshold = 6`, nine peers other than the
sender): node `A` holds the attestations of `A` to `F`, node `B` those of `D`
to `I`; both pass `hashCheck`, and the hashes agree. -/
theorem hashEcho_agreement_witness :
    (demoSession tenParties "A").hashCheck demoEnv
        (tenPartyEntry ["peerA", "peerB", "peerC", "peerD", "peerE", "peerF"]) 6
      = .ok (tenPartyEntry ["peerA", "peerB", "peerC", "peerD", "peerE", "peerF"], none) ∧
    (demoSession tenParties "B").hashCheck demoEnv
        (tenPartyEntry ["peerD", "peerE", "peerF", "peerG", "peerH", "peerI"]) 6
      = .ok (tenPartyEntry ["peerD", "peerE", "peerF", "peerG", "peerH", "peerI"], none) ∧
    BytesToHashString (demoBroadcast "S" "r1" [1]).Message
      = BytesToHashString (demoBroadcast "S" "r1" [1]).Message := by
  have hA : (demoSession tenParties "A").hashCheck demoEnv
        (tenPartyEntry ["peerA", "peerB", "peerC", "peerD", "peerE", "peerF"]) 6
      = .ok (tenPartyEntry ["peerA", "peerB", "peerC", "peerD", "peerE", "peerF"], none) := by
    decide!
  have hB : (demoSession tenParties "B").hashCheck demoEnv
        (tenPartyEntry ["peerD", "peerE", "peerF", "peerG", "peerH", "peerI"]) 6
      = .ok (tenPartyEntry ["peerD", "peerE", "peerF", "peerG", "peerH", "peerI"], none) := by
    decide!
  refine ⟨hA, hB, ?_⟩
  exact hashEcho_agreement demoEnv _ _ _ _ 6 (demoBroadcast "S" "r1" [1])
    (demoBroadcast "S" "r1" [1])
    (["peerA", "peerB", "peerC", "peerD", "peerE", "peerF", "peerG", "peerH", "peerI"].toFinset)
    hA hB rfl (by decide!) rfl (by decide!)
    (by simp [GoMap.WF, GoMap.keys, tenPartyEntry])
    (by simp [GoMap.WF, GoMap.keys, tenPartyEntry])
    (by
      intro q h1 h2 ha hb
      simp only [tenPartyEntry, List.map_cons, List.map_nil, List.mem_cons, Prod.mk.injEq,
        List.mem_nil_iff, or_false] at ha hb
      have e1 : h1 = "4bf5122f344554c53bde2ebb8cd2b7e3d1600ad631c385a5d7cce23c7785459a" := by rcases ha with h | h | h | h | h | h <;> exact h.2
      have e2 : h2 = "4bf5122f344554c53bde2ebb8cd2b7e3d1600ad631c385a5d7cce23c7785459a" := by rcases hb with h | h | h | h | h | h <;> exact h.2
      rw [e1, e2])
    (by decide!) (by decide!) (by decide!)

/-- C1 as stated fails.  In a five party session (`threshold = 3`) the sender
`S` signs two payloads for one round and sends `[1]` to `A` and `C` and `[2]`
to `B` and `D`; every peer attests the hash of what it received.  Node `A`
receives the attestations of `C` and `B` and applies `[1]`; node `B` receives
those of `D` and `A` and applies `[2]`; the two hashes differ. -/
theorem hashEcho_disagreement :
    (runMessages demoEnv (demoSession ["S", "A", "B", "C", "D"] "A")
      [(wrapWire (demoBroadcast "S" "r1" [1]), "peerS"),
       (wrapVer "S-r1" "4bf5122f344554c53bde2ebb8cd2b7e3d1600ad631c385a5d7cce23c7785459a", "peerC"),
       (wrapVer "S-r1" "dbc1b4c900ffe48d575b5da5c638040125f65db0fe3e24494b76ea986457d986", "peerB")]).map (fun t => t.partyUpdates)
      = .ok [callOf (demoBroadcast "S" "r1" [1]) "S"] ∧
    (runMessages demoEnv (demoSession ["S", "A", "B", "C", "D"] "B")
      [(wrapWire (demoBroadcast "S" "r1" [2]), "peerS"),
       (wrapVer "S-r1" "dbc1b4c900ffe48d575b5da5c638040125f65db0fe3e24494b76ea986457d986", "peerD"),
       (wrapVer "S-r1" "4bf5122f344554c53bde2ebb8cd2b7e3d1600ad631c385a5d7cce23c7785459a", "peerA")]).map (fun t => t.partyUpdates)
      = .ok [callOf (demoBroadcast "S" "r1" [2]) "S"] ∧
    BytesToHashString (demoBroadcast "S" "r1" [1]).Message = "4bf5122f344554c53bde2ebb8cd2b7e3d1600ad631c385a5d7cce23c7785459a" ∧
    BytesToHashString (demoBroadcast "S" "r1" [2]).Message = "dbc1b4c900ffe48d575b5da5c638040125f65db0fe3e24494b76ea986457d986" ∧
    BytesToHashString (demoBroadcast "S" "r1" [1]).Message
      ≠ BytesToHashString (demoBroadcast "S" "r1" [2]).Message := by
  refine ⟨by decide!, by decide!, by decide!, by decide!, by decide!⟩

/-! ## `Blame`: duplicates -/

theorem Node.Equal_comm (a b : Node) : a.Equal b = b.Equal a := by
  unfold Node.Equal
  by_cases h : a.Pubkey = b.Pubkey ∧ a.BlameSignature = b.BlameSignature
  · rw [if_pos h, if_pos ⟨h.1.symm, h.2.symm⟩]
  · rw [if_neg h, if_neg (fun h' => h ⟨h'.1.symm, h'.2.symm⟩)]

theorem Node.Equal_self (a : Node) : a.Equal a = true := by
  simp [Node.Equal]

theorem AddBlameNodes_nil (b : Blame) : b.AddBlameNodes [] = b := rfl

theorem AddBlameNodes_cons (b : Blame) (n : Node) (rest : List Node) :
    b.AddBlameNodes (n :: rest) = (b.AddBlameNodes [n]).AddBlameNodes rest := rfl

theorem AddBlameNodes_single_of_found (b : Blame) (n : Node)
    (h : b.BlameNodes.any (fun el => n.Equal el) = true) : b.AddBlameNodes [n] = b := by
  simp only [Blame.AddBlameNodes, List.foldl_cons, List.foldl_nil, h, Bool.not_true]
  rfl

theorem AddBlameNodes_single_of_not_found (b : Blame) (n : Node)
    (h : b.BlameNodes.any (fun el => n.Equal el) = false) :
    b.AddBlameNodes [n] = { b with BlameNodes := b.BlameNodes ++ [n] } := by
  simp only [Blame.AddBlameNodes, List.foldl_cons, List.foldl_nil, h, Bool.not_false]
  rfl

theorem AddBlameNodes_single_found (b : Blame) (n : Node) :
    (b.AddBlameNodes [n]).BlameNodes.any (fun el => n.Equal el) = true := by
  cases h : b.BlameNodes.any (fun el => n.Equal el)
  · rw [AddBlameNodes_single_of_not_found b n h]
    simp [Node.Equal_self]
  · rw [AddBlameNodes_single_of_found b n h]; exact h

theorem NoDuplicate_AddBlameNodes_single (b : Blame) (n : Node) (hb : b.NoDuplicate) :
    (b.AddBlameNodes [n]).NoDuplicate := by
  cases h : b.BlameNodes.any (fun el => n.Equal el)
  · rw [AddBlameNodes_single_of_not_found b n h]
    unfold Blame.NoDuplicate
    refine List.pairwise_append.mpr ⟨hb, List.pairwise_singleton _ _, ?_⟩
    intro x hx y hy
    rw [List.mem_singleton] at hy
    subst hy
    rw [Node.Equal_comm]
    rw [List.any_eq_false] at h
    simpa using h x hx
  · rw [AddBlameNodes_single_of_found b n h]; exact hb

theorem NoDuplicate_AddBlameNodes (nodes : List Node) :
    ∀ b : Blame, b.NoDuplicate → (b.AddBlameNodes nodes).NoDuplicate := by
  induction nodes with
  | nil => intro b hb; exact hb
  | cons n rest ih =>
    intro b hb
    rw [AddBlameNodes_cons]
    exact ih _ (NoDuplicate_AddBlameNodes_single b n hb)

/-- C13 (as amended): no two entries of `BlameNodes` are `Equal` in the empty
`Blame` of a new blame manager; every call of `AddBlameNodes` preserves this,
for all arguments; a call of `SetBlame` preserves it when no two of the new
nodes are `Equal` and none of them is `Equal` to a node already present. -/
theorem blameNodes_no_duplicate (b : Blame) (reason : String) (nodes : List Node)
    (isUnicast : Bool) :
    NewBlameManager.blame.NoDuplicate ∧
    (b.NoDuplicate → (b.AddBlameNodes nodes).NoDuplicate) ∧
    (b.NoDuplicate → nodes.Pairwise (fun x y => x.Equal y = false) →
      (∀ x ∈ b.BlameNodes, ∀ y ∈ nodes, x.Equal y = false) →
      (b.SetBlame reason nodes isUnicast).NoDuplicate) := by
  refine ⟨List.Pairwise.nil, NoDuplicate_AddBlameNodes nodes b, ?_⟩
  intro hb hn hcross
  exact List.pairwise_append.mpr ⟨hb, hn, hcross⟩

/-- C13, witness: a `Blame` holding node `1`, extended with nodes `2` and `3`. -/
theorem blameNodes_no_duplicate_witness :
    NewBlameManager.blame.NoDuplicate ∧
    (({ FailReason := "", IsUnicast := false, BlameNodes := [NewNode "1" [] []] } : Blame).AddBlameNodes
      [NewNode "2" [] [], NewNode "2" [] [], NewNode "1" [] []]).NoDuplicate ∧
    (({ FailReason := "", IsUnicast := false, BlameNodes := [NewNode "1" [] []] } : Blame).SetBlame
      HashCheckFail [NewNode "2" [] [], NewNode "3" [] []] true).NoDuplicate :=
  have h := blameNodes_no_duplicate
    { FailReason := "", IsUnicast := false, BlameNodes := [NewNode "1" [] []] }
    HashCheckFail [NewNode "2" [] [], NewNode "3" [] []] true
  ⟨h.1,
   (blameNodes_no_duplicate
      { FailReason := "", IsUnicast := false, BlameNodes := [NewNode "1" [] []] }
      HashCheckFail [NewNode "2" [] [], NewNode "2" [] [], NewNode "1" [] []] true).2.1
      (by decide),
   h.2.2 (by decide) (by decide) (by decide)⟩

/-- C13 as stated fails: `SetBlame` on the empty `Blame` with the same node
twice leaves two `Equal` entries.  It happens in a session: party `A` of a four
party session that receives two hash attestations of the data owner `S` for
`S`'s own broadcast blames `S` twice, through `SetBlame`, with the same node. -/
theorem SetBlame_duplicates :
    NewBlameManager.blame.NoDuplicate ∧
    (NewBlameManager.blame.SetBlame HashCheckFail
      [NewNode "pk" [1] [2], NewNode "pk" [1] [2]] false).BlameNodes =
      [NewNode "pk" [1] [2], NewNode "pk" [1] [2]] ∧
    ¬ (NewBlameManager.blame.SetBlame HashCheckFail
      [NewNode "pk" [1] [2], NewNode "pk" [1] [2]] false).NoDuplicate ∧
    (runMessages demoEnv (demoSession ["S", "A", "B", "C"] "A")
      [(wrapWire (demoBroadcast "S" "r1" [1, 2]), "peerS"),
       (wrapVer "S-r1" "a12871fee210fb8619291eaea194581cbd2531e4b23759d225f6806923f63222", "peerS"),
       (wrapVer "S-r1" "a12871fee210fb8619291eaea194581cbd2531e4b23759d225f6806923f63222", "peerS")]).map
      (fun t => t.blameMgr.blame.BlameNodes) =
      .ok [NewNode "S" [1, 2] [], NewNode "S" [1, 2] []] := by
  refine ⟨List.Pairwise.nil, rfl, by decide, by decide!⟩

/-- C14: `AddBlameNodes` is idempotent: adding a node that was just added, in a
second call or a second time in the same call, leaves the `Blame` as it is. -/
theorem AddBlameNodes_idempotent (b : Blame) (n : Node) :
    (b.AddBlameNodes [n]).AddBlameNodes [n] = b.AddBlameNodes [n] ∧
    b.AddBlameNodes [n, n] = b.AddBlameNodes [n] := by
  have h := AddBlameNodes_single_of_found _ n (AddBlameNodes_single_found b n)
  exact ⟨h, by rw [AddBlameNodes_cons]; exact h⟩

/-! ## C11: a second attestation of the same peer -/

/-- C11 (as amended): while the entry of `bMsg.Key` is in the cache and its
`ConfirmedList` holds an attestation of the peer `Q`, a VerMsg of either kind
that `Q` sends for this key, with whatever hash, makes `ProcessOneMessage`
return `nil` and leaves the whole session as it is: the attestation `Q` made
first stays. -/
theorem duplicate_VerMsg_ignored (env : Env) (t : TssCommon) (m : WrappedMessage)
    (bMsg : BroadcastConfirmMessage) (Q : String) (item : LocalCacheItem)
    (hty : m.MessageType = TSSKeyGenVerMsg ∨ m.MessageType = TSSKeySignVerMsg)
    (hpay : m.Payload.confirm = some bMsg)
    (hitem : t.TryGetLocalCacheItem bMsg.Key = some item)
    (hQ : Q ∈ item.ConfirmedList.keys) :
    t.ProcessOneMessage env (some m) Q = .ok (t, none) := by
  have hsome : (item.ConfirmedList.get? Q).isSome = true := by
    cases hg : item.ConfirmedList.get? Q with
    | none => exact absurd hQ ((GoMap.get?_eq_none_iff _ _).mp hg)
    | some v => rfl
  have hdup : (t.checkDupAndUpdateVerMsg bMsg Q).2 = false := by
    simp only [TssCommon.checkDupAndUpdateVerMsg, hitem, hsome, if_true]
  unfold TssCommon.ProcessOneMessage
  rcases hty with hty | hty <;>
    simp only [hty, hpay] <;>
    · generalize t.checkDupAndUpdateVerMsg bMsg Q = r at hdup
      obtain ⟨b, ret⟩ := r
      simp only at hdup
      subst hdup
      rfl

/-- C11, witness: party `A` holds `S`'s broadcast with its own attestation; a
VerMsg that names `A`'s own peer id changes nothing. -/
theorem duplicate_VerMsg_ignored_witness :
    (sessionAfter (runMessages demoEnv (demoSession ["S", "A", "B", "C"] "A")
        [(wrapWire (demoBroadcast "S" "r1" [1, 2]), "peerS")])
        (demoSession ["S", "A", "B", "C"] "A")).ProcessOneMessage demoEnv
      (some (wrapVer "S-r1" "00")) "peerA" =
    .ok (sessionAfter (runMessages demoEnv (demoSession ["S", "A", "B", "C"] "A")
        [(wrapWire (demoBroadcast "S" "r1" [1, 2]), "peerS")])
        (demoSession ["S", "A", "B", "C"] "A"), none) :=
  duplicate_VerMsg_ignored demoEnv _ (wrapVer "S-r1" "00")
    { P2PID := "", Key := "S-r1", Hash := "00" } "peerA"
    { Msg := some (demoBroadcast "S" "r1" [1, 2]), Hash := "a12871fee210fb8619291eaea194581cbd2531e4b23759d225f6806923f63222",
      ConfirmedList := [("peerA", "a12871fee210fb8619291eaea194581cbd2531e4b23759d225f6806923f63222")] }
    (Or.inl rfl) rfl (by decide!) (by decide)

/-- C11 as stated fails.  In a four party session party `A` applies `S`'s
broadcast on the attestation of `B` and removes the entry; a second VerMsg of
`B` for the key is then handled as a first one and opens a new entry whose
`ConfirmedList` holds `B`.  And after a VerMsg that the data owner `S` sent for
its own broadcast, `hashCheck` has deleted `S`'s attestation; a second VerMsg
of `S` is handled again and `ProcessOneMessage` returns `ErrHashCheck`, not
`nil`. -/
theorem second_VerMsg_processed :
    fourPartyAfterApply.TryGetLocalCacheItem "S-r1" = none ∧
    (fourPartyAfterApply.ProcessOneMessage demoEnv
        (some (wrapVer "S-r1" "a12871fee210fb8619291eaea194581cbd2531e4b23759d225f6806923f63222")) "peerB").map
      (fun r => (r.1.TryGetLocalCacheItem "S-r1", r.2)) =
      .ok (some { Msg := none, Hash := "a12871fee210fb8619291eaea194581cbd2531e4b23759d225f6806923f63222",
                  ConfirmedList := [("peerB", "a12871fee210fb8619291eaea194581cbd2531e4b23759d225f6806923f63222")] }, none) ∧
    (fourPartyAfterOwnerVer.ProcessOneMessage demoEnv
        (some (wrapVer "S-r1" "a12871fee210fb8619291eaea194581cbd2531e4b23759d225f6806923f63222")) "peerS").map
      (fun r => r.2) = .ok (some .ErrHashCheck) := by
  refine ⟨by decide!, by decide!, by decide!⟩

/-! ## C12: a hash attestation sent by the data owner -/

theorem GoMap.get?_delete_of_ne {β : Type} (m : GoMap β) (k q : String) (h : q ≠ k) :
    (m.delete k).get? q = m.get? q := by
  induction m with
  | nil => rfl
  | cons p m ih =>
    obtain ⟨k0, v0⟩ := p
    simp only [GoMap.delete, GoMap.get?] at ih ⊢
    by_cases h0 : k0 = k
    · subst h0
      have hb : (q == k0) = false := by simpa using h
      rw [List.filter_cons_of_neg (by simp), ih]
      simp [List.lookup, hb]
    · rw [List.filter_cons_of_pos (by simpa using h0)]
      by_cases hq : q = k0
      · subst hq
        simp [List.lookup]
      · have hb : (q == k0) = false := by simpa using hq
        simp only [List.lookup, hb, ih]

/-- C12 (as amended): for a cache entry that holds the broadcast of sender `S`,
whose `ConfirmedList` has at least `threshold` entries and contains `S`'s own
peer id, `applyShare` returns `ErrHashCheck`; when the blame manager finds
`S`'s public key, the blame record gains exactly one node, with that public
key and the broadcast and its signature as evidence; and the entry is written
back under `key` with `S`'s attestation removed from `ConfirmedList` and every
other attestation kept. -/
theorem applyShare_hash_from_owner (env : Env) (t : TssCommon) (item : LocalCacheItem)
    (threshold : Int) (key : String) (msgType : THORChainTSSMessageType)
    (msg : WireMessage) (routing : MessageRouting) (S : PartyID) (pS : String)
    (pi : PartyInfo) (owner : Option PartyID) (pk : String)
    (hmsg : item.Msg = some msg) (hr : msg.Routing = some routing)
    (hS : routing.From = some S)
    (hp : t.PartyIDtoP2PID.get? S.Id = some pS)
    (hth : threshold ≤ item.TotalConfirmParty)
    (hown : pS ∈ item.ConfirmedList.keys)
    (hpi : t.blameMgr.partyInfo = some pi)
    (ho : pi.PartyIDMap.get? S.Id = some owner)
    (hpk : PartyIDtoPubKey env owner = .ok pk) :
    ∃ t', t.applyShare env item threshold key msgType = .ok (t', some .ErrHashCheck) ∧
      t'.blameMgr.blame.FailReason = HashCheckFail ∧
      t'.blameMgr.blame.BlameNodes =
        t.blameMgr.blame.BlameNodes ++ [NewNode pk msg.Message msg.Sig] ∧
      t'.TryGetLocalCacheItem key =
        some { item with ConfirmedList := item.ConfirmedList.delete pS } ∧
      (item.ConfirmedList.delete pS).get? pS = none ∧
      ∀ q, q ≠ pS → (item.ConfirmedList.delete pS).get? q = item.ConfirmedList.get? q := by
  have hcheck : t.hashCheck env item threshold =
      .ok ({ item with ConfirmedList := item.ConfirmedList.delete pS },
        some .ErrHashFromOwner) := by
    unfold TssCommon.hashCheck
    simp only [hmsg, hr, hS, hp]
    rw [if_neg (not_lt.mpr hth), if_pos hown]
  have hblame : Manager.TssWrongShareBlame env t.blameMgr (some msg) = .ok (.ok pk) := by
    unfold Manager.TssWrongShareBlame
    simp only [hr, hS, hpi, ho, hpk]
  refine ⟨{ t with
      unConfirmedMessages := t.unConfirmedMessages.set key
        { item with ConfirmedList := item.ConfirmedList.delete pS }
      blameMgr := { t.blameMgr with
        blame := t.blameMgr.blame.SetBlame HashCheckFail [NewNode pk msg.Message msg.Sig]
          (!routing.IsBroadcast) } }, ?_, rfl, rfl, ?_, GoMap.get?_delete_self _ _,
    fun q hq => GoMap.get?_delete_of_ne _ _ _ hq⟩
  · unfold TssCommon.applyShare
    simp only [hmsg, hr, hcheck]
    have e1 : GoError.ErrHashFromOwner.is .ErrNotEnoughPeer = false := by decide
    have e2 : GoError.ErrHashFromOwner.is .ErrNotMajority = false := by decide
    have e3 : GoError.ErrHashFromOwner.is .ErrHashFromOwner = true := by decide
    simp only [e1, e2, e3, if_true, Bool.false_eq_true, if_false,
      TssCommon.updateLocalUnconfirmedMessages, hmsg, hblame]
  · simp only [TssCommon.TryGetLocalCacheItem, GoMap.get?_set, if_true]

/-- C12, witness: party `A` of a four party session (`threshold = 2`) with the
attestations of `A` and of `S` itself on `S`'s broadcast. -/
theorem applyShare_hash_from_owner_witness :
    ∃ t', (demoSession ["S", "A", "B", "C"] "A").applyShare demoEnv ownerAttestedEntry 2 "S-r1"
        TSSKeyGenMsg = .ok (t', some .ErrHashCheck) ∧
      t'.blameMgr.blame.FailReason = HashCheckFail ∧
      t'.blameMgr.blame.BlameNodes = [] ++ [NewNode "S" [1, 2] []] ∧
      t'.TryGetLocalCacheItem "S-r1" =
        some { ownerAttestedEntry with
                ConfirmedList := ownerAttestedEntry.ConfirmedList.delete "peerS" } ∧
      (ownerAttestedEntry.ConfirmedList.delete "peerS").get? "peerS" = none ∧
      ∀ q, q ≠ "peerS" → (ownerAttestedEntry.ConfirmedList.delete "peerS").get? q =
        ownerAttestedEntry.ConfirmedList.get? q :=
  applyShare_hash_from_owner demoEnv (demoSession ["S", "A", "B", "C"] "A") ownerAttestedEntry 2
    "S-r1" TSSKeyGenMsg (demoBroadcast "S" "r1" [1, 2])
    { From := some (demoParty "S"), To := [], IsBroadcast := true } (demoParty "S") "peerS"
    { Party := some { partyID := demoParty "A" },
      PartyIDMap := ["S", "A", "B", "C"].map (fun id => (id, some (demoParty id))) }
    (some (demoParty "S")) "S" rfl rfl rfl (by decide) (by decide) (by decide) rfl (by decide) rfl

/-- C12 as stated fails: in the four party session of `testDropMsgOwner`'s
shape `applyShare` returns `ErrHashCheck`, which is not `ErrHashFromOwner`
(`errors.Is` is false); `ErrHashFromOwner` is what the inner `hashCheck`
returns. -/
theorem applyShare_not_HashFromOwner :
    ((demoSession ["S", "A", "B", "C"] "A").applyShare demoEnv ownerAttestedEntry 2 "S-r1"
        TSSKeyGenMsg).map (fun r => r.2) = .ok (some .ErrHashCheck) ∧
    GoError.ErrHashCheck.is .ErrHashFromOwner = false ∧
    ((demoSession ["S", "A", "B", "C"] "A").hashCheck demoEnv ownerAttestedEntry 2).map
        (fun r => r.2) = .ok (some .ErrHashFromOwner) := by
  refine ⟨by decide!, by decide, by decide!⟩

/-! ## C15: `NodeSyncBlame` -/

theorem nodeSyncLoop_ok (getPeerID : String → Option String) (peerOf : String → String)
    (onlinePeers : List String) :
    ∀ (keys : List String) (blame : Blame),
      (∀ k ∈ keys, getPeerID k = some (peerOf k)) →
      nodeSyncLoop getPeerID onlinePeers keys blame =
        ({ blame with
            BlameNodes := blame.BlameNodes ++
              (keys.filter (fun k => peerOf k ∉ onlinePeers)).map (fun k => NewNode k [] []) },
          none) := by
  intro keys
  induction keys with
  | nil => intro blame _; simp [nodeSyncLoop]
  | cons k rest ih =>
    intro blame h
    have hk := h k (List.mem_cons_self _ _)
    have hrest : ∀ k' ∈ rest, getPeerID k' = some (peerOf k') :=
      fun k' hk' => h k' (List.mem_cons_of_mem _ hk')
    simp only [nodeSyncLoop, hk]
    rw [ih _ hrest]
    by_cases hon : peerOf k ∈ onlinePeers
    · have hany : onlinePeers.any (fun p => p == peerOf k) = true := by
        rw [List.any_eq_true]; exact ⟨_, hon, by simp⟩
      simp [hany, hon]
    · have hany : onlinePeers.any (fun p => p == peerOf k) = false := by
        rw [List.any_eq_false]
        intro x hx hxe
        exact hon (by rw [← (by simpa using hxe : x = peerOf k)]; exact hx)
      simp [hany, hon]

theorem nodeSyncLoop_error (getPeerID : String → Option String) (onlinePeers : List String) :
    ∀ (keys : List String) (blame : Blame),
      (∃ k ∈ keys, getPeerID k = none) →
      (nodeSyncLoop getPeerID onlinePeers keys blame).2 =
        some (.new "fail to get peer id from pub key") := by
  intro keys
  induction keys with
  | nil => intro blame h; obtain ⟨k, hk, _⟩ := h; simp at hk
  | cons k rest ih =>
    intro blame h
    cases hk : getPeerID k with
    | none => simp [nodeSyncLoop, hk]
    | some p =>
      simp only [nodeSyncLoop, hk]
      apply ih
      obtain ⟨k', hk', hn⟩ := h
      rcases List.mem_cons.mp hk' with e | hmem
      · subst e; rw [hk] at hn; cases hn
      · exact ⟨k', hmem, hn⟩

/-- C15: when every invited key parses (`peerOf k` is the peer id derived from
`k`), `NodeSyncBlame` returns, with a nil error, the `Blame` with reason
`TssSyncFail` whose nodes are, in input order and with empty evidence, the keys
whose peer id is not in `onlinePeers`; when some key does not parse it returns
an error. -/
theorem NodeSyncBlame_spec (getPeerID : String → Option String) (peerOf : String → String)
    (m : Manager) (keys onlinePeers : List String) :
    ((∀ k ∈ keys, getPeerID k = some (peerOf k)) →
      m.NodeSyncBlame getPeerID keys onlinePeers =
        ({ FailReason := TssSyncFail, IsUnicast := false,
           BlameNodes := (keys.filter (fun k => peerOf k ∉ onlinePeers)).map
             (fun k => NewNode k [] []) }, none)) ∧
    ((∃ k ∈ keys, getPeerID k = none) →
      (m.NodeSyncBlame getPeerID keys onlinePeers).2 =
        some (.new "fail to get peer id from pub key")) := by
  refine ⟨fun h => ?_, fun h => nodeSyncLoop_error getPeerID onlinePeers keys _ h⟩
  unfold Manager.NodeSyncBlame
  rw [nodeSyncLoop_ok getPeerID peerOf onlinePeers keys _ h]
  simp

/-- C15, witness: of the invited keys `k1, k2, k3` only the peer of `k2` is
online; and the key `bad` does not parse. -/
theorem NodeSyncBlame_spec_witness :
    NewBlameManager.NodeSyncBlame (fun k => if k = "bad" then none else some ("peer" ++ k))
        ["k1", "k2", "k3"] ["peerk2"] =
      ({ FailReason := TssSyncFail, IsUnicast := false,
         BlameNodes := [NewNode "k1" [] [], NewNode "k3" [] []] }, none) ∧
    (NewBlameManager.NodeSyncBlame (fun k => if k = "bad" then none else some ("peer" ++ k))
        ["k1", "bad", "k3"] ["peerk2"]).2 = some (.new "fail to get peer id from pub key") :=
  ⟨(NodeSyncBlame_spec (fun k => if k = "bad" then none else some ("peer" ++ k))
      (fun k => "peer" ++ k) NewBlameManager ["k1", "k2", "k3"] ["peerk2"]).1 (by decide),
   (NodeSyncBlame_spec (fun k => if k = "bad" then none else some ("peer" ++ k))
      (fun k => "peer" ++ k) NewBlameManager ["k1", "bad", "k3"] ["peerk2"]).2
      ⟨"bad", by decide, rfl⟩⟩
/-! ## C16, C17: who is blamed for a timeout -/

theorem AccPubKeysFromPartyIDs_ok (env : Env) (partyIDMap : GoMap (Option PartyID))
    (pkOf : String → String) :
    ∀ ids : List String,
      (∀ id ∈ ids, ∃ p, partyIDMap.get? id = some p ∧ PartyIDtoPubKey env p = .ok (pkOf id)) →
      AccPubKeysFromPartyIDs env ids partyIDMap = .ok (ids.map pkOf) := by
  intro ids
  induction ids with
  | nil => intro _; rfl
  | cons id rest ih =>
    intro h
    obtain ⟨p, hget, hpk⟩ := h id (List.mem_cons_self _ _)
    have hrest := ih (fun id' hid' => h id' (List.mem_cons_of_mem _ hid'))
    simp only [AccPubKeysFromPartyIDs, hget, hpk, hrest, List.map_cons]

theorem GoMap.filterMap_keys {β : Type} (m : GoMap β) (h : m.WF) :
    m.keys.filterMap (fun k => (m.get? k).map (fun v => (k, v))) = m := by
  unfold GoMap.keys
  rw [List.filterMap_map]
  have hc : ∀ kv ∈ m, ((fun k => (m.get? k).map (fun v => (k, v))) ∘ Prod.fst) kv = some kv := by
    intro kv hkv
    obtain ⟨k, v⟩ := kv
    simp only [Function.comp, GoMap.get?_of_mem m k v h hkv, Option.map_some']
  rw [List.filterMap_congr hc]
  exact List.filterMap_some m

theorem GoMap.range_perm {β : Type} (ro : RangeOrder) (m : GoMap β) (h : m.WF) :
    (GoMap.range ro m).Perm m := by
  have hp := (ro.perm m.keys).filterMap (fun k => (m.get? k).map (fun v => (k, v)))
  rw [GoMap.filterMap_keys m h] at hp
  exact hp

theorem peersSet_ok (m : Manager) (pi : PartyInfo) (party : Party) (hpi : m.partyInfo = some pi)
    (hparty : pi.Party = some party) :
    ∀ l : GoMap (Option PartyID), l.WF →
      (∀ kv ∈ l, ∃ p : PartyID, kv.2 = some p ∧ p.Id = kv.1) →
      m.peersSet l = .ok (l.keys.filter (fun id => id ≠ party.partyID.Id)) := by
  intro l
  induction l with
  | nil => intro _ _; rfl
  | cons kv rest ih =>
    intro hwf hvals
    obtain ⟨k, v⟩ := kv
    obtain ⟨p, hv, hid⟩ := hvals (k, v) (List.mem_cons_self _ _)
    simp only at hv hid
    subst hv
    simp only [GoMap.WF, GoMap.keys, List.map_cons, List.nodup_cons] at hwf
    have hrest := ih hwf.2 (fun kv hkv => hvals kv (List.mem_cons_of_mem _ hkv))
    simp only [Manager.peersSet, hpi, hparty, hrest, hid]
    by_cases hk : k = party.partyID.Id
    · simp [hk, GoMap.keys]
    · have hnot : k ∉ List.filter (fun id => !decide (id = party.partyID.Id))
          (List.map Prod.fst rest) :=
        fun hmem => hwf.1 (List.mem_of_mem_filter hmem)
      simp only [hk, GoMap.keys, ne_eq, not_false_eq_true, if_true, decide_not, List.map_cons,
        decide_False, decide_True, Bool.not_false, List.filter_cons_of_pos,
        List.insert_of_not_mem hnot]

theorem roundGetByRound_loop_ok (r : String) :
    ∀ l : List (String × Option WireMessage),
      (∀ kv ∈ l, ∃ w, kv.2 = some w ∧
        (w.RoundInfo = r → ∃ routing sender, w.Routing = some routing ∧
          routing.From = some sender)) →
      ∃ standby, Manager.roundGetByRound.loop r l = .ok standby ∧
        (∀ id, id ∈ standby ↔ ∃ kv ∈ l, ∃ w routing sender, kv.2 = some w ∧
          w.Routing = some routing ∧ routing.From = some sender ∧
          w.RoundInfo = r ∧ sender.Id = id) := by
  intro l
  induction l with
  | nil => intro _; exact ⟨[], rfl, by simp⟩
  | cons kv rest ih =>
    intro h
    obtain ⟨k, v⟩ := kv
    obtain ⟨w, hw, hrt⟩ := h (k, v) (List.mem_cons_self _ _)
    simp only at hw
    subst hw
    obtain ⟨standby, hloop, hmem⟩ := ih (fun kv hkv => h kv (List.mem_cons_of_mem _ hkv))
    by_cases hr : w.RoundInfo = r
    · obtain ⟨routing, sender, hrouting, hfrom⟩ := hrt hr
      refine ⟨sender.Id :: standby, ?_, ?_⟩
      · simp only [Manager.roundGetByRound.loop, hr, if_true, hrouting, hfrom, hloop]
      · intro id
        rw [List.mem_cons, hmem id]
        constructor
        · rintro (e | ⟨kv, hkv, hx⟩)
          · exact ⟨(k, some w), List.mem_cons_self _ _, w, routing, sender, rfl, hrouting,
              hfrom, hr, e.symm⟩
          · exact ⟨kv, List.mem_cons_of_mem _ hkv, hx⟩
        · rintro ⟨kv, hkv, w', routing', sender', h1, h2, h3, h4, h5⟩
          rcases List.mem_cons.mp hkv with e | hkv
          · subst e
            simp only [Option.some.injEq] at h1
            subst h1
            rw [hrouting] at h2; cases h2
            rw [hfrom] at h3; cases h3
            exact Or.inl h5.symm
          · exact Or.inr ⟨kv, hkv, w', routing', sender', h1, h2, h3, h4, h5⟩
    · refine ⟨standby, ?_, ?_⟩
      · simp only [Manager.roundGetByRound.loop, hr, if_false, hloop]
      · intro id
        rw [hmem id]
        constructor
        · rintro ⟨kv, hkv, hx⟩
          exact ⟨kv, List.mem_cons_of_mem _ hkv, hx⟩
        · rintro ⟨kv, hkv, w', routing', sender', h1, h2, h3, h4, h5⟩
          rcases List.mem_cons.mp hkv with e | hkv
          · subst e
            simp only [Option.some.injEq] at h1
            subst h1
            exact absurd h4 hr
          · exact ⟨kv, hkv, w', routing', sender', h1, h2, h3, h4, h5⟩

theorem hasRoundMessage_iff (m : Manager) (r id : String) :
    m.hasRoundMessage r id = true ↔ ∃ kv ∈ m.roundMgr, ∃ w routing sender, kv.2 = some w ∧
      w.Routing = some routing ∧ routing.From = some sender ∧
      w.RoundInfo = r ∧ sender.Id = id := by
  unfold Manager.hasRoundMessage
  rw [List.any_eq_true]
  constructor
  · rintro ⟨kv, hkv, h⟩
    refine ⟨kv, hkv, ?_⟩
    split at h
    · cases h
    · rename_i w hw
      split at h
      · cases h
      · rename_i routing hrouting
        split at h
        · cases h
        · rename_i sender hsender
          exact ⟨w, routing, sender, hw, hrouting, hsender, by simpa using h⟩
  · rintro ⟨kv, hkv, w, routing, sender, h1, h2, h3, h4, h5⟩
    refine ⟨kv, hkv, ?_⟩
    simp [h1, h2, h3, h4, h5]
/-- C16 (as amended): in a session whose party info is well formed, whose
parties have public keys (`pkOf id` for the party `id`) and whose round archive
holds messages with routing and sender: when the archive holds at least one
message of the round `r`, `GetBroadcastBlame r` returns, with a nil error, one
node (public key, empty evidence) for each party other than the local one that
has no message of round `r` in the archive, and no other node; when the archive
holds no message of round `r` at all, it returns no node. -/
theorem GetBroadcastBlame_spec (env : Env) (ro : RangeOrder) (m : Manager) (r : String)
    (pi : PartyInfo) (party : Party) (pkOf : String → String)
    (hpi : m.partyInfo = some pi) (hwf : pi.WellFormed party)
    (hpk : ∀ kv ∈ pi.PartyIDMap, PartyIDtoPubKey env kv.2 = .ok (pkOf kv.1))
    (harch : ∀ kv ∈ m.roundMgr, ∃ w, kv.2 = some w ∧
      (w.RoundInfo = r → ∃ routing sender, w.Routing = some routing ∧
        routing.From = some sender)) :
    ((∃ id, m.hasRoundMessage r id = true) →
      ∃ nodes, m.GetBroadcastBlame env ro r = .ok (nodes, none) ∧
        nodes.Perm ((pi.PartyIDMap.keys.filter
          (fun id => id ≠ party.partyID.Id ∧ m.hasRoundMessage r id = false)).map
          (fun id => NewNode (pkOf id) [] []))) ∧
    ((∀ id, m.hasRoundMessage r id = false) →
      m.GetBroadcastBlame env ro r = .ok ([], none)) := by
  have hps := peersSet_ok m pi party hpi hwf.party pi.PartyIDMap hwf.nodup hwf.vals
  obtain ⟨standby, hloop, hmem⟩ := roundGetByRound_loop_ok r m.roundMgr harch
  have hstand : m.roundGetByRound r = .ok standby := hloop
  have hmem' : ∀ id, id ∈ standby ↔ m.hasRoundMessage r id = true :=
    fun id => (hmem id).trans (hasRoundMessage_iff m r id).symm
  constructor
  · rintro ⟨id0, hid0⟩
    have hne : standby.length ≠ 0 := by
      intro h0
      have : id0 ∈ standby := (hmem' id0).mpr hid0
      rw [List.length_eq_zero.mp h0] at this
      simp at this
    have hacc := AccPubKeysFromPartyIDs_ok env pi.PartyIDMap pkOf
      (ro.order ((pi.PartyIDMap.keys.filter (fun id => id ≠ party.partyID.Id)).filter
        (fun el => el ∉ standby)))
      (by
        intro id hid
        have h1 := (ro.perm _).mem_iff.mp hid
        have h2 : id ∈ pi.PartyIDMap.keys := List.mem_of_mem_filter (List.mem_of_mem_filter h1)
        obtain ⟨kv, hkv, hk⟩ := List.mem_map.mp h2
        obtain ⟨k, v⟩ := kv
        simp only at hk
        subst hk
        exact ⟨v, GoMap.get?_of_mem _ _ _ hwf.nodup hkv, hpk (k, v) hkv⟩)
    refine ⟨((ro.order ((pi.PartyIDMap.keys.filter (fun id => id ≠ party.partyID.Id)).filter
        (fun el => el ∉ standby))).map pkOf).map (fun el => NewNode el [] []), ?_, ?_⟩
    · unfold Manager.GetBroadcastBlame Manager.tssTimeoutBlame
      simp only [hpi, hps, hstand, if_neg hne, hacc]
    · rw [List.map_map]
      have hfilter : (pi.PartyIDMap.keys.filter (fun id => id ≠ party.partyID.Id)).filter
          (fun el => el ∉ standby) =
          pi.PartyIDMap.keys.filter
            (fun id => id ≠ party.partyID.Id ∧ m.hasRoundMessage r id = false) := by
        rw [List.filter_filter]
        apply List.filter_congr
        intro id _
        have hb : m.hasRoundMessage r id = false ↔ id ∉ standby := by
          rw [hmem' id]; simp
        by_cases h1 : id = party.partyID.Id <;> by_cases h2 : id ∈ standby <;>
          simp [h1, h2, hb]
      rw [← hfilter]
      exact (ro.perm _).map _
  · intro hnone
    have h0 : standby.length = 0 := by
      cases hs : standby with
      | nil => rfl
      | cons id rest =>
        have hin : id ∈ standby := by rw [hs]; exact List.mem_cons_self _ _
        have ht := (hmem' id).mp hin
        rw [hnone id] at ht
        cases ht
    unfold Manager.GetBroadcastBlame Manager.tssTimeoutBlame
    simp only [hpi, hps, hstand, if_pos h0, List.map_nil]
theorem demoPartyInfo_wellFormed :
    PartyInfo.WellFormed
      { Party := some { partyID := demoParty "A" },
        PartyIDMap := ["S", "A", "B", "C"].map (fun id => (id, some (demoParty id))) }
      { partyID := demoParty "A" } := by
  refine ⟨rfl, by simp [GoMap.WF, GoMap.keys], ?_⟩
  intro kv hkv
  simp only [List.map_cons, List.map_nil, List.mem_cons, List.mem_singleton] at hkv
  rcases hkv with h | h | h | h | h
  · subst h; exact ⟨_, rfl, rfl⟩
  · subst h; exact ⟨_, rfl, rfl⟩
  · subst h; exact ⟨_, rfl, rfl⟩
  · subst h; exact ⟨_, rfl, rfl⟩
  · cases h

/-- C16, witness: party `A` among `S, A, B, C` with the round `r1` broadcast of
`S` archived blames `B` and `C`; with an empty archive it blames nobody. -/
theorem GetBroadcastBlame_spec_witness :
    (∃ nodes, (demoManager [("S-r1", some (demoBroadcast "S" "r1" [1]))] []).GetBroadcastBlame
        demoEnv listOrder "r1" = .ok (nodes, none) ∧
      nodes.Perm [NewNode "B" [] [], NewNode "C" [] []]) ∧
    (demoManager [] []).GetBroadcastBlame demoEnv listOrder "r1" = .ok ([], none) :=
  ⟨(GetBroadcastBlame_spec demoEnv listOrder
      (demoManager [("S-r1", some (demoBroadcast "S" "r1" [1]))] []) "r1" _ _ (fun id => id) rfl
      demoPartyInfo_wellFormed (by decide)
      (by
        intro kv hkv
        simp only [demoManager, List.mem_singleton] at hkv
        subst hkv
        exact ⟨_, rfl, fun _ => ⟨_, _, rfl, rfl⟩⟩)).1 ⟨"S", by decide⟩,
   (GetBroadcastBlame_spec demoEnv listOrder (demoManager [] []) "r1" _ _ (fun id => id) rfl
      demoPartyInfo_wellFormed (by decide)
      (by intro kv hkv; simp [demoManager] at hkv)).2 (fun _ => rfl)⟩

/-- C16 as stated fails: with a round archive that holds no message of round
`r1` (none at all, or only the round `r0` broadcast of `S`), `GetBroadcastBlame`
of party `A` among `S, A, B, C` returns no node, while none of the other parties
`S`, `B`, `C` has a message of round `r1` in the archive. -/
theorem GetBroadcastBlame_empty_round :
    (demoManager [] []).GetBroadcastBlame demoEnv listOrder "r1" = .ok ([], none) ∧
    (demoManager [("S-r0", some (demoBroadcast "S" "r0" [1]))] []).GetBroadcastBlame
      demoEnv listOrder "r1" = .ok ([], none) ∧
    (["S", "B", "C"].map (fun id =>
      (demoManager [("S-r0", some (demoBroadcast "S" "r0" [1]))] []).hasRoundMessage "r1" id)) =
      [false, false, false] := by
  refine ⟨by decide!, by decide!, by decide!⟩

theorem GoMap.mem_of_mem_range {β : Type} (ro : RangeOrder) (m : GoMap β) (kv : String × β)
    (h : kv ∈ GoMap.range ro m) : kv ∈ m := by
  unfold GoMap.range at h
  obtain ⟨k, _, hk⟩ := List.mem_filterMap.mp h
  cases hg : m.get? k with
  | none => rw [hg] at hk; cases hk
  | some v =>
    rw [hg] at hk
    simp only [Option.map_some', Option.some.injEq] at hk
    subst hk
    exact GoMap.mem_of_get?_eq_some m k v hg

theorem partiesNotInList_ok (m : Manager) (pi : PartyInfo) (party : Party)
    (hpi : m.partyInfo = some pi) (hparty : pi.Party = some party) (peers : List String) :
    ∀ l : GoMap String,
      m.partiesNotInList peers l =
        .ok ((l.filter (fun kv => kv.1 ≠ party.partyID.Id ∧ kv.2 ∉ peers)).map Prod.fst) := by
  intro l
  induction l with
  | nil => rfl
  | cons kv rest ih =>
    obtain ⟨k, v⟩ := kv
    simp only [Manager.partiesNotInList, hpi, hparty, ih]
    by_cases hk : party.partyID.Id = k
    · have hk' : ¬ (k ≠ party.partyID.Id ∧ v ∉ peers) := fun h => h.1 hk.symm
      rw [if_pos hk, List.filter_cons_of_neg (by simpa using hk')]
    · have hk1 : k ≠ party.partyID.Id := fun h => hk h.symm
      rw [if_neg hk]
      by_cases hv : v ∈ peers
      · have hany : peers.any (fun each => v == each) = true := by
          rw [List.any_eq_true]; exact ⟨v, hv, by simp⟩
        have hk' : ¬ (k ≠ party.partyID.Id ∧ v ∉ peers) := fun h => h.2 hv
        simp only [hany, Bool.not_true, Bool.false_eq_true, if_false]
        rw [List.filter_cons_of_neg (by simpa using hk')]
      · have hany : peers.any (fun each => v == each) = false := by
          rw [List.any_eq_false]
          intro x hx hxe
          exact hv (by rw [(by simpa using hxe : v = x)]; exact hx)
        have hk' : (k ≠ party.partyID.Id ∧ v ∉ peers) := ⟨hk1, hv⟩
        simp only [hany, Bool.not_false, if_true]
        rw [List.filter_cons_of_pos (by simpa using hk'), List.map_cons]

/-- C17 (as amended): in a session whose party info is set and whose parties
have public keys (`pkOf id` for the party `id`): when a unicast of the round `r`
has been recorded by `SetLastUnicastPeer` (from the peers `peersID`),
`GetUnicastBlame r` returns, with a nil error, one node (public key, empty
evidence) for each party other than the local one whose peer is not among
`peersID`, and no other node; when no unicast of any round has been recorded it
returns no node; and when unicasts have been recorded but none of round `r` it
returns an error. -/
theorem GetUnicastBlame_spec (env : Env) (ro : RangeOrder) (m : Manager) (r : String)
    (pi : PartyInfo) (party : Party) (pkOf : String → String)
    (hpi : m.partyInfo = some pi) (hparty : pi.Party = some party)
    (hmap : m.PartyIDtoP2PID.WF)
    (hpk : ∀ kv ∈ m.PartyIDtoP2PID, ∃ p, pi.PartyIDMap.get? kv.1 = some p ∧
      PartyIDtoPubKey env p = .ok (pkOf kv.1)) :
    (∀ peersID, m.lastUnicastPeer.get? r = some peersID →
      ∃ nodes, m.GetUnicastBlame env ro r = .ok (nodes, none) ∧
        nodes.Perm ((m.PartyIDtoP2PID.filter
          (fun kv => kv.1 ≠ party.partyID.Id ∧ kv.2 ∉ peersID)).map
          (fun kv => NewNode (pkOf kv.1) [] []))) ∧
    (m.lastUnicastPeer = [] → m.GetUnicastBlame env ro r = .ok ([], none)) ∧
    (m.lastUnicastPeer ≠ [] → m.lastUnicastPeer.get? r = none →
      m.GetUnicastBlame env ro r =
        .ok ([], some (.wrap "fail to find peers of the given msg type " .ErrTssTimeOut))) := by
  refine ⟨?_, ?_, ?_⟩
  · intro peersID hrec
    have hlen : m.lastUnicastPeer.length ≠ 0 := by
      intro h0
      rw [List.length_eq_zero.mp h0] at hrec
      cases hrec
    have honline : ∀ x, x ∈ ro.order peersID.dedup ↔ x ∈ peersID :=
      fun x => (ro.perm _).mem_iff.trans List.mem_dedup
    -- the parties in the list have public keys
    have hin := AccPubKeysFromPartyIDs_ok env pi.PartyIDMap pkOf
      ((GoMap.range ro m.PartyIDtoP2PID).flatMap
        (fun kv => ((ro.order peersID.dedup).filter (fun el => el = kv.2)).map (fun _ => kv.1)))
      (by
        intro id hid
        obtain ⟨kv, hkv, hx⟩ := List.mem_flatMap.mp hid
        obtain ⟨_, _, he⟩ := List.mem_map.mp hx
        rw [← he]
        exact hpk kv (GoMap.mem_of_mem_range ro _ kv hkv))
    have hnot := partiesNotInList_ok m pi party hpi hparty (ro.order peersID.dedup)
      (GoMap.range ro m.PartyIDtoP2PID)
    have hout := AccPubKeysFromPartyIDs_ok env pi.PartyIDMap pkOf
      (((GoMap.range ro m.PartyIDtoP2PID).filter
        (fun kv => kv.1 ≠ party.partyID.Id ∧ kv.2 ∉ ro.order peersID.dedup)).map Prod.fst)
      (by
        intro id hid
        obtain ⟨kv, hkv, he⟩ := List.mem_map.mp hid
        rw [← he]
        exact hpk kv (GoMap.mem_of_mem_range ro _ kv (List.mem_of_mem_filter hkv)))
    refine ⟨(((((GoMap.range ro m.PartyIDtoP2PID).filter
        (fun kv => kv.1 ≠ party.partyID.Id ∧ kv.2 ∉ ro.order peersID.dedup)).map Prod.fst).map
        pkOf).map (fun el => NewNode el [] [])), ?_, ?_⟩
    · unfold Manager.GetUnicastBlame Manager.GetBlamePubKeysLists Manager.getBlamePubKeysInList
        Manager.getBlamePubKeysNotInList
      simp only [if_neg hlen, hrec, hpi, hin, hnot, hout]
    · rw [List.map_map, List.map_map]
      have hfilter : ∀ l : GoMap String,
          l.filter (fun kv => kv.1 ≠ party.partyID.Id ∧ kv.2 ∉ ro.order peersID.dedup) =
          l.filter (fun kv => kv.1 ≠ party.partyID.Id ∧ kv.2 ∉ peersID) := by
        intro l
        apply List.filter_congr
        intro kv _
        simp only [honline]
      rw [hfilter]
      exact ((GoMap.range_perm ro m.PartyIDtoP2PID hmap).filter _).map _
  · intro hnil
    unfold Manager.GetUnicastBlame
    rw [hnil]
    rfl
  · intro hne hnone
    have hlen : m.lastUnicastPeer.length ≠ 0 := fun h0 => hne (List.length_eq_zero.mp h0)
    unfold Manager.GetUnicastBlame
    simp only [if_neg hlen, hnone]
/-- C17, witness: party `A` among `S, A, B, C` with a round `r1` unicast of
`S` recorded blames `B` and `C`; with no record it blames nobody; with a record
of round `r0` only it returns an error. -/
theorem GetUnicastBlame_spec_witness :
    (∃ nodes, (demoManager [] [("r1", ["peerS"])]).GetUnicastBlame demoEnv listOrder "r1" =
        .ok (nodes, none) ∧
      nodes.Perm [NewNode "B" [] [], NewNode "C" [] []]) ∧
    (demoManager [] []).GetUnicastBlame demoEnv listOrder "r1" = .ok ([], none) ∧
    (demoManager [] [("r0", ["peerS"])]).GetUnicastBlame demoEnv listOrder "r1" =
      .ok ([], some (.wrap "fail to find peers of the given msg type " .ErrTssTimeOut)) :=
  ⟨(GetUnicastBlame_spec demoEnv listOrder (demoManager [] [("r1", ["peerS"])]) "r1" _
      { partyID := demoParty "A" } (fun id => id) rfl rfl (by simp [GoMap.WF, GoMap.keys, demoManager, demoSession])
      (by decide!)).1 ["peerS"] rfl,
   (GetUnicastBlame_spec demoEnv listOrder (demoManager [] []) "r1" _
      { partyID := demoParty "A" } (fun id => id) rfl rfl (by simp [GoMap.WF, GoMap.keys, demoManager, demoSession])
      (by decide!)).2.1 rfl,
   (GetUnicastBlame_spec demoEnv listOrder (demoManager [] [("r0", ["peerS"])]) "r1" _
      { partyID := demoParty "A" } (fun id => id) rfl rfl (by simp [GoMap.WF, GoMap.keys, demoManager, demoSession])
      (by decide!)).2.2 (by decide) rfl⟩

/-- C17 as stated fails: when no unicast of any round has been recorded,
`GetUnicastBlame` of party `A` among `S, A, B, C` returns no node, though no
unicast of round `r1` was recorded from any of `S`, `B`, `C`; and when only a
unicast of round `r0` has been recorded it returns an error and no node. -/
theorem GetUnicastBlame_no_record :
    (demoManager [] []).lastUnicastPeer.get? "r1" = none ∧
    (demoManager [] []).GetUnicastBlame demoEnv listOrder "r1" = .ok ([], none) ∧
    (demoManager [] [("r0", ["peerS"])]).lastUnicastPeer.get? "r1" = none ∧
    (demoManager [] [("r0", ["peerS"])]).GetUnicastBlame demoEnv listOrder "r1" =
      .ok ([], some (.wrap "fail to find peers of the given msg type " .ErrTssTimeOut)) := by
  refine ⟨by decide, by decide!, by decide, by decide!⟩

/-! ## C18: blame for a share the crypto library rejects -/

theorem zipWith_map_map {α β γ δ : Type} (f : β → γ → δ) (g : α → β) (h : α → γ) :
    ∀ l : List α, List.zipWith f (l.map g) (l.map h) = l.map (fun x => f (g x) (h x)) := by
  intro l
  induction l with
  | nil => rfl
  | cons a rest ih => simp only [List.map_cons, List.zipWith_cons_cons, ih]

/-- C18: for a library error whose culprits are parties of `PartyIDMap` with
public keys (`pkOf id` for the party `id`), on a message with routing,
`processInvalidMsgBlame` sets the reason `HashCheckFail`, sets `IsUnicast` to
the negation of the message's `IsBroadcast`, and appends exactly one node per
culprit, in culprit order: the culprit's public key with the `Message` and `Sig`
of the round-archive entry under `culprit.Id-RoundInfo`, or with empty data and
signature when the archive has no such entry. -/
theorem processInvalidMsgBlame_spec (env : Env) (t : TssCommon) (wireMsg : WireMessage)
    (culprits : List PartyID) (routing : MessageRouting) (pi : PartyInfo)
    (pkOf : String → String)
    (hr : wireMsg.Routing = some routing) (hpi : t.partyInfo = some pi)
    (hc : ∀ c ∈ culprits, ∃ p, pi.PartyIDMap.get? c.Id = some p ∧
      PartyIDtoPubKey env p = .ok (pkOf c.Id)) :
    ∃ t' err, t.processInvalidMsgBlame env wireMsg culprits = .ok (t', some err) ∧
      t'.blameMgr.blame.FailReason = HashCheckFail ∧
      t'.blameMgr.blame.IsUnicast = (!routing.IsBroadcast) ∧
      t'.blameMgr.blame.BlameNodes = t.blameMgr.blame.BlameNodes ++
        culprits.map (fun c =>
          match t.blameMgr.roundGet (c.Id ++ "-" ++ wireMsg.RoundInfo) with
          | none => NewNode (pkOf c.Id) [] []
          | some stored => NewNode (pkOf c.Id) stored.Message stored.Sig) ∧
      (t'.blameMgr.blame.BlameNodes.length =
        t.blameMgr.blame.BlameNodes.length + culprits.length) := by
  have hacc := AccPubKeysFromPartyIDs_ok env pi.PartyIDMap pkOf (culprits.map (fun el => el.Id))
    (by
      intro id hid
      obtain ⟨c, hcm, he⟩ := List.mem_map.mp hid
      subst he
      exact hc c hcm)
  rw [List.map_map] at hacc
  refine ⟨{ t with blameMgr := { t.blameMgr with
      blame := t.blameMgr.blame.SetBlame HashCheckFail
        (culprits.map (fun c =>
          match t.blameMgr.roundGet (c.Id ++ "-" ++ wireMsg.RoundInfo) with
          | none => NewNode (pkOf c.Id) [] []
          | some stored => NewNode (pkOf c.Id) stored.Message stored.Sig))
        (!routing.IsBroadcast) } },
    .wrap "fail to set bytes to local party: " (.btss culprits), ?_, rfl, rfl, rfl, ?_⟩
  · unfold TssCommon.processInvalidMsgBlame
    simp only [hr, hpi, hacc]
    rw [zipWith_map_map]
    congr! 7 with c
  · simp [Blame.SetBlame]

/-- C18, witness: the three culprits of `TestProcessInvalidMsgBlame`'s shape;
the round messages of `S` and `B` are archived, that of `C` is not. -/
theorem processInvalidMsgBlame_spec_witness :
    ∃ t' err,
      ({ demoSession ["S", "A", "B", "C"] "A" with
          blameMgr := demoManager
            [("S-r1", some (demoBroadcast "S" "r1" [7])),
             ("B-r1", some (demoBroadcast "B" "r1" [8]))] [] }).processInvalidMsgBlame demoEnv
        (demoBroadcast "S" "r1" [9]) [demoParty "S", demoParty "B", demoParty "C"] =
        .ok (t', some err) ∧
      t'.blameMgr.blame.FailReason = HashCheckFail ∧
      t'.blameMgr.blame.IsUnicast = false ∧
      t'.blameMgr.blame.BlameNodes =
        [NewNode "S" [7] [], NewNode "B" [8] [], NewNode "C" [] []] :=
  have h := processInvalidMsgBlame_spec demoEnv
    { demoSession ["S", "A", "B", "C"] "A" with
        blameMgr := demoManager
          [("S-r1", some (demoBroadcast "S" "r1" [7])),
           ("B-r1", some (demoBroadcast "B" "r1" [8]))] [] }
    (demoBroadcast "S" "r1" [9]) [demoParty "S", demoParty "B", demoParty "C"]
    { From := some (demoParty "S"), To := [], IsBroadcast := true }
    { Party := some { partyID := demoParty "A" },
      PartyIDMap := ["S", "A", "B", "C"].map (fun id => (id, some (demoParty id))) }
    (fun id => id) rfl rfl
    (by
      intro c hc
      simp only [List.mem_cons, List.mem_singleton, List.not_mem_nil, or_false] at hc
      rcases hc with h | h | h <;> (subst h; exact ⟨_, rfl, rfl⟩))
  let ⟨t', err, h1, h2, h3, h4, _⟩ := h
  ⟨t', err, h1, h2, h3, h4.trans (by decide!)⟩

/-! ## C19: the signer check of `KeySign` -/

theorem GetThreshold_ok_of_nonneg (n : ℕ) : ∃ threshold, GetThreshold (n : ℤ) = .ok threshold := by
  unfold GetThreshold
  rw [if_neg (by omega)]
  exact ⟨_, rfl⟩

theorem MsgToHashString_ok (msg : Bytes) (h : msg ≠ []) :
    MsgToHashString msg = .ok (hexEncode (sha256 msg)) := by
  unfold MsgToHashString
  rw [if_neg (fun h0 => h (List.length_eq_zero.mp h0))]

/-- C19 (as amended): for every keysign request whose pool state is found,
whose message is valid base64 of a non-empty byte string and whose signer list
is non-empty, `KeySign` returns the error `not enough signers` (with an empty
response, whatever the party coordinator would do) exactly when the number of
signer public keys is at most `GetThreshold` of the number of participant keys
of the pool. -/
theorem KeySign_not_enough_signers (env : ServerEnv) (t : TssServer) (req : keysign.Request)
    (localStateItem : KeygenLocalState) (msgToSign : Bytes)
    (hstate : env.getLocalState req.PoolPubKey = .ok localStateItem)
    (hmsg : env.base64Decode req.Message = .ok msgToSign)
    (hne : msgToSign ≠ [])
    (hsig : req.SignerPubKeys ≠ []) :
    ∃ threshold, GetThreshold localStateItem.ParticipantKeys.length = .ok threshold ∧
      ((t.KeySign env req).2 = some (.new "not enough signers") ↔
        (req.SignerPubKeys.length : Int) ≤ threshold) ∧
      ((req.SignerPubKeys.length : Int) ≤ threshold →
        t.KeySign env req =
          ({ R := "", S := "", Status := .zero,
             Blame := { FailReason := "", IsUnicast := false, BlameNodes := [] } },
           some (.new "not enough signers"))) := by
  obtain ⟨threshold, hthr⟩ := GetThreshold_ok_of_nonneg localStateItem.ParticipantKeys.length
  have hlen : req.SignerPubKeys.length ≠ 0 := fun h0 => hsig (List.length_eq_zero.mp h0)
  have hid : t.requestToMsgId env (.keysignRequest req) = .ok (hexEncode (sha256 msgToSign)) := by
    simp only [TssServer.requestToMsgId, hmsg, MsgToHashString_ok msgToSign hne]
  refine ⟨threshold, hthr, ?_, ?_⟩
  · unfold TssServer.KeySign
    simp only [hid, hstate, hmsg, if_neg hlen, hthr]
    by_cases hle : (req.SignerPubKeys.length : Int) ≤ threshold
    · rw [if_pos hle]
      exact ⟨fun _ => hle, fun _ => rfl⟩
    · rw [if_neg hle]
      refine ⟨fun h => ?_, fun h => absurd h hle⟩
      exfalso
      repeat' split at h
      all_goals simp at h
  · intro hle
    unfold TssServer.KeySign
    simp only [hid, hstate, hmsg, if_neg hlen, hthr, if_pos hle]

/-- C19, witness: the pool of `k1, k2, k3` has threshold 1; one signer is not
enough. -/
theorem KeySign_not_enough_signers_witness :
    ∃ threshold, GetThreshold (["k1", "k2", "k3"].length : ℤ) = .ok threshold ∧
      ((TssServer.KeySign demoServerEnv { localNodePubKey := "k1" }
          { PoolPubKey := "pool", Message := "aGk=", SignerPubKeys := ["k1"] }).2 =
          some (.new "not enough signers") ↔ (([ "k1" ].length : ℕ) : ℤ) ≤ threshold) ∧
      (((["k1"].length : ℕ) : ℤ) ≤ threshold →
        TssServer.KeySign demoServerEnv { localNodePubKey := "k1" }
          { PoolPubKey := "pool", Message := "aGk=", SignerPubKeys := ["k1"] } =
          ({ R := "", S := "", Status := .zero,
             Blame := { FailReason := "", IsUnicast := false, BlameNodes := [] } },
           some (.new "not enough signers"))) :=
  KeySign_not_enough_signers demoServerEnv { localNodePubKey := "k1" }
    { PoolPubKey := "pool", Message := "aGk=", SignerPubKeys := ["k1"] }
    { PubKey := "pool", ParticipantKeys := ["k1", "k2", "k3"], LocalPartyKey := "k1" }
    [104, 105] rfl (by decide!) (by decide) (by decide)

/-- C19 as stated fails: the empty string is valid base64 (of the empty
message); for the request with this message and one signer for the pool of
`k1, k2, k3` (threshold 1), `KeySign` returns the error `empty message`, from
`requestToMsgId`, and not `not enough signers`. -/
theorem KeySign_empty_message :
    demoServerEnv.base64Decode "" = .ok [] ∧
    demoServerEnv.getLocalState "pool" =
      .ok { PubKey := "pool", ParticipantKeys := ["k1", "k2", "k3"], LocalPartyKey := "k1" } ∧
    GetThreshold (["k1", "k2", "k3"].length : ℤ) = .ok 1 ∧
    (TssServer.KeySign demoServerEnv { localNodePubKey := "k1" }
      { PoolPubKey := "pool", Message := "", SignerPubKeys := ["k1"] }).2 =
      some (.new "empty message") := by
  refine ⟨by decide, by decide, by decide!, by decide!⟩
/-! ## C20: `requestToMsgId` -/

theorem sortStrings_perm (keys : List String) : (sortStrings keys).Perm keys :=
  List.perm_insertionSort _ keys

theorem sortStrings_sorted (keys : List String) :
    (sortStrings keys).Sorted (fun a b => a ≤ b) :=
  List.sorted_insertionSort _ keys

theorem sortStrings_eq_of_perm (keys keys' : List String) (h : keys'.Perm keys) :
    sortStrings keys' = sortStrings keys :=
  List.eq_of_perm_of_sorted
    ((sortStrings_perm keys').trans (h.trans (sortStrings_perm keys).symm))
    (sortStrings_sorted keys') (sortStrings_sorted keys)

/-- C20: for keygen requests the msgID does not depend on the order of the
keys: for every key list and every permutation of it `requestToMsgId` returns
the same result, `MsgToHashString` of the concatenation of the keys in sorted
order; for a keysign request it returns `MsgToHashString` of the
base64-decoded message, and the decoding error for a message that does not
decode. -/
theorem requestToMsgId_spec (env : ServerEnv) (t : TssServer) :
    (∀ keys keys' : List String, keys'.Perm keys →
      t.requestToMsgId env (.keygenRequest { Keys := keys' }) =
        t.requestToMsgId env (.keygenRequest { Keys := keys }) ∧
      ∃ sorted : List String, sorted.Perm keys ∧ sorted.Sorted (fun a b => a ≤ b) ∧
        t.requestToMsgId env (.keygenRequest { Keys := keys }) =
          MsgToHashString (bytesOfString (sorted.foldl (fun acc el => acc ++ el) ""))) ∧
    (∀ (req : keysign.Request) (msgToSign : Bytes),
      env.base64Decode req.Message = .ok msgToSign →
      t.requestToMsgId env (.keysignRequest req) = MsgToHashString msgToSign) ∧
    (∀ (req : keysign.Request) (err : GoError),
      env.base64Decode req.Message = .error err →
      t.requestToMsgId env (.keysignRequest req) = .error err) := by
  refine ⟨fun keys keys' h => ⟨?_, sortStrings keys, sortStrings_perm keys,
    sortStrings_sorted keys, rfl⟩, fun req msgToSign h => ?_, fun req err h => ?_⟩
  · simp only [TssServer.requestToMsgId, sortStrings_eq_of_perm keys keys' h]
  · simp only [TssServer.requestToMsgId, h]
  · simp only [TssServer.requestToMsgId, h]

/-- C20, witness: the keys `b, a, c` and `c, b, a`; the message `aGk=` (the
bytes of `hi`) and the undecodable message `aGk`. -/
theorem requestToMsgId_spec_witness :
    (TssServer.requestToMsgId demoServerEnv { localNodePubKey := "k1" }
        (.keygenRequest { Keys := ["c", "b", "a"] }) =
      TssServer.requestToMsgId demoServerEnv { localNodePubKey := "k1" }
        (.keygenRequest { Keys := ["b", "a", "c"] }) ∧
      ∃ sorted : List String, sorted.Perm ["b", "a", "c"] ∧ sorted.Sorted (fun a b => a ≤ b) ∧
        TssServer.requestToMsgId demoServerEnv { localNodePubKey := "k1" }
            (.keygenRequest { Keys := ["b", "a", "c"] }) =
          MsgToHashString (bytesOfString (sorted.foldl (fun acc el => acc ++ el) ""))) ∧
    TssServer.requestToMsgId demoServerEnv { localNodePubKey := "k1" }
        (.keysignRequest { PoolPubKey := "pool", Message := "aGk=", SignerPubKeys := [] }) =
      MsgToHashString [104, 105] ∧
    TssServer.requestToMsgId demoServerEnv { localNodePubKey := "k1" }
        (.keysignRequest { PoolPubKey := "pool", Message := "aGk", SignerPubKeys := [] }) =
      .error (.new "illegal base64 data") :=
  ⟨(requestToMsgId_spec demoServerEnv { localNodePubKey := "k1" }).1 ["b", "a", "c"]
      ["c", "b", "a"]
      ((List.Perm.swap "b" "c" ["a"]).trans ((List.Perm.swap "a" "c" []).cons "b")),
   (requestToMsgId_spec demoServerEnv { localNodePubKey := "k1" }).2.1
      { PoolPubKey := "pool", Message := "aGk=", SignerPubKeys := [] } [104, 105] (by decide!),
   (requestToMsgId_spec demoServerEnv { localNodePubKey := "k1" }).2.2
      { PoolPubKey := "pool", Message := "aGk", SignerPubKeys := [] }
      (.new "illegal base64 data") (by decide!)⟩

/-- The msgID of a keygen request for the keys `b, a, c` is the SHA-256 of
`abc`. -/
theorem requestToMsgId_keygen_abc :
    TssServer.requestToMsgId demoServerEnv { localNodePubKey := "k1" }
        (.keygenRequest { Keys := ["b", "a", "c"] }) =
      .ok "ba7816bf8f01cfea414140de5dae2223b00361a396177a9cb410ff61f20015ad" := by
  decide!

/-! ## C21: `MsgToHashString` -/

theorem sha256Round_length (s : List Nat) (kw : Nat × Nat) (h : s.length = 8) :
    (sha256Round s kw).length = 8 := by
  rcases s with _ | ⟨a, _ | ⟨b, _ | ⟨c, _ | ⟨d, _ | ⟨e, _ | ⟨f, _ | ⟨g, _ | ⟨h', _ | ⟨i, s⟩⟩⟩⟩⟩⟩⟩⟩⟩ <;>
    simp at h
  rfl

theorem foldl_sha256Round_length (kws : List (Nat × Nat)) :
    ∀ s : List Nat, s.length = 8 → (kws.foldl sha256Round s).length = 8 := by
  induction kws with
  | nil => intro s h; exact h
  | cons kw rest ih => intro s h; exact ih _ (sha256Round_length s kw h)

theorem sha256Block_length (state : List Nat) (block : Bytes) (h : state.length = 8) :
    (sha256Block state block).length = 8 := by
  unfold sha256Block
  simp only [List.length_zipWith, foldl_sha256Round_length _ state h, h, min_self]

theorem sha256Blocks_length (n : Nat) :
    ∀ (state : List Nat) (data : Bytes), state.length = 8 →
      (sha256Blocks n state data).length = 8 := by
  induction n with
  | zero => intro state data h; exact h
  | succ n ih => intro state data h; exact ih _ _ (sha256Block_length state _ h)

theorem sha256_length (msg : Bytes) : (sha256 msg).length = 32 := by
  have h := sha256Blocks_length ((sha256Pad msg).length / 64) sha256Init (sha256Pad msg) rfl
  have hflat : ∀ l : List Nat, (l.flatMap
      (fun x => [x / 16777216 % 256, x / 65536 % 256, x / 256 % 256, x % 256])).length =
      4 * l.length := by
    intro l
    induction l with
    | nil => rfl
    | cons x rest ih =>
      simp only [List.flatMap_cons, List.length_append, ih, List.length_cons, List.length_nil]
      omega
  show (List.flatMap _ _).length = 32
  rw [hflat, h]

theorem hexEncode_length (b : Bytes) : (hexEncode b).length = 2 * b.length := by
  unfold hexEncode
  rw [String.length_mk]
  induction b with
  | nil => rfl
  | cons x rest ih => simp only [List.flatMap_cons, List.length_append, ih, List.length_cons,
      List.length_nil]; omega

theorem hexDigit_mem (n : Nat) (h : n < 16) : hexDigit n ∈ "0123456789abcdef".toList := by
  interval_cases n <;> decide

theorem hexEncode_lowercase (b : Bytes) :
    ∀ c ∈ (hexEncode b).toList, c ∈ "0123456789abcdef".toList := by
  intro c hc
  have hc : c ∈ b.flatMap (fun x => [hexDigit (x / 16 % 16), hexDigit (x % 16)]) := hc
  simp only [List.mem_flatMap, List.mem_cons, List.mem_singleton, List.not_mem_nil,
    or_false] at hc
  obtain ⟨x, _, hx | hx⟩ := hc
  · rw [hx]; exact hexDigit_mem _ (Nat.mod_lt _ (by norm_num))
  · rw [hx]; exact hexDigit_mem _ (Nat.mod_lt _ (by norm_num))

/-- C21: for every non-empty byte string `MsgToHashString` returns, with a nil
error, the hex encoding of the SHA-256 digest, which has 64 characters, all of
them lowercase hexadecimal digits; for `hello` it is the digest of the test; and
for an empty (or nil) message it returns an error. -/
theorem MsgToHashString_spec :
    (∀ msg : Bytes, msg ≠ [] →
      MsgToHashString msg = .ok (hexEncode (sha256 msg)) ∧
      (hexEncode (sha256 msg)).length = 64 ∧
      ∀ c ∈ (hexEncode (sha256 msg)).toList, c ∈ "0123456789abcdef".toList) ∧
    MsgToHashString (asciiBytes "hello") =
      .ok "2cf24dba5fb0a30e26e83b2ac5b9e29e1b161e5c1fa7425e73043362938b9824" ∧
    MsgToHashString [] = .error (.new "empty message") := by
  refine ⟨fun msg h => ⟨MsgToHashString_ok msg h, ?_, hexEncode_lowercase _⟩, by decide!, rfl⟩
  rw [hexEncode_length, sha256_length]

/-- C21, witness: the message `hello`. -/
theorem MsgToHashString_spec_witness :
    MsgToHashString (asciiBytes "hello") = .ok (hexEncode (sha256 (asciiBytes "hello"))) ∧
    (hexEncode (sha256 (asciiBytes "hello"))).length = 64 ∧
    ∀ c ∈ (hexEncode (sha256 (asciiBytes "hello"))).toList, c ∈ "0123456789abcdef".toList :=
  MsgToHashString_spec.1 (asciiBytes "hello") (by decide)
/-! ## C22: `GetPriKey` on a short key -/

theorem GetPriKey_of_decoded (r : Nat → Nat) (s : String) (priHexBytes rawBytes : Bytes)
    (h64 : base64DecodeString s = .ok priHexBytes)
    (hhex : hexDecodeString priHexBytes = .ok rawBytes) :
    GetPriKey r s =
      if 32 > r priHexBytes.length then
        .error ("slice bounds out of range [:32] with capacity " ++ toString (r priHexBytes.length))
      else
        .ok (some ((rawBytes ++ priHexBytes.drop rawBytes.length ++
          List.replicate (r priHexBytes.length - priHexBytes.length) 0).take 32), none) := by
  unfold GetPriKey
  simp only [h64, hhex]
  split_ifs with h
  · rfl
  · rw [List.take_take, min_eq_left (by omega)]

theorem GetPriKey_not_base64 (r : Nat → Nat) (s : String) (err : GoError)
    (h64 : base64DecodeString s = .error err) :
    GetPriKey r s = .ok (none, some (.wrap "fail to decode private key: " err)) := by
  unfold GetPriKey
  simp only [h64]

theorem GetPriKey_not_hex (r : Nat → Nat) (s : String) (priHexBytes : Bytes) (err : GoError)
    (h64 : base64DecodeString s = .ok priHexBytes)
    (hhex : hexDecodeString priHexBytes = .error err) :
    GetPriKey r s = .ok (none, some (.wrap "fail to hex decode private key: " err)) := by
  unfold GetPriKey
  simp only [h64, hhex]

/-- The two inputs of `TestGetPriKey` that are rejected: `whatever` is base64
of three bytes that are not hexadecimal text, and `d2hhdGV2ZXI=` is base64 of
the text `whatever`; both give a nil key and the error of the hex decoding. -/
theorem GetPriKey_test_rejections (capacity : Nat → Nat) :
    GetPriKey capacity "whatever" =
      .ok (none, some (.wrap "fail to hex decode private key: "
        (.new "encoding/hex: invalid byte: U+00C2 \x27Â\x27"))) ∧
    GetPriKey capacity "d2hhdGV2ZXI=" =
      .ok (none, some (.wrap "fail to hex decode private key: "
        (.new "encoding/hex: invalid byte: U+0077 \x27w\x27"))) :=
  ⟨GetPriKey_not_hex capacity "whatever" [194, 22, 173, 122, 247, 171] _ (by decide!)
      (by decide!),
   GetPriKey_not_hex capacity "d2hhdGV2ZXI=" (asciiBytes "whatever") _ (by decide!)
      (by decide!)⟩

/-- C22 fails on the code: `GetPriKey` does not check the length of the key.
For `YWFiYg==`, the base64 encoding of the hexadecimal text `aabb` of a two
byte key, both decodings succeed and `rawBytes[:32]` is evaluated on a slice
of two bytes.  Whatever capacity its backing array has, `GetPriKey` panics
(a capacity below 32) or returns a key and a nil error (a capacity of 32 or
more), the key being the two bytes followed by the rest of the text and
zeros; it never returns a nil key and an error. -/
theorem GetPriKey_short_key_not_rejected (capacity : Nat → Nat) :
    GetPriKey capacity "YWFiYg==" =
      if 32 > capacity 4 then
        .error ("slice bounds out of range [:32] with capacity " ++ toString (capacity 4))
      else .ok (some (([170, 187, 98, 98] ++ List.replicate (capacity 4 - 4) 0).take 32), none) :=
  GetPriKey_of_decoded capacity "YWFiYg==" [97, 97, 98, 98] [170, 187] (by decide!) (by decide)

/-! ## C23, C25: `getHighestFreq` -/

theorem perm_pair {α : Type} (l : List α) (a b : α) (h : l.Perm [a, b]) :
    l = [a, b] ∨ l = [b, a] := by
  have hl := h.length_eq
  rcases l with _ | ⟨x, _ | ⟨y, _ | ⟨z, l⟩⟩⟩ <;> simp at hl
  have hx : x ∈ [a, b] := h.subset (List.mem_cons_self _ _)
  have hy : y ∈ [a, b] := h.subset (List.mem_cons_of_mem _ (List.mem_cons_self _ _))
  have ha : a ∈ [x, y] := h.symm.subset (List.mem_cons_self _ _)
  have hb : b ∈ [x, y] := h.symm.subset (List.mem_cons_of_mem _ (List.mem_cons_self _ _))
  simp only [List.mem_cons, List.mem_singleton, List.not_mem_nil, or_false] at hx hy ha hb
  rcases hx with hx | hx <;> rcases hy with hy | hy <;> subst hx <;> subst hy
  · rcases hb with hb | hb <;> subst hb <;> exact Or.inl rfl
  · exact Or.inl rfl
  · exact Or.inr rfl
  · rcases ha with ha | ha <;> subst ha <;> exact Or.inl rfl

/-- C23 fails on the code: with ten peers attesting `aa` and two attesting `bb`,
`getHighestFreq` returns `bb` with the frequency 2, in whatever order the
runtime ranges over the map: the counts are compared as the decimal strings `10`
and `2`. -/
theorem getHighestFreq_decimal_strings (env : Env) :
    getHighestFreq env tenAndTwo = .ok ("bb", 2) ∧
    (tenAndTwo.filter (fun p => p.2 = "aa")).length = 10 := by
  refine ⟨?_, by decide⟩
  have hc : countFreq tenAndTwo = [("bb", 2), ("aa", 10)] := by decide
  have hp := env.rangeFreq_perm (countFreq tenAndTwo)
  rw [hc] at hp
  unfold getHighestFreq
  rw [if_neg (by decide)]
  simp only [hc]
  rcases perm_pair _ _ _ hp with h | h <;> rw [h] <;> decide!

/-- C25 fails on the code: for the list in which peer `p1` attests `aa` and
peer `p2` attests `bb`, `getHighestFreq` returns `bb` when the runtime ranges
over the map of frequencies in one order and `aa` when it ranges in the
other. -/
theorem getHighestFreq_tie_by_order :
    getHighestFreq demoEnv [("p1", "aa"), ("p2", "bb")] = .ok ("bb", 1) ∧
    getHighestFreq reverseEnv [("p1", "aa"), ("p2", "bb")] = .ok ("aa", 1) := by
  refine ⟨by decide!, by decide!⟩
/-! ## C24: no hash reaches `threshold - 1` attestations -/

/-- C24 (as amended): for a cache entry that holds the broadcast of sender `S`,
whose `ConfirmedList` has at least `threshold` entries and does not contain
`S`'s peer, and in which no hash is attested by `threshold - 1` peers,
`applyShare` does not wait: it returns `ErrHashCheck` and, when the blame
manager finds `S`'s public key, blames `S` with the broadcast and its signature
as evidence; it does not apply the message to the local party and leaves the
cache as it is. -/
theorem applyShare_hash_inconsistency (env : Env) (t : TssCommon) (item : LocalCacheItem)
    (threshold : Int) (key : String) (msgType : THORChainTSSMessageType)
    (msg : WireMessage) (routing : MessageRouting) (S : PartyID) (pS : String)
    (pi : PartyInfo) (owner : Option PartyID) (pk : String)
    (hmsg : item.Msg = some msg) (hr : msg.Routing = some routing)
    (hS : routing.From = some S)
    (hp : t.PartyIDtoP2PID.get? S.Id = some pS)
    (hth : threshold ≤ item.TotalConfirmParty)
    (hown : pS ∉ item.ConfirmedList.keys)
    (hfreq : ∀ h, ((item.ConfirmedList.filter (fun p => p.2 = h)).length : Int) < threshold - 1)
    (hpi : t.blameMgr.partyInfo = some pi)
    (ho : pi.PartyIDMap.get? S.Id = some owner)
    (hpk : PartyIDtoPubKey env owner = .ok pk) :
    ∃ t', t.applyShare env item threshold key msgType = .ok (t', some .ErrHashCheck) ∧
      t'.blameMgr.blame.FailReason = HashCheckFail ∧
      t'.blameMgr.blame.BlameNodes =
        t.blameMgr.blame.BlameNodes ++ [NewNode pk msg.Message msg.Sig] ∧
      t'.partyUpdates = t.partyUpdates ∧
      t'.unConfirmedMessages = t.unConfirmedMessages := by
  have hhash : ∃ err, getMsgHash env item threshold = .error err ∧
      (err = .ErrHashCheck ∨ err = .ErrHashInconsistency) := by
    unfold getMsgHash
    cases hg : getHighestFreq env item.ConfirmedList with
    | error e => exact ⟨_, rfl, Or.inl rfl⟩
    | ok r =>
      obtain ⟨h, f⟩ := r
      have hf := (getHighestFreq_ok env item.ConfirmedList h f hg).1
      have hlt : f < threshold - 1 := by rw [hf]; exact hfreq h
      simp only [if_pos hlt]
      exact ⟨_, rfl, Or.inr rfl⟩
  obtain ⟨err, hhash, herr⟩ := hhash
  have hcheck : t.hashCheck env item threshold = .ok (item, some err) := by
    unfold TssCommon.hashCheck
    simp only [hmsg, hr, hS, hp]
    rw [if_neg (not_lt.mpr hth), if_neg hown]
    simp only [hhash]
  have hblame : Manager.TssWrongShareBlame env t.blameMgr (some msg) = .ok (.ok pk) := by
    unfold Manager.TssWrongShareBlame
    simp only [hr, hS, hpi, ho, hpk]
  have e1 : err.is .ErrNotEnoughPeer = false := by rcases herr with h | h <;> subst h <;> decide
  have e2 : err.is .ErrNotMajority = false := by rcases herr with h | h <;> subst h <;> decide
  have e3 : err.is .ErrHashFromOwner = false := by rcases herr with h | h <;> subst h <;> decide
  refine ⟨{ t with blameMgr := { t.blameMgr with
      blame := t.blameMgr.blame.SetBlame HashCheckFail [NewNode pk msg.Message msg.Sig]
        (!routing.IsBroadcast) } }, ?_, rfl, rfl, rfl, rfl⟩
  unfold TssCommon.applyShare
  simp only [hmsg, hr, hcheck, e1, e2, e3, Bool.false_eq_true, if_false, hblame]

/-- C24, witness: party `A` of a five party session (`threshold = 3`) holds
`S`'s broadcast with three attestations of three different hashes. -/
theorem applyShare_hash_inconsistency_witness :
    ∃ t', (demoSession ["S", "A", "B", "C", "D"] "A").applyShare demoEnv disagreeingEntry 3
        "S-r1" TSSKeyGenMsg = .ok (t', some .ErrHashCheck) ∧
      t'.blameMgr.blame.FailReason = HashCheckFail ∧
      t'.blameMgr.blame.BlameNodes = [] ++ [NewNode "S" [1, 2] []] ∧
      t'.partyUpdates = [] ∧
      t'.unConfirmedMessages = [] :=
  applyShare_hash_inconsistency demoEnv (demoSession ["S", "A", "B", "C", "D"] "A")
    disagreeingEntry 3 "S-r1" TSSKeyGenMsg (demoBroadcast "S" "r1" [1, 2])
    { From := some (demoParty "S"), To := [], IsBroadcast := true } (demoParty "S") "peerS"
    { Party := some { partyID := demoParty "A" },
      PartyIDMap := ["S", "A", "B", "C", "D"].map (fun id => (id, some (demoParty id))) }
    (some (demoParty "S")) "S" rfl rfl rfl (by decide) (by decide) (by decide)
    (by
      intro h
      by_cases h1 : h = "a12871fee210fb8619291eaea194581cbd2531e4b23759d225f6806923f63222"
      · subst h1; decide
      · by_cases h2 : h = "x"
        · subst h2; decide
        · by_cases h3 : h = "y"
          · subst h3; decide
          · have e1 : ¬ "a12871fee210fb8619291eaea194581cbd2531e4b23759d225f6806923f63222" = h := fun e => h1 e.symm
            have e2 : ¬ "x" = h := fun e => h2 e.symm
            have e3 : ¬ "y" = h := fun e => h3 e.symm
            simp [disagreeingEntry, List.filter, e1, e2, e3])
    rfl (by decide) rfl

/-- C24 as stated fails: in the five party session (`GetThreshold 5 = 3`) with
three attestations of three different hashes, `applyShare` returns
`ErrHashCheck`, not nil, and the blame record holds a node for `S`. -/
theorem applyShare_blames_on_inconsistency :
    GetThreshold 5 = .ok 3 ∧
    ((demoSession ["S", "A", "B", "C", "D"] "A").applyShare demoEnv disagreeingEntry 3 "S-r1"
        TSSKeyGenMsg).map (fun r => (r.2, r.1.blameMgr.blame)) =
      .ok (some .ErrHashCheck,
        { FailReason := HashCheckFail, IsUnicast := false,
          BlameNodes := [NewNode "S" [1, 2] []] }) := by
  refine ⟨by decide!, by decide!⟩

/-! ## C26: a message of an unknown party -/

theorem updateLocal_unknown_party (env : Env) (t : TssCommon) (w : WireMessage)
    (routing : MessageRouting) (sender : PartyID) (pi : PartyInfo)
    (hr : w.Routing = some routing) (hfrom : routing.From = some sender)
    (hpi : t.partyInfo = some pi) (hunknown : pi.PartyIDMap.get? sender.Id = none) :
    t.updateLocal env (some w) = .error "nil pointer dereference: partyID.Id" := by
  unfold TssCommon.updateLocal
  simp only [hr, hfrom, hpi, hunknown]

/-- C26 as stated fails: `updateLocal` of party `A` in the session of
`S, A, B, C`, called with a unicast message whose sender `X` is not a key of
`PartyIDMap`, does not return an error; it panics while it formats the error,
reading `partyID.Id` of the nil `partyID` that the failed map lookup returned. -/
theorem updateLocal_unknown_party_panics :
    (demoSession ["S", "A", "B", "C"] "A").updateLocal demoEnv
      (some (demoUnicast "X" "r1" [1])) = .error "nil pointer dereference: partyID.Id" := by
  decide!

theorem senderKnown_of_verified {env : Env} {t : TssCommon} {W : WireMessage}
    (h : Verified env t W) : SenderKnown t (some W) := by
  obtain ⟨routing, sender, pi, party, h1, h2, h3, h4, _⟩ := h
  intro W' routing' sender' pi' hW hr hf hpi
  cases hW
  rw [h1] at hr; cases hr
  rw [h2] at hf; cases hf
  rw [h3] at hpi; cases hpi
  rw [h4]; simp

theorem senderKnown_of_itemGood {env : Env} {t : TssCommon} {item : LocalCacheItem}
    (h : ItemGood env t item) : SenderKnown t item.Msg := by
  intro W routing sender pi hW hr hf hpi
  exact senderKnown_of_verified (h W hW).2 W routing sender pi rfl hr hf hpi

theorem processInvalidMsgBlame_other_panic (env : Env) (t : TssCommon) (w : WireMessage)
    (culprits : List PartyID) :
    t.processInvalidMsgBlame env w culprits ≠ .error "nil pointer dereference: partyID.Id" := by
  unfold TssCommon.processInvalidMsgBlame
  intro h
  split at h
  · simp at h
  · dsimp only at h
    split at h
    · simp at h
    · split at h <;> cases h

/-- With a sender that is a key of `PartyIDMap`, `updateLocal` does not reach
the branch that reads `partyID.Id` of a nil `partyID`. -/
theorem updateLocal_sender_known (env : Env) (t : TssCommon) (wm : Option WireMessage)
    (hk : SenderKnown t wm) :
    t.updateLocal env wm ≠ .error "nil pointer dereference: partyID.Id" := by
  unfold TssCommon.updateLocal
  intro h
  split at h
  · cases h
  · rename_i w
    split at h
    · cases h
    · rename_i routing hr
      split at h
      · cases h
      · rename_i sender hfrom
        split at h
        · cases h
        · rename_i partyInfo hpi
          split at h
          · rename_i hnone
            exact hk w routing sender partyInfo rfl hr hfrom hpi hnone
          · split at h
            · cases h
            · dsimp only at h
              split at h
              · simp at h
              · split at h
                · exact processInvalidMsgBlame_other_panic env _ _ _ h
                · cases h

theorem hashCheck_other_panic (env : Env) (t : TssCommon) (item : LocalCacheItem)
    (threshold : Int) :
    t.hashCheck env item threshold ≠ .error "nil pointer dereference: partyID.Id" := by
  unfold TssCommon.hashCheck
  intro h
  repeat' split at h
  all_goals first | cases h | (dsimp only at h; split_ifs at h) | simp at h

theorem TssWrongShareBlame_other_panic (env : Env) (m : Manager) (wm : Option WireMessage) :
    m.TssWrongShareBlame env wm ≠ .error "nil pointer dereference: partyID.Id" := by
  unfold Manager.TssWrongShareBlame
  intro h
  repeat' split at h
  all_goals first | cases h | simp at h

theorem processRequestMsgFromPeer_no_panic (t : TssCommon) (peersID : List String)
    (msg : Option TssControl) (requester : Bool) (p : String) :
    t.processRequestMsgFromPeer peersID msg requester ≠ .error p := by
  unfold TssCommon.processRequestMsgFromPeer
  intro h
  repeat' split at h
  all_goals cases h

theorem requestShareFromPeer_no_panic (env : Env) (t : TssCommon) (item : LocalCacheItem)
    (threshold : Int) (key : String) (msgType : THORChainTSSMessageType) (p : String) :
    t.requestShareFromPeer env item threshold key msgType ≠ .error p := by
  intro h
  cases hr : t.requestShareFromPeer env item threshold key msgType with
  | ok r => rw [hr] at h; cases h
  | error q =>
    exfalso
    unfold TssCommon.requestShareFromPeer at hr
    split at hr
    · cases hr
    · split at hr
      · cases hr
      · dsimp only at hr
        split at hr
        all_goals first
          | exact processRequestMsgFromPeer_no_panic _ _ _ _ _ hr
          | cases hr

/-- The message `applyShare` hands to `updateLocal` is the message of the entry:
with a known sender there, `applyShare` does not end in the panic of
`updateLocal` on an unknown party. -/
theorem applyShare_sender_known (env : Env) (t : TssCommon) (item : LocalCacheItem)
    (threshold : Int) (key : String) (msgType : THORChainTSSMessageType)
    (hk : SenderKnown t item.Msg) :
    t.applyShare env item threshold key msgType ≠
      .error "nil pointer dereference: partyID.Id" := by
  unfold TssCommon.applyShare
  intro h
  split at h
  · simp at h
  · split at h
    · simp at h
    · dsimp only at h
      cases hhc : t.hashCheck env item threshold with
      | error p =>
        rw [hhc] at h
        simp only [Except.error.injEq] at h
        rw [h] at hhc
        exact hashCheck_other_panic env t item threshold hhc
      | ok res =>
        obtain ⟨item1, err⟩ := res
        obtain ⟨hm1, _⟩ := hashCheck_effect env t item item1 threshold err hhc
        rw [hhc] at h
        cases err with
        | some err =>
          dsimp only at h
          by_cases h1 : err.is .ErrNotEnoughPeer = true
          · rw [if_pos h1] at h; cases h
          · rw [if_neg h1] at h
            by_cases h2 : err.is .ErrNotMajority = true
            · rw [if_pos h2] at h
              exact requestShareFromPeer_no_panic env _ _ _ _ _ _ h
            · rw [if_neg h2] at h
              generalize (if err.is .ErrHashFromOwner = true then
                t.updateLocalUnconfirmedMessages key item1 else t) = t1 at h
              cases hb : t1.blameMgr.TssWrongShareBlame env item1.Msg with
              | error p =>
                simp only [hb, Except.error.injEq] at h
                rw [h] at hb
                exact TssWrongShareBlame_other_panic env _ _ hb
              | ok r =>
                simp only [hb] at h
                cases r <;> cases h
        | none =>
          dsimp only at h
          cases hul : TssCommon.updateLocal env
              { t with blameMgr := t.blameMgr.roundSet key item1.Msg } item1.Msg with
          | error p =>
            rw [hul] at h
            simp only [Except.error.injEq] at h
            rw [h] at hul
            refine updateLocal_sender_known env _ _ ?_ hul
            rw [hm1]
            exact hk
          | ok res2 =>
            obtain ⟨t2, e2⟩ := res2
            rw [hul] at h
            cases e2 <;> cases h

theorem processVerMsg_sender_known (env : Env) (t : TssCommon)
    (bMsg : Option BroadcastConfirmMessage) (msgType : THORChainTSSMessageType)
    (hc : CacheGood env t) :
    t.processVerMsg env bMsg msgType ≠ .error "nil pointer dereference: partyID.Id" := by
  intro h
  unfold TssCommon.processVerMsg at h
  split at h
  · cases h
  · rename_i bMsg
    split at h
    · cases h
    · dsimp only at h
      split at h
      · cases h
      · split at h
        · exact requestShareFromPeer_no_panic env _ _ _ _ _ _ h
        · refine applyShare_sender_known env _ _ _ _ _ ?_ h
          cases hget : t.TryGetLocalCacheItem bMsg.Key with
          | none =>
            intro W r s pi hW
            simp [NewLocalCacheItem, LocalCacheItem.UpdateConfirmList] at hW
          | some item =>
            have hs1 : SameSession t (t.updateLocalUnconfirmedMessages bMsg.Key
                (item.UpdateConfirmList bMsg.P2PID bMsg.Hash)) := ⟨rfl, rfl, rfl, rfl, rfl⟩
            exact senderKnown_of_itemGood ((hc.get? hget).of_same hs1)

theorem processTSSMsg_sender_known (env : Env) (t : TssCommon) (wm : Option WireMessage)
    (msgType : THORChainTSSMessageType) (forward : Bool) (hc : CacheGood env t) :
    t.processTSSMsg env wm msgType forward ≠ .error "nil pointer dereference: partyID.Id" := by
  intro h
  unfold TssCommon.processTSSMsg at h
  split at h
  · cases h
  · rename_i w
    split at h
    · cases h
    · rename_i routing hr
      split at h
      · cases h
      · rename_i sender hfrom
        split at h
        · simp at h
        · rename_i partyInfo hpi
          split at h
          · cases h
          · simp at h
          · rename_i dataOwner hparty
            dsimp only at h
            generalize ht0 : (if (!forward) = true then
                (t.receiverBroadcastHashToPeers w sender msgType).1 else t) = t0 at h
            by_cases hver : (!verifySignature env (pubKeyOfBytes dataOwner.Key) w.Message w.Sig
                t.msgID) = true
            · rw [if_pos hver] at h; cases h
            · rw [if_neg hver] at h
              have hv : Verified env t w :=
                ⟨routing, sender, partyInfo, dataOwner, hr, hfrom, hpi, hparty, by simpa using hver⟩
              by_cases hb : (!routing.IsBroadcast) = true
              · rw [if_pos hb] at h
                exact updateLocal_sender_known env t (some w) (senderKnown_of_verified hv) h
              · rw [if_neg hb] at h
                have hs0 : SameSession t t0 ∧ t0.unConfirmedMessages = t.unConfirmedMessages := by
                  rw [← ht0]
                  split_ifs
                  · have := receiverBroadcastHashToPeers_same t w sender msgType
                    exact ⟨this.1, this.2.1⟩
                  · exact ⟨SameSession.refl _, rfl⟩
                obtain ⟨hs0, hcache0⟩ := hs0
                have hc0 : CacheGood env t0 := hc.of_eq hs0 hcache0
                have hv0 : Verified env t0 w := hv.transfer hs0
                split at h
                · cases h
                · refine applyShare_sender_known env _ _ _ _ _ ?_ h
                  have hk : ∀ item : LocalCacheItem, SenderKnown t0 item.Msg →
                      SenderKnown (t0.updateLocalUnconfirmedMessages w.GetCacheKey
                        (item.UpdateConfirmList t0.localPeerID (BytesToHashString w.Message)))
                        (item.UpdateConfirmList t0.localPeerID (BytesToHashString w.Message)).Msg :=
                    fun item hk => hk
                  apply hk
                  cases hget : t0.TryGetLocalCacheItem w.GetCacheKey with
                  | none => exact senderKnown_of_verified hv0
                  | some item =>
                    dsimp only
                    cases hm : item.Msg with
                    | none => exact senderKnown_of_verified hv0
                    | some w1 =>
                      dsimp only
                      rw [hm]
                      exact hm ▸ senderKnown_of_itemGood (hc0.get? hget)

/-- In a session whose cache holds verified messages only, no call of
`ProcessOneMessage` ends in the panic of `updateLocal` on an unknown party. -/
theorem ProcessOneMessage_sender_known (env : Env) (t : TssCommon)
    (m : WrappedMessage) (peerID : String) (hc : CacheGood env t) :
    t.ProcessOneMessage env (some m) peerID ≠ .error "nil pointer dereference: partyID.Id" := by
  intro h
  have h0 := h
  unfold TssCommon.ProcessOneMessage at h
  dsimp only at h
  cases hty : m.MessageType <;> simp only [hty] at h
  · split at h
    · cases h
    · exact processTSSMsg_sender_known env _ _ _ _ hc h
  · split at h
    · cases h
    · exact processTSSMsg_sender_known env _ _ _ _ hc h
  · split at h
    · cases h
    · split_ifs at h
      exact processVerMsg_sender_known env _ _ _ hc h
  · split at h
    · cases h
    · split_ifs at h
      exact processVerMsg_sender_known env _ _ _ hc h
  · split at h
    · cases h
    · rename_i wireMsg _
      split at h
      · split_ifs at h
        exact processRequestMsgFromPeer_no_panic _ _ _ _ _ h
      · split_ifs at h
        refine processTSSMsg_sender_known env _ _ _ _ ?_ h
        exact hc.of_eq ⟨rfl, rfl, rfl, rfl, rfl⟩ rfl
  · rw [ProcessOneMessage_taskDone env t m peerID hty] at h0
    repeat' split at h0
    all_goals first | cases h0 | simp at h0
  · cases h

theorem processTSSMsg_unknown_sender (env : Env) (t : TssCommon) (w : WireMessage)
    (routing : MessageRouting) (sender : PartyID) (partyInfo : PartyInfo)
    (msgType : THORChainTSSMessageType) (forward : Bool)
    (hr : w.Routing = some routing) (hfrom : routing.From = some sender)
    (hpi : t.partyInfo = some partyInfo)
    (hunknown : partyInfo.PartyIDMap.get? sender.Id = none) :
    t.processTSSMsg env (some w) msgType forward =
      .ok (t, some (.new "error in find the data owner")) := by
  unfold TssCommon.processTSSMsg
  simp only [hr, hfrom, hpi, hunknown]

/-- C26 (amended): a wire message with routing whose sender is not a key of
`PartyIDMap` (party info being set) does not reach `updateLocal`.
`processTSSMsg`, through which every message passes before `updateLocal` is
called, returns the error `error in find the data owner` and leaves the session
as it was: the message is dropped, `UpdateFromBytes` is not called and no
unicast peer is recorded.  `ProcessOneMessage` drops it in the same way when it
comes as a `TSSKeyGenMsg` or `TSSKeySignMsg`.  And when the session has started
with an empty cache, no call of `ProcessOneMessage`, whatever the message, ends
in the failure of `updateLocal` on an unknown party. -/
theorem unknown_sender_dropped (env : Env) (t : TssCommon) (w : WireMessage)
    (routing : MessageRouting) (sender : PartyID) (partyInfo : PartyInfo)
    (hr : w.Routing = some routing) (hfrom : routing.From = some sender)
    (hpi : t.partyInfo = some partyInfo)
    (hunknown : partyInfo.PartyIDMap.get? sender.Id = none) :
    (∀ (msgType : THORChainTSSMessageType) (forward : Bool),
      t.processTSSMsg env (some w) msgType forward =
        .ok (t, some (.new "error in find the data owner"))) ∧
    (∀ (m : WrappedMessage) (peerID : String),
      m.MessageType = TSSKeyGenMsg ∨ m.MessageType = TSSKeySignMsg →
      m.Payload.wire = some w →
      t.ProcessOneMessage env (some m) peerID =
        .ok (t, some (.new "error in find the data owner"))) ∧
    (∀ (t0 : TssCommon) (msgs : List (WrappedMessage × String)) (m : WrappedMessage)
        (peerID : String),
      t0.unConfirmedMessages = [] → runMessages env t0 msgs = .ok t →
      t.ProcessOneMessage env (some m) peerID ≠
        .error "nil pointer dereference: partyID.Id") := by
  have h1 := fun msgType forward =>
    processTSSMsg_unknown_sender env t w routing sender partyInfo msgType forward hr hfrom hpi
      hunknown
  refine ⟨h1, ?_, ?_⟩
  · intro m peerID hty hpay
    unfold TssCommon.ProcessOneMessage
    rcases hty with hty | hty <;> simp only [hty, hpay] <;> exact h1 _ _
  · intro t0 msgs m peerID hempty hrun
    exact ProcessOneMessage_sender_known env t m peerID
      (CacheGood_run env msgs t0 t (CacheGood_of_empty env t0 hempty) hrun).2

/-- C26 in the session of party `A` with the parties `S, A, B, C`: a unicast
message of the stranger `X` is dropped with an error by `processTSSMsg` and by
`ProcessOneMessage`, and a pull response that carries it does not bring
`updateLocal` to its failure either. -/
theorem unknown_sender_dropped_witness :
    (demoSession ["S", "A", "B", "C"] "A").processTSSMsg demoEnv
        (some (demoUnicast "X" "r1" [1])) TSSKeyGenMsg false =
      .ok (demoSession ["S", "A", "B", "C"] "A", some (.new "error in find the data owner")) ∧
    (demoSession ["S", "A", "B", "C"] "A").ProcessOneMessage demoEnv
        (some (wrapWire (demoUnicast "X" "r1" [1]))) "peerX" =
      .ok (demoSession ["S", "A", "B", "C"] "A", some (.new "error in find the data owner")) ∧
    (demoSession ["S", "A", "B", "C"] "A").ProcessOneMessage demoEnv
        (some (wrapPullResponse "00" "X-r1" (demoUnicast "X" "r1" [1]))) "peerB" ≠
      .error "nil pointer dereference: partyID.Id" :=
  have h := unknown_sender_dropped demoEnv (demoSession ["S", "A", "B", "C"] "A")
    (demoUnicast "X" "r1" [1]) _ (demoParty "X") _ rfl rfl rfl (by decide!)
  ⟨h.1 TSSKeyGenMsg false, h.2.1 (wrapWire (demoUnicast "X" "r1" [1])) "peerX" (Or.inl rfl) rfl,
   h.2.2 (demoSession ["S", "A", "B", "C"] "A") [] _ "peerB" rfl rfl⟩

/-! ## C28: the peer a VerMsg is recorded under -/

theorem GoMap.get?_delete_some {β : Type} (m : GoMap β) (k q : String) (v : β)
    (h : (m.delete k).get? q = some v) : m.get? q = some v := by
  by_cases hq : q = k
  · subst hq
    rw [GoMap.get?_delete_self] at h
    cases h
  · rw [GoMap.get?_delete_of_ne m k q hq] at h
    exact h

/-- The entry `hashCheck` returns is the entry it was given, or, with
`ErrHashFromOwner`, that entry without the attestation of the peer of the data
owner. -/
theorem hashCheck_item (env : Env) (t : TssCommon) (item item' : LocalCacheItem)
    (threshold : Int) (e : Option GoError)
    (h : t.hashCheck env item threshold = .ok (item', e)) :
    item' = item ∨
    (e = some .ErrHashFromOwner ∧
      ∃ W routing owner p, item.Msg = some W ∧ W.Routing = some routing ∧
        routing.From = some owner ∧ t.PartyIDtoP2PID.get? owner.Id = some p ∧
        item' = { item with ConfirmedList := item.ConfirmedList.delete p }) := by
  unfold TssCommon.hashCheck at h
  split at h
  · cases h
  · rename_i W hW
    split at h
    · cases h
    · rename_i routing hr
      split at h
      · cases h
      · rename_i owner hfrom
        split at h
        · cases h; exact Or.inl rfl
        · rename_i p hp
          split_ifs at h
          · cases h; exact Or.inl rfl
          · cases h
            exact Or.inr ⟨rfl, W, routing, owner, p, hW, hr, hfrom, hp, rfl⟩
          · split at h
            · cases h; exact Or.inl rfl
            · dsimp only at h
              split_ifs at h <;> (cases h; exact Or.inl rfl)

/-- What `applyShare` does to the cache: nothing, or it removes the entry of
`key` (the share was applied), or it writes back the entry it was given
without its message (`ErrNotMajority`) or without the attestation of the peer
of the data owner (`ErrHashFromOwner`). -/
theorem applyShare_cache (env : Env) (t t' : TssCommon) (item : LocalCacheItem)
    (threshold : Int) (key : String) (msgType : THORChainTSSMessageType) (e : Option GoError)
    (h : t.applyShare env item threshold key msgType = .ok (t', e)) :
    t'.unConfirmedMessages = t.unConfirmedMessages ∨
    t'.unConfirmedMessages = t.unConfirmedMessages.delete key ∨
    ∃ item1, t'.unConfirmedMessages = t.unConfirmedMessages.set key item1 ∧
      (item1.ConfirmedList = item.ConfirmedList ∨
        ∃ W routing owner p, item1.Msg = some W ∧ W.Routing = some routing ∧
          routing.From = some owner ∧ t.PartyIDtoP2PID.get? owner.Id = some p ∧
          item1.ConfirmedList = item.ConfirmedList.delete p) := by
  unfold TssCommon.applyShare at h
  split at h
  · cases h
  · rename_i msg hmsg
    split at h
    · cases h
    · rename_i routing hr
      dsimp only at h
      cases hhc : t.hashCheck env item threshold with
      | error p => rw [hhc] at h; cases h
      | ok res =>
        obtain ⟨item1, err⟩ := res
        have hit := hashCheck_item env t item item1 threshold err hhc
        rw [hhc] at h
        cases err with
        | some err =>
          dsimp only at h
          by_cases h1 : err.is .ErrNotEnoughPeer = true
          · rw [if_pos h1] at h
            cases h
            exact Or.inl rfl
          · rw [if_neg h1] at h
            by_cases h2 : err.is .ErrNotMajority = true
            · rw [if_pos h2] at h
              obtain ⟨_, hc, _⟩ := requestShareFromPeer_effect env _ _ _ _ _ _ _ h
              refine Or.inr (Or.inr ⟨{ item1 with Msg := none }, hc, Or.inl ?_⟩)
              rcases hit with hit | ⟨he, _⟩
              · rw [hit]
              · simp only [Option.some.injEq] at he
                subst he
                exact absurd h2 (by decide)
            · rw [if_neg h2] at h
              have hcache : ∀ t1 : TssCommon,
                  (match t1.blameMgr.TssWrongShareBlame env item1.Msg with
                    | .error p => (Except.error p : Go (TssCommon × Option GoError))
                    | .ok (.error _) =>
                      .ok ({ t1 with blameMgr := { t1.blameMgr with
                              blame := t1.blameMgr.blame.SetBlame HashCheckFail []
                                (!routing.IsBroadcast) } },
                        some (.wrap "error in getting the blame nodes " .ErrHashCheck))
                    | .ok (.ok blamePk) =>
                      .ok ({ t1 with blameMgr := { t1.blameMgr with
                              blame := t1.blameMgr.blame.SetBlame HashCheckFail
                                [NewNode blamePk msg.Message msg.Sig] (!routing.IsBroadcast) } },
                        some .ErrHashCheck)) = .ok (t', e) →
                  t'.unConfirmedMessages = t1.unConfirmedMessages := by
                intro t1 h
                split at h
                · cases h
                · cases h; rfl
                · cases h; rfl
              by_cases h3 : err.is .ErrHashFromOwner = true
              · rw [if_pos h3] at h
                have := hcache _ h
                refine Or.inr (Or.inr ⟨item1, this, ?_⟩)
                rcases hit with hit | ⟨_, W, r, o, p, hW, hr', hf, hp, hi⟩
                · exact Or.inl (by rw [hit])
                · exact Or.inr ⟨W, r, o, p, by rw [hi]; exact hW, hr', hf, hp, by rw [hi]⟩
              · rw [if_neg h3] at h
                exact Or.inl (hcache _ h)
        | none =>
          dsimp only at h
          cases hul : TssCommon.updateLocal env
              { t with blameMgr := t.blameMgr.roundSet key item1.Msg } item1.Msg with
          | error p => rw [hul] at h; cases h
          | ok res2 =>
            obtain ⟨t2, e2⟩ := res2
            rw [hul] at h
            obtain ⟨_, hc, _⟩ := updateLocal_effect env _ _ _ _ hul
            cases e2 with
            | some err2 =>
              cases h
              exact Or.inl hc
            | none =>
              cases h
              refine Or.inr (Or.inl ?_)
              show t2.unConfirmedMessages.delete key = _
              rw [hc]

/-- What `processVerMsg` does to the cache when the party info is set: it
records the attestation `P2PID ↦ Hash` in the entry of `Key`, and then what
`applyShare` does. -/
theorem processVerMsg_cache (env : Env) (t t' : TssCommon) (b : BroadcastConfirmMessage)
    (msgType : THORChainTSSMessageType) (e : Option GoError) (partyInfo : PartyInfo)
    (item0 : LocalCacheItem) (hpi : t.partyInfo = some partyInfo)
    (h0 : t.unConfirmedMessages.get? b.Key = some item0 ∨
      (t.unConfirmedMessages.get? b.Key = none ∧ item0 = NewLocalCacheItem none b.Hash))
    (h : t.processVerMsg env (some b) msgType = .ok (t', e)) :
    t'.unConfirmedMessages =
      t.unConfirmedMessages.set b.Key (item0.UpdateConfirmList b.P2PID b.Hash) ∨
    t'.unConfirmedMessages =
      (t.unConfirmedMessages.set b.Key (item0.UpdateConfirmList b.P2PID b.Hash)).delete b.Key ∨
    ∃ item2, t'.unConfirmedMessages =
        (t.unConfirmedMessages.set b.Key (item0.UpdateConfirmList b.P2PID b.Hash)).set
          b.Key item2 ∧
      (item2.ConfirmedList = (item0.UpdateConfirmList b.P2PID b.Hash).ConfirmedList ∨
        ∃ W routing owner p, item2.Msg = some W ∧ W.Routing = some routing ∧
          routing.From = some owner ∧ t.PartyIDtoP2PID.get? owner.Id = some p ∧
          item2.ConfirmedList =
            (item0.UpdateConfirmList b.P2PID b.Hash).ConfirmedList.delete p) := by
  unfold TssCommon.processVerMsg at h
  simp only [hpi, TssCommon.TryGetLocalCacheItem] at h
  have htail : ∀ item : LocalCacheItem,
      (match GetThreshold partyInfo.PartyIDMap.length with
        | .error err =>
          (Except.ok (t.updateLocalUnconfirmedMessages b.Key
            (item.UpdateConfirmList b.P2PID b.Hash), some (GoError.new err)) :
            Go (TssCommon × Option GoError))
        | .ok threshold =>
          match (item.UpdateConfirmList b.P2PID b.Hash).Msg with
          | none =>
            (t.updateLocalUnconfirmedMessages b.Key
              (item.UpdateConfirmList b.P2PID b.Hash)).requestShareFromPeer env
              (item.UpdateConfirmList b.P2PID b.Hash) threshold b.Key msgType
          | some _ =>
            (t.updateLocalUnconfirmedMessages b.Key
              (item.UpdateConfirmList b.P2PID b.Hash)).applyShare env
              (item.UpdateConfirmList b.P2PID b.Hash) threshold b.Key msgType) = .ok (t', e) →
      t'.unConfirmedMessages =
        t.unConfirmedMessages.set b.Key (item.UpdateConfirmList b.P2PID b.Hash) ∨
      t'.unConfirmedMessages =
        (t.unConfirmedMessages.set b.Key (item.UpdateConfirmList b.P2PID b.Hash)).delete b.Key ∨
      ∃ item2, t'.unConfirmedMessages =
          (t.unConfirmedMessages.set b.Key (item.UpdateConfirmList b.P2PID b.Hash)).set
            b.Key item2 ∧
        (item2.ConfirmedList = (item.UpdateConfirmList b.P2PID b.Hash).ConfirmedList ∨
          ∃ W routing owner p, item2.Msg = some W ∧ W.Routing = some routing ∧
            routing.From = some owner ∧ t.PartyIDtoP2PID.get? owner.Id = some p ∧
            item2.ConfirmedList =
              (item.UpdateConfirmList b.P2PID b.Hash).ConfirmedList.delete p) := by
    intro item h
    split at h
    · cases h
      exact Or.inl rfl
    · split at h
      · obtain ⟨_, hc, _⟩ := requestShareFromPeer_effect env _ _ _ _ _ _ _ h
        exact Or.inl hc
      · exact applyShare_cache env _ _ _ _ _ _ _ h
  rcases h0 with h0 | ⟨h0, h1⟩
  · simp only [h0] at h
    exact htail item0 h
  · subst h1
    simp only [h0] at h
    exact htail _ h

/-- Whatever the entries of the cache attest after `processVerMsg`, they
attested it before, except for `P2PID ↦ Hash` in the entry of `Key`. -/
theorem processVerMsg_records_only (env : Env) (t t' : TssCommon)
    (b : BroadcastConfirmMessage) (msgType : THORChainTSSMessageType) (e : Option GoError)
    (h : t.processVerMsg env (some b) msgType = .ok (t', e))
    (key : String) (item' : LocalCacheItem) (q hsh : String)
    (hget : t'.unConfirmedMessages.get? key = some item')
    (hq : item'.ConfirmedList.get? q = some hsh) :
    (key = b.Key ∧ q = b.P2PID ∧ hsh = b.Hash) ∨
    ∃ item, t.unConfirmedMessages.get? key = some item ∧
      item.ConfirmedList.get? q = some hsh := by
  cases hpi : t.partyInfo with
  | none =>
    unfold TssCommon.processVerMsg at h
    simp only [hpi] at h
    cases h
    exact Or.inr ⟨item', hget, hq⟩
  | some partyInfo =>
    obtain ⟨item0, h0⟩ : ∃ item0, t.unConfirmedMessages.get? b.Key = some item0 ∨
        (t.unConfirmedMessages.get? b.Key = none ∧ item0 = NewLocalCacheItem none b.Hash) := by
      cases hg : t.unConfirmedMessages.get? b.Key with
      | none => exact ⟨_, Or.inr ⟨rfl, rfl⟩⟩
      | some item => exact ⟨item, Or.inl rfl⟩
    -- what the updated entry attests
    have hrec : ∀ q hsh, (item0.UpdateConfirmList b.P2PID b.Hash).ConfirmedList.get? q = some hsh →
        (q = b.P2PID ∧ hsh = b.Hash) ∨
        ∃ item, t.unConfirmedMessages.get? b.Key = some item ∧
          item.ConfirmedList.get? q = some hsh := by
      intro q hsh hq
      simp only [LocalCacheItem.UpdateConfirmList, GoMap.get?_set] at hq
      split_ifs at hq with hqp
      · simp only [Option.some.injEq] at hq
        exact Or.inl ⟨hqp, hq.symm⟩
      · rcases h0 with h0 | ⟨_, h1⟩
        · exact Or.inr ⟨item0, h0, hq⟩
        · rw [h1] at hq
          simp [NewLocalCacheItem, GoMap.get?] at hq
    have hin : ∀ item1 : LocalCacheItem,
        (∀ q hsh, item1.ConfirmedList.get? q = some hsh →
          (item0.UpdateConfirmList b.P2PID b.Hash).ConfirmedList.get? q = some hsh) →
        (t.unConfirmedMessages.set b.Key item1).get? key = some item' →
        (key = b.Key ∧ q = b.P2PID ∧ hsh = b.Hash) ∨
        ∃ item, t.unConfirmedMessages.get? key = some item ∧
          item.ConfirmedList.get? q = some hsh := by
      intro item1 hsub hg
      rw [GoMap.get?_set] at hg
      split_ifs at hg with hk
      · simp only [Option.some.injEq] at hg
        subst hg
        rcases hrec q hsh (hsub q hsh hq) with ⟨h1, h2⟩ | h1
        · exact Or.inl ⟨hk, h1, h2⟩
        · rw [hk]; exact Or.inr h1
      · exact Or.inr ⟨item', hg, hq⟩
    rcases processVerMsg_cache env t t' b msgType e partyInfo item0 hpi h0 h with
      hc | hc | ⟨item2, hc, hcl⟩
    · rw [hc] at hget
      exact hin _ (fun _ _ h => h) hget
    · rw [hc] at hget
      have hk : key ≠ b.Key := by
        intro hk
        rw [hk, GoMap.get?_delete_self] at hget
        cases hget
      rw [GoMap.get?_delete_of_ne _ _ _ hk] at hget
      exact hin _ (fun _ _ h => h) hget
    · rw [hc] at hget
      rw [GoMap.get?_set] at hget
      split_ifs at hget with hk
      · simp only [Option.some.injEq] at hget
        subst hget
        have hq1 : (item0.UpdateConfirmList b.P2PID b.Hash).ConfirmedList.get? q = some hsh := by
          rcases hcl with hcl | ⟨_, _, _, p, _, _, _, _, hcl⟩
          · rw [← hcl]; exact hq
          · rw [hcl] at hq
            exact GoMap.get?_delete_some _ _ _ _ hq
        rcases hrec q hsh hq1 with ⟨h1, h2⟩ | h1
        · exact Or.inl ⟨hk, h1, h2⟩
        · rw [hk]; exact Or.inr h1
      · exact hin _ (fun _ _ h => h) hget

/-- With the party info set, the entry of `Key` attests `P2PID ↦ Hash` after
`processVerMsg`, as long as the entry is kept, unless `P2PID` is the peer of
the data owner of the message in the entry: `hashCheck` deletes that
attestation. -/
theorem processVerMsg_records (env : Env) (t t' : TssCommon)
    (b : BroadcastConfirmMessage) (msgType : THORChainTSSMessageType) (e : Option GoError)
    (hpi : t.partyInfo ≠ none)
    (h : t.processVerMsg env (some b) msgType = .ok (t', e))
    (item' : LocalCacheItem) (hget : t'.unConfirmedMessages.get? b.Key = some item') :
    item'.ConfirmedList.get? b.P2PID = some b.Hash ∨
    ∃ W routing owner, item'.Msg = some W ∧ W.Routing = some routing ∧
      routing.From = some owner ∧ t.PartyIDtoP2PID.get? owner.Id = some b.P2PID := by
  cases hpi' : t.partyInfo with
  | none => exact absurd hpi' hpi
  | some partyInfo =>
    obtain ⟨item0, h0⟩ : ∃ item0, t.unConfirmedMessages.get? b.Key = some item0 ∨
        (t.unConfirmedMessages.get? b.Key = none ∧ item0 = NewLocalCacheItem none b.Hash) := by
      cases hg : t.unConfirmedMessages.get? b.Key with
      | none => exact ⟨_, Or.inr ⟨rfl, rfl⟩⟩
      | some item => exact ⟨item, Or.inl rfl⟩
    have hrec : (item0.UpdateConfirmList b.P2PID b.Hash).ConfirmedList.get? b.P2PID
        = some b.Hash := by
      simp only [LocalCacheItem.UpdateConfirmList, GoMap.get?_set, if_true]
    rcases processVerMsg_cache env t t' b msgType e partyInfo item0 hpi' h0 h with
      hc | hc | ⟨item2, hc, hcl⟩
    · rw [hc, GoMap.get?_set, if_pos rfl] at hget
      simp only [Option.some.injEq] at hget
      subst hget
      exact Or.inl hrec
    · rw [hc, GoMap.get?_delete_self] at hget
      cases hget
    · rw [hc, GoMap.get?_set, if_pos rfl] at hget
      simp only [Option.some.injEq] at hget
      subst hget
      rcases hcl with hcl | ⟨W, routing, owner, p, hW, hr, hf, hp, hcl⟩
      · rw [hcl]; exact Or.inl hrec
      · by_cases hpp : b.P2PID = p
        · exact Or.inr ⟨W, routing, owner, hW, hr, hf, by rw [hpp]; exact hp⟩
        · rw [hcl, GoMap.get?_delete_of_ne _ _ _ hpp]
          exact Or.inl hrec

/-- C28: for a VerMsg of either kind handled by `ProcessOneMessage`, the
attestation is recorded in `ConfirmedList` under the transport-level peer id
`peerID`, and the `P2PID` field of the payload has no influence.  First, the
result and the state are the same whatever the `P2PID` field holds.  Second, a
VerMsg that is not a duplicate is handed to `processVerMsg` with `P2PID`
overwritten by `peerID`.  Third, whatever an entry of the cache attests after
the call, it attested before the call, except for `peerID ↦ Hash` in the entry
of `Key`: nothing is recorded under another peer id.  Fourth, when the party
info is set and `peerID` has not attested `Key` before, the entry of `Key`, as
long as it is kept (it is removed once its share is applied), attests
`peerID ↦ Hash`, unless `peerID` is the peer of the data owner of the message
in the entry, whose attestation `hashCheck` deletes. -/
theorem VerMsg_recorded_under_peerID (env : Env) (t : TssCommon) (m : WrappedMessage)
    (bMsg : BroadcastConfirmMessage) (peerID p2pid : String)
    (hty : m.MessageType = TSSKeyGenVerMsg ∨ m.MessageType = TSSKeySignVerMsg)
    (hpay : m.Payload.confirm = some bMsg) :
    t.ProcessOneMessage env
        (some { m with Payload := { m.Payload with
          confirm := some { bMsg with P2PID := p2pid } } }) peerID =
      t.ProcessOneMessage env (some m) peerID ∧
    t.ProcessOneMessage env (some m) peerID =
      (if (t.checkDupAndUpdateVerMsg bMsg peerID).2 then
        t.processVerMsg env (some { bMsg with P2PID := peerID }) m.MessageType
      else .ok (t, none)) ∧
    (∀ (t' : TssCommon) (e : Option GoError),
      t.ProcessOneMessage env (some m) peerID = .ok (t', e) →
      ∀ (key : String) (item' : LocalCacheItem) (q hash : String),
        t'.unConfirmedMessages.get? key = some item' →
        item'.ConfirmedList.get? q = some hash →
        (key = bMsg.Key ∧ q = peerID ∧ hash = bMsg.Hash) ∨
        ∃ item, t.unConfirmedMessages.get? key = some item ∧
          item.ConfirmedList.get? q = some hash) ∧
    (∀ (t' : TssCommon) (e : Option GoError),
      t.ProcessOneMessage env (some m) peerID = .ok (t', e) →
      t.partyInfo ≠ none → (t.checkDupAndUpdateVerMsg bMsg peerID).2 = true →
      ∀ item' : LocalCacheItem, t'.unConfirmedMessages.get? bMsg.Key = some item' →
        item'.ConfirmedList.get? peerID = some bMsg.Hash ∨
        ∃ W routing owner, item'.Msg = some W ∧ W.Routing = some routing ∧
          routing.From = some owner ∧ t.PartyIDtoP2PID.get? owner.Id = some peerID) := by
  have hdup : ∀ b : BroadcastConfirmMessage, b.Key = bMsg.Key →
      t.checkDupAndUpdateVerMsg b peerID =
        (if (t.checkDupAndUpdateVerMsg bMsg peerID).2 then { b with P2PID := peerID } else b,
         (t.checkDupAndUpdateVerMsg bMsg peerID).2) := by
    intro b hb
    unfold TssCommon.checkDupAndUpdateVerMsg
    rw [hb]
    cases t.TryGetLocalCacheItem bMsg.Key with
    | none => rfl
    | some item =>
      simp only
      by_cases hc : (item.ConfirmedList.get? peerID).isSome = true
      · simp [hc]
      · simp [hc]
  have h1 := hdup bMsg rfl
  have h2 := hdup { bMsg with P2PID := p2pid } rfl
  have hsame : t.ProcessOneMessage env
        (some { m with Payload := { m.Payload with
          confirm := some { bMsg with P2PID := p2pid } } }) peerID =
      t.ProcessOneMessage env (some m) peerID ∧
    t.ProcessOneMessage env (some m) peerID =
      (if (t.checkDupAndUpdateVerMsg bMsg peerID).2 then
        t.processVerMsg env (some { bMsg with P2PID := peerID }) m.MessageType
      else .ok (t, none)) := by
    unfold TssCommon.ProcessOneMessage
    rcases hty with hty | hty <;> simp only [hty, hpay, h2] <;> rw [h1] <;>
      cases (t.checkDupAndUpdateVerMsg bMsg peerID).2 <;> simp
  refine ⟨hsame.1, hsame.2, ?_, ?_⟩
  · intro t' e h key item' q hash hget hq
    rw [hsame.2] at h
    by_cases hd : (t.checkDupAndUpdateVerMsg bMsg peerID).2 = true
    · rw [if_pos hd] at h
      exact processVerMsg_records_only env t t' { bMsg with P2PID := peerID } m.MessageType e h
        key item' q hash hget hq
    · rw [if_neg hd] at h
      cases h
      exact Or.inr ⟨item', hget, hq⟩
  · intro t' e h hpi hd item' hget
    rw [hsame.2, if_pos hd] at h
    exact processVerMsg_records env t t' { bMsg with P2PID := peerID } m.MessageType e hpi h
      item' hget

/-- C28, witness: party `A` receives from `peerB` an attestation of `S-r1`
whose `P2PID` field names `peerC`; the result is that of the same attestation
with an empty `P2PID`, and the cache then holds the single attestation
`peerB ↦ 00` under `S-r1`. -/
theorem VerMsg_recorded_under_peerID_witness :
    (demoSession ["S", "A", "B", "C"] "A").ProcessOneMessage demoEnv
        (some { wrapVer "S-r1" "00" with Payload := { (wrapVer "S-r1" "00").Payload with
          confirm := some { ({ P2PID := "", Key := "S-r1", Hash := "00" } :
            BroadcastConfirmMessage) with P2PID := "peerC" } } }) "peerB" =
      (demoSession ["S", "A", "B", "C"] "A").ProcessOneMessage demoEnv
        (some (wrapVer "S-r1" "00")) "peerB" ∧
    (∀ (t' : TssCommon) (e : Option GoError),
      (demoSession ["S", "A", "B", "C"] "A").ProcessOneMessage demoEnv
        (some (wrapVer "S-r1" "00")) "peerB" = .ok (t', e) →
      (∀ (key : String) (item' : LocalCacheItem) (q hash : String),
        t'.unConfirmedMessages.get? key = some item' →
        item'.ConfirmedList.get? q = some hash →
        (key = "S-r1" ∧ q = "peerB" ∧ hash = "00") ∨
        ∃ item, (demoSession ["S", "A", "B", "C"] "A").unConfirmedMessages.get? key = some item ∧
          item.ConfirmedList.get? q = some hash) ∧
      ∀ item' : LocalCacheItem, t'.unConfirmedMessages.get? "S-r1" = some item' →
        item'.ConfirmedList.get? "peerB" = some "00" ∨
        ∃ W routing owner, item'.Msg = some W ∧ W.Routing = some routing ∧
          routing.From = some owner ∧
          (demoSession ["S", "A", "B", "C"] "A").PartyIDtoP2PID.get? owner.Id = some "peerB") ∧
    ((demoSession ["S", "A", "B", "C"] "A").ProcessOneMessage demoEnv
        (some { wrapVer "S-r1" "00" with Payload := { (wrapVer "S-r1" "00").Payload with
          confirm := some { P2PID := "peerC", Key := "S-r1", Hash := "00" } } }) "peerB").map
      (fun r => r.1.unConfirmedMessages) =
      .ok [("S-r1", { Msg := none, Hash := "00", ConfirmedList := [("peerB", "00")] })] :=
  have h := VerMsg_recorded_under_peerID demoEnv (demoSession ["S", "A", "B", "C"] "A")
    (wrapVer "S-r1" "00") { P2PID := "", Key := "S-r1", Hash := "00" } "peerB" "peerC"
    (Or.inl rfl) rfl
  ⟨h.1, fun t' e hr => ⟨h.2.2.1 t' e hr, h.2.2.2 t' e hr (by decide) (by decide!)⟩, by decide!⟩

/-! ## C29: who is counted by the `TSSTaskDone` handler -/

theorem donePeers_of_all_done (msgs : List (WrappedMessage × String))
    (hall : ∀ x ∈ msgs, x.1.MessageType = TSSTaskDone ∧
      x.1.Payload.notifier = some { TaskDone := true }) :
    donePeers msgs = (msgs.map (fun x => x.2)).toFinset := by
  unfold donePeers
  have hf : msgs.filter (fun m => m.1.MessageType = TSSTaskDone ∧
      m.1.Payload.notifier = some { TaskDone := true }) = msgs := by
    apply List.filter_eq_self.mpr
    intro x hx
    simpa using hall x hx
  rw [hf]

/-- C29: in a session of `N` parties that starts with no finished peer and an
open `taskDone`, `TSSTaskDone` notifications with `TaskDone = true` from `N - 1`
distinct peer ids (at least one), whatever strings they are and whether or not
they belong to the committee, are handled without a panic and leave `taskDone`
closed, with exactly these peer ids counted in `finishedPeers`. -/
theorem taskDone_counts_any_peer (env : Env) (pi : PartyInfo) (t0 : TssCommon)
    (msgs : List (WrappedMessage × String))
    (hpi : t0.partyInfo = some pi) (hfin : t0.finishedPeers = []) (hopen : t0.taskDone = false)
    (hall : ∀ x ∈ msgs, x.1.MessageType = TSSTaskDone ∧
      x.1.Payload.notifier = some { TaskDone := true })
    (hne : msgs ≠ []) (hdistinct : (msgs.map (fun x => x.2)).Nodup)
    (hlen : (msgs.length : Int) = (pi.PartyIDMap.length : Int) - 1) :
    ∃ t1, runMessages env t0 msgs = .ok t1 ∧
      t1.taskDone = true ∧
      t1.finishedPeers.keys.toFinset = (msgs.map (fun x => x.2)).toFinset := by
  obtain ⟨t1, hrun, inv⟩ := TaskDoneInv_run env pi msgs t0 []
    (fun x hx => (hall x hx).1) (TaskDoneInv_init pi t0 hpi hfin hopen)
  simp only [List.nil_append] at inv
  refine ⟨t1, hrun, ?_, ?_⟩
  · apply inv.closed.mpr
    rw [donePeers_of_all_done msgs hall, List.toFinset_card_of_nodup hdistinct,
      List.length_map]
    have hpos : 0 < msgs.length := List.length_pos.mpr hne
    constructor <;> omega
  · rw [inv.keys, donePeers_of_all_done msgs hall]

/-- C29, witness: the three party session with the party ids `1, 2, 3` and no
known peer is closed by the notifications of the peers `x` and `y`. -/
theorem taskDone_counts_any_peer_witness :
    threePartySession.PartyIDtoP2PID = [] ∧
    ∃ t1, runMessages demoEnv threePartySession [(taskDoneMsg, "x"), (taskDoneMsg, "y")] =
        .ok t1 ∧
      t1.taskDone = true ∧
      t1.finishedPeers.keys.toFinset =
        ([(taskDoneMsg, "x"), (taskDoneMsg, "y")].map (fun x => x.2)).toFinset :=
  ⟨rfl, taskDone_counts_any_peer demoEnv threePartyInfo threePartySession
    [(taskDoneMsg, "x"), (taskDoneMsg, "y")] rfl rfl rfl
    (by
      intro x hx
      simp only [List.mem_cons, List.mem_singleton, List.not_mem_nil, or_false] at hx
      rcases hx with h | h <;> subst h <;> exact ⟨rfl, rfl⟩)
    (by decide) (by decide) (by decide)⟩

/-! ## C30: messages before `SetPartyInfo` -/

/-- C30 fails on the code: on a `TssCommon` fresh from `NewTssCommon`, a
`TSSTaskDone` notification panics on `t.partyInfo.PartyIDMap`, and a round
message with routing and sender panics on `t.getPartyInfo().PartyIDMap` in
`processTSSMsg`; a VerMsg returns the error of the nil check in
`processVerMsg`. -/
theorem ProcessOneMessage_before_SetPartyInfo_panics :
    (NewTssCommon "peerA" (some []) "msgid").ProcessOneMessage demoEnv (some taskDoneMsg)
      "peerB" = .error "nil pointer dereference: t.partyInfo" ∧
    (NewTssCommon "peerA" (some []) "msgid").ProcessOneMessage demoEnv
      (some (wrapWire (demoBroadcast "S" "r1" [1, 2]))) "peerS" =
      .error "nil pointer dereference: t.getPartyInfo()" ∧
    (NewTssCommon "peerA" (some []) "msgid").ProcessOneMessage demoEnv
      (some (wrapVer "S-r1" "00")) "peerB" =
      .ok (NewTssCommon "peerA" (some []) "msgid",
        some (.new "can't process ver msg , local party is not ready")) := by
  refine ⟨by decide, by decide, by decide⟩
/-! ## C27: `PeerStatus` -/

theorem GoMap.mem_keys_set {β : Type} (m : GoMap β) (k : String) (v : β) (q : String) :
    q ∈ (m.set k v).keys ↔ q ∈ m.keys ∨ q = k := by
  by_cases hk : k ∈ m.keys
  · rw [GoMap.keys_set_of_mem m k v hk]
    constructor
    · exact Or.inl
    · rintro (h | h)
      · exact h
      · rw [h]; exact hk
  · rw [GoMap.keys_set_of_not_mem m k v hk, List.mem_append, List.mem_singleton]

theorem GoMap.mem_keys_iff_get? {β : Type} (m : GoMap β) (q : String) :
    q ∈ m.keys ↔ ∃ v, m.get? q = some v := by
  constructor
  · intro h
    cases hg : m.get? q with
    | none => exact absurd h ((GoMap.get?_eq_none_iff m q).mp hg)
    | some v => exact ⟨v, rfl⟩
  · rintro ⟨v, hv⟩
    by_contra hn
    rw [(GoMap.get?_eq_none_iff m q).mpr hn] at hv
    cases hv

theorem NewPeerStatus_loop (self : String) (peerNodes : List String) :
    ∀ dat : GoMap Bool, dat.WF → (∀ q v, dat.get? q = some v → v = false) →
      let res := peerNodes.foldl (fun dat el => if el = self then dat else dat.set el false) dat
      res.WF ∧ (∀ q, q ∈ res.keys ↔ q ∈ dat.keys ∨ (q ∈ peerNodes ∧ q ≠ self)) ∧
        (∀ q v, res.get? q = some v → v = false) := by
  induction peerNodes with
  | nil => intro dat hwf hv; exact ⟨hwf, by simp, hv⟩
  | cons el rest ih =>
    intro dat hwf hv
    simp only [List.foldl_cons]
    by_cases he : el = self
    · rw [if_pos he]
      obtain ⟨h1, h2, h3⟩ := ih dat hwf hv
      refine ⟨h1, ?_, h3⟩
      intro q
      rw [h2 q, List.mem_cons]
      constructor
      · rintro (h | ⟨h, hne⟩)
        · exact Or.inl h
        · exact Or.inr ⟨Or.inr h, hne⟩
      · rintro (h | ⟨h | h, hne⟩)
        · exact Or.inl h
        · exact absurd (h.trans he) hne
        · exact Or.inr ⟨h, hne⟩
    · rw [if_neg he]
      obtain ⟨h1, h2, h3⟩ := ih (dat.set el false) (GoMap.nodup_set dat el false hwf)
        (by
          intro q v hq
          rw [GoMap.get?_set] at hq
          split_ifs at hq
          · cases hq; rfl
          · exact hv q v hq)
      refine ⟨h1, ?_, h3⟩
      intro q
      rw [h2 q, GoMap.mem_keys_set, List.mem_cons]
      constructor
      · rintro ((h | h) | ⟨h, hne⟩)
        · exact Or.inl h
        · exact Or.inr ⟨Or.inl h, h ▸ he⟩
        · exact Or.inr ⟨Or.inr h, hne⟩
      · rintro (h | ⟨h | h, hne⟩)
        · exact Or.inl (Or.inl h)
        · exact Or.inl (Or.inr h)
        · exact Or.inr ⟨h, hne⟩

theorem Tracks_new (invited : List String) (self : String) :
    (NewPeerStatus invited self).Tracks invited self [] := by
  obtain ⟨h1, h2, h3⟩ := NewPeerStatus_loop self invited [] (by simp [GoMap.WF, GoMap.keys])
    (by intro q v h; simp [GoMap.get?] at h)
  refine ⟨h1, ?_, ?_⟩
  · intro q
    have := h2 q
    simpa [GoMap.keys] using this
  · intro q v hq
    have := h3 q v hq
    subst this
    simp

theorem Tracks_updatePeer (ps : PeerStatus) (invited : List String) (self : String)
    (calls : List String) (p : String) (h : ps.Tracks invited self calls) :
    (ps.updatePeer p).1.Tracks invited self (calls ++ [p]) := by
  unfold PeerStatus.updatePeer
  cases hg : ps.peersResponse.get? p with
  | none =>
    refine ⟨h.nodup, h.keys, ?_⟩
    intro q v hq
    have hne : q ≠ p := by
      intro e
      rw [e, hg] at hq
      cases hq
    rw [h.vals q v hq, List.mem_append, List.mem_singleton]
    exact ⟨Or.inl, fun h' => h'.resolve_right hne⟩
  | some val =>
    cases val with
    | true =>
      refine ⟨h.nodup, h.keys, ?_⟩
      intro q v hq
      have hp : p ∈ calls := (h.vals p true hg).mp rfl
      rw [h.vals q v hq, List.mem_append, List.mem_singleton]
      exact ⟨Or.inl, fun h' => h'.elim id (fun e => e ▸ hp)⟩
    | false =>
      have hpk : p ∈ ps.peersResponse.keys := (GoMap.mem_keys_iff_get? _ _).mpr ⟨_, hg⟩
      refine ⟨GoMap.nodup_set _ _ _ h.nodup, ?_, ?_⟩
      · intro q
        simp only [Bool.not_false, if_true]
        rw [GoMap.keys_set_of_mem _ _ _ hpk]
        exact h.keys q
      · intro q v hq
        simp only [Bool.not_false, if_true] at hq
        rw [GoMap.get?_set] at hq
        rw [List.mem_append, List.mem_singleton]
        split_ifs at hq with hqp
        · cases hq
          exact ⟨fun _ => Or.inr hqp, fun _ => rfl⟩
        · rw [h.vals q v hq]
          exact ⟨Or.inl, fun h' => h'.resolve_right hqp⟩

theorem Tracks_updatePeers (invited : List String) (self : String) (calls : List String) :
    ((NewPeerStatus invited self).updatePeers calls).Tracks invited self calls := by
  induction calls using List.reverseRecOn with
  | nil => exact Tracks_new invited self
  | append_singleton calls p ih =>
    unfold PeerStatus.updatePeers at ih ⊢
    rw [List.foldl_append]
    exact Tracks_updatePeer _ invited self calls p ih

/-- C27: on the `PeerStatus` built by `NewPeerStatus invited self`, after
`updatePeer` has been called for the peers `calls` in turn, `updatePeer p`
returns the error `key not found` when `p` is not invited or is `self`, and
else `(true, nil)` when `p` has not been updated before and `(false, nil)` when
it has; `getPeersStatus` lists each invited peer other than `self` once, online
when it has been updated and offline when not; and `getCoordinationStatus` is
true exactly when no peer is offline. -/
theorem PeerStatus_spec (ro : RangeOrder) (invited : List String) (self : String)
    (calls : List String) (p : String) :
    (((NewPeerStatus invited self).updatePeers calls).updatePeer p).2 =
      (if p ∈ invited ∧ p ≠ self then
        (if p ∈ calls then (false, none) else (true, none))
      else (false, some (.new "key not found"))) ∧
    (∀ q, q ∈ (((NewPeerStatus invited self).updatePeers calls).getPeersStatus ro).1 ↔
      (q ∈ invited ∧ q ≠ self) ∧ q ∈ calls) ∧
    (∀ q, q ∈ (((NewPeerStatus invited self).updatePeers calls).getPeersStatus ro).2 ↔
      (q ∈ invited ∧ q ≠ self) ∧ q ∉ calls) ∧
    (((NewPeerStatus invited self).updatePeers calls).getPeersStatus ro).1.Nodup ∧
    (((NewPeerStatus invited self).updatePeers calls).getPeersStatus ro).2.Nodup ∧
    (((NewPeerStatus invited self).updatePeers calls).getCoordinationStatus ro = true ↔
      (((NewPeerStatus invited self).updatePeers calls).getPeersStatus ro).2 = []) := by
  have h := Tracks_updatePeers invited self calls
  generalize (NewPeerStatus invited self).updatePeers calls = ps at h
  have hperm := GoMap.range_perm ro ps.peersResponse h.nodup
  have hmem : ∀ q v, (q, v) ∈ GoMap.range ro ps.peersResponse ↔
      ps.peersResponse.get? q = some v := by
    intro q v
    rw [hperm.mem_iff]
    exact ⟨GoMap.get?_of_mem _ q v h.nodup, GoMap.mem_of_get?_eq_some _ q v⟩
  have hnodup : ((GoMap.range ro ps.peersResponse).map Prod.fst).Nodup :=
    (hperm.map Prod.fst).nodup_iff.mpr h.nodup
  have hside : ∀ (b : Bool) (q : String),
      q ∈ ((GoMap.range ro ps.peersResponse).filter (fun kv => kv.2 == b)).map Prod.fst ↔
        ps.peersResponse.get? q = some b := by
    intro b q
    simp only [List.mem_map, List.mem_filter, beq_iff_eq]
    constructor
    · rintro ⟨⟨k, v⟩, ⟨hin, hv⟩, hk⟩
      simp only at hv hk
      subst hv; subst hk
      exact (hmem _ _).mp hin
    · intro hq
      exact ⟨(q, b), ⟨(hmem q b).mpr hq, rfl⟩, rfl⟩
  have hget : ∀ (b : Bool) (q : String), ps.peersResponse.get? q = some b ↔
      (q ∈ invited ∧ q ≠ self) ∧ (b = true ↔ q ∈ calls) := by
    intro b q
    constructor
    · intro hq
      exact ⟨(h.keys q).mp ((GoMap.mem_keys_iff_get? _ _).mpr ⟨b, hq⟩), h.vals q b hq⟩
    · rintro ⟨hk, hb⟩
      obtain ⟨v, hv⟩ := (GoMap.mem_keys_iff_get? _ _).mp ((h.keys q).mpr hk)
      have := h.vals q v hv
      have hvb : v = b := by
        cases v <;> cases b <;> simp_all
      rw [hv, hvb]
  have hf1 : (fun kv : String × Bool => kv.2) = (fun kv => kv.2 == true) := by
    funext kv; cases kv.2 <;> rfl
  have hf2 : (fun kv : String × Bool => !kv.2) = (fun kv => kv.2 == false) := by
    funext kv; cases kv.2 <;> rfl
  refine ⟨?_, ?_, ?_, ?_, ?_, ?_⟩
  · unfold PeerStatus.updatePeer
    by_cases hk : p ∈ invited ∧ p ≠ self
    · rw [if_pos hk]
      obtain ⟨v, hv⟩ := (GoMap.mem_keys_iff_get? _ _).mp ((h.keys p).mpr hk)
      have hvc := h.vals p v hv
      rw [hv]
      cases v with
      | true => simp [hvc.mp rfl]
      | false =>
        have : p ∉ calls := fun hc => by simpa using hvc.mpr hc
        simp [this]
    · rw [if_neg hk]
      have hnone : ps.peersResponse.get? p = none :=
        (GoMap.get?_eq_none_iff _ _).mpr (fun hin => hk ((h.keys p).mp hin))
      rw [hnone]
  · intro q
    unfold PeerStatus.getPeersStatus
    simp only [hf1]
    rw [hside true q, hget true q]
    simp
  · intro q
    unfold PeerStatus.getPeersStatus
    simp only [hf2]
    rw [hside false q, hget false q]
    simp
  · unfold PeerStatus.getPeersStatus
    exact (hnodup.sublist ((List.filter_sublist _).map Prod.fst))
  · unfold PeerStatus.getPeersStatus
    exact (hnodup.sublist ((List.filter_sublist _).map Prod.fst))
  · unfold PeerStatus.getCoordinationStatus
    simp [List.length_eq_zero]

/-- The calls of `TestPeerStatus`: five peers, the first is the local one. -/
theorem PeerStatus_test :
    ((NewPeerStatus ["p0", "p1", "p2", "p3", "p4"] "p0").updatePeer "p2").2 = (true, none) ∧
    (((NewPeerStatus ["p0", "p1", "p2", "p3", "p4"] "p0").updatePeers ["p2", "p1"]).updatePeer
      "p2").2 = (false, none) ∧
    ((NewPeerStatus ["p0", "p1", "p2", "p3", "p4"] "p0").updatePeers
      ["p2", "p1", "p2"]).getPeersStatus listOrder = (["p1", "p2"], ["p3", "p4"]) ∧
    ((NewPeerStatus ["p0", "p1", "p2", "p3", "p4"] "p0").updatePeers
      ["p2", "p1", "p2"]).getCoordinationStatus listOrder = false ∧
    (((NewPeerStatus ["p0", "p1", "p2", "p3", "p4"] "p0").updatePeers
      ["p2", "p1", "p2"]).updatePeer "unknown").2 = (false, some (.new "key not found")) ∧
    ((NewPeerStatus ["p0", "p1", "p2", "p3", "p4"] "p0").updatePeers
      ["p2", "p1", "p2", "p3", "p4"]).getCoordinationStatus listOrder = true := by
  refine ⟨by decide, by decide, by decide, by decide, by decide, by decide⟩

end GoTss
